import Mathlib

/-!
Verification development for the fnmap structural-extraction engine.

Strings of the JavaScript source are modelled as `List Char` (`Str`), so that
every operation of the model is an executable, structurally recursive Lean
function and every concrete run can be checked by `decide`/`rfl`.
-/

namespace Fnmap

abbrev Str := List Char

/-- Decimal digit character, `48 + d` is the ASCII code of digit `d`. -/
def digitChar (d : Nat) : Char := Char.ofNat (48 + d)

/-- Fuel-driven decimal printer: digits of `n`, most significant first.
`decAux fuel n` is the digit string of `n` (empty for `0`) whenever `n ≤ fuel`. -/
def decAux : Nat → Nat → Str
  | 0, _ => []
  | fuel + 1, n => if n = 0 then [] else decAux fuel (n / 10) ++ [digitChar (n % 10)]

/-- Decimal representation of a natural number, as produced by JavaScript
string interpolation of a non-negative integer. -/
def decRepr (n : Nat) : Str := if n = 0 then ['0'] else decAux (n + 1) n

/-- Value of a digit string (inverse of `decRepr`). -/
def digitsToNat (s : Str) : Nat := s.foldl (fun a c => a * 10 + (c.toNat - 48)) 0

/-- ASCII decimal digit test. -/
def isDig (c : Char) : Bool := 48 ≤ c.toNat && c.toNat ≤ 57

/-- ASCII-alphanumeric test, the complement of the regex `[^a-zA-Z0-9]` used by
the diagram generators. -/
def isAsciiAlnum (c : Char) : Bool :=
  (97 ≤ c.toNat && c.toNat ≤ 122) || (65 ≤ c.toNat && c.toNat ≤ 90) ||
    (48 ≤ c.toNat && c.toNat ≤ 57)

/-- Per-character encoding of `name.replace(/[^a-zA-Z0-9]/g, c => '_' + code + '_')`. -/
def encChar (c : Char) : Str :=
  if isAsciiAlnum c then [c] else '_' :: (decRepr c.toNat ++ ['_'])

/-- The full replacement over a display name. -/
def encodeChars : Str → Str
  | [] => []
  | c :: cs => encChar c ++ encodeChars cs

/-- `safeId` of `src/generator/mermaid.ts` (both `generateFileMermaid` and
`generateProjectMermaid`): prefix `id_`, every non-alphanumeric character
replaced by an underscore-delimited decimal code token. -/
def safeId (name : Str) : Str := 'i' :: 'd' :: '_' :: encodeChars name

/-! ## Data model (`src/types/index.ts`) -/

/-- `MethodInfo.kind` discriminator (`ctor` stands for `'constructor'`). -/
inductive MethodKind
  | ctor
  | method
  | get
  | set
deriving DecidableEq

structure FunctionInfo where
  name : Str
  params : Str
  startLine : Nat
  endLine : Nat
  description : Str
deriving DecidableEq

structure MethodInfo where
  name : Str
  params : Str
  line : Nat
  static : Bool
  kind : MethodKind
  description : Str
deriving DecidableEq

structure ClassInfo where
  name : Str
  superClass : Option Str
  startLine : Nat
  endLine : Nat
  methods : List MethodInfo
  description : Str
deriving DecidableEq

structure ConstantInfo where
  name : Str
  line : Nat
  description : Str
deriving DecidableEq

inductive ExportKind
  | value
  | type
  | default
deriving DecidableEq

structure ExportInfo where
  name : Str
  localName : Option Str
  line : Nat
  kind : ExportKind
deriving DecidableEq

structure ImportInfo where
  module : Str
  members : List Str
  usedIn : List Str
deriving DecidableEq

/-- `CallGraph = Record<string, string[]>`, modelled as an insertion-ordered
association list with unique keys. -/
abbrev CallGraph := List (Str × List Str)

structure FileInfo where
  description : Str
  imports : List ImportInfo
  functions : List FunctionInfo
  classes : List ClassInfo
  constants : List ConstantInfo
  exports : List ExportInfo
  callGraph : CallGraph
  isPureType : Option Bool := none
deriving DecidableEq

/-- Property access `cg[key]` on the call-graph record. -/
def cgFind (cg : CallGraph) (key : Str) : Option (List Str) :=
  match cg with
  | [] => none
  | (k, v) :: rest => if k = key then some v else cgFind rest key

/-- `Array.prototype.join(sep)`. -/
def joinSep (sep : Str) : List Str → Str
  | [] => []
  | [x] => x
  | x :: xs => x ++ sep ++ joinSep sep xs

/-- POSIX `path.basename`: drop trailing slashes, then keep the part after the
last remaining slash. -/
def basenameStr (p : Str) : Str :=
  ((p.reverse.dropWhile (fun c => c = '/')).takeWhile (fun c => c ≠ '/')).reverse

/-! ## Compact-index serializer (`src/generator/fnmap.ts`, `generateAiMap`) -/

/-- Description suffix ` description` (empty when the description is empty). -/
def descSuffix (d : Str) : Str := if d ≠ [] then ' ' :: d else []

/-- The `get:`/`set:` accessor mark of a method line. -/
def kindMark : MethodKind → Str
  | .get => 'g' :: 'e' :: 't' :: [':']
  | .set => 's' :: 'e' :: 't' :: [':']
  | _ => []

/-- The `#<filename> <description?>` file-header line. -/
def fileHeaderLine (relativePath : Str) (info : FileInfo) : Str :=
  '#' :: basenameStr relativePath ++
    (if info.description ≠ [] then ' ' :: info.description.take 50 else [])

/-- The `  <module:members` import line. -/
def importLine (imp : ImportInfo) : Str :=
  ' ' :: ' ' :: '<' :: imp.module ++ ':' :: joinSep [','] imp.members

/-- The `  Name[:Super] start-end [description]` class-header line. -/
def classHeaderLine (cls : ClassInfo) : Str :=
  ' ' :: ' ' :: cls.name ++
    (match cls.superClass with | some s => ':' :: s | none => []) ++
    ' ' :: decRepr cls.startLine ++ '-' :: decRepr cls.endLine ++
    descSuffix cls.description

/-- Outgoing-call suffix ` →c1,c2` (empty when there are no calls). -/
def callSuffix (calls : Option (List Str)) : Str :=
  match calls with
  | some cs => if cs ≠ [] then ' ' :: '→' :: joinSep [','] cs else []
  | none => []

/-- The indented `    .`/`    +` method line, with optional `get:`/`set:` mark,
single line number, description, and call suffix
(`info.callGraph?.[Class.method] ?? info.callGraph?.[method]`). -/
def methodLine (cg : CallGraph) (clsName : Str) (m : MethodInfo) : Str :=
  (if m.static then ' ' :: ' ' :: ' ' :: ' ' :: ['+'] else ' ' :: ' ' :: ' ' :: ' ' :: ['.']) ++
    kindMark m.kind ++
    m.name ++ '(' :: m.params ++ ')' :: ' ' :: decRepr m.line ++
    descSuffix m.description ++
    callSuffix ((cgFind cg (clsName ++ '.' :: m.name)).orElse (fun _ => cgFind cg m.name))

/-- The `  name(params) start-end [description] [→calls]` function line. -/
def functionLine (cg : CallGraph) (fn : FunctionInfo) : Str :=
  ' ' :: ' ' :: fn.name ++ '(' :: fn.params ++ ')' :: ' ' ::
    decRepr fn.startLine ++ '-' :: decRepr fn.endLine ++
    descSuffix fn.description ++
    callSuffix (cgFind cg fn.name)

/-- The `  name line [description]` constant line. -/
def constantLine (c : ConstantInfo) : Str :=
  ' ' :: ' ' :: c.name ++ ' ' :: decRepr c.line ++
    descSuffix c.description

/-- One entry of the `>` export-summary line. -/
def exportName (exp : ExportInfo) : Str :=
  match exp.kind with
  | .default =>
    match exp.localName with
    | some l => 'd' :: 'e' :: 'f' :: 'a' :: 'u' :: 'l' :: 't' :: ':' :: l
    | none => 'd' :: 'e' :: 'f' :: 'a' :: 'u' :: 'l' :: 't' :: []
  | .type => 't' :: 'y' :: 'p' :: 'e' :: ':' :: exp.name
  | .value => exp.name

/-- All lines contributed by one `(relativePath, info)` entry. -/
def entryLines (relativePath : Str) (info : FileInfo) : List Str :=
  fileHeaderLine relativePath info ::
    info.imports.map importLine ++
    (info.classes.flatMap fun cls =>
      classHeaderLine cls :: cls.methods.map (methodLine info.callGraph cls.name)) ++
    info.functions.map (functionLine info.callGraph) ++
    info.constants.map constantLine ++
    (if info.exports ≠ [] then
      [' ' :: ' ' :: '>' :: joinSep [','] (info.exports.map exportName)]
    else [])

/-- `generateAiMap` as the list of emitted lines. -/
def generateAiMapLines (dirPath : Str) (filesInfo : List (Str × FileInfo)) : List Str :=
  ('@' :: 'F' :: 'N' :: 'M' :: 'A' :: 'P' :: ' ' :: basenameStr dirPath ++ ['/']) ::
    (filesInfo.flatMap fun e => entryLines e.1 e.2) ++
    ['@' :: 'F' :: 'N' :: 'M' :: 'A' :: 'P' :: []]

/-- `generateAiMap` proper: the lines joined by `'\n'`. -/
def generateAiMap (dirPath : Str) (filesInfo : List (Str × FileInfo)) : Str :=
  joinSep ['\n'] (generateAiMapLines dirPath filesInfo)

/-! ## Line-oriented parser of the compact index format -/

/-- Split at the first occurrence of `t`; `none` when `t` does not occur. -/
def spanUntil (t : Char) : Str → Option (Str × Str)
  | [] => none
  | c :: cs =>
    if c = t then some ([], cs)
    else
      match spanUntil t cs with
      | some (a, b) => some (c :: a, b)
      | none => none

/-- Parse a leading decimal digit run. -/
def parseNatToken (s : Str) : Option (Nat × Str) :=
  let ds := s.takeWhile isDig
  if ds = [] then none else some (digitsToNat ds, s.dropWhile isDig)

/-- After a recovered tuple the line must either end or continue with a space
(description / call-suffix). -/
def tailOk : Str → Bool
  | [] => true
  | c :: _ => c = ' '

/-- Parse `start-end` followed by end-of-line or a space. -/
def parseRange2 (s : Str) : Option (Nat × Nat) :=
  match parseNatToken s with
  | some (a, r) =>
    match r with
    | '-' :: r1 =>
      match parseNatToken r1 with
      | some (b, r2) => if tailOk r2 then some (a, b) else none
      | none => none
    | _ => none
  | none => none

/-- Parse a single line number followed by end-of-line or a space. -/
def parseLineNum (s : Str) : Option Nat :=
  match parseNatToken s with
  | some (a, r) => if tailOk r then some a else none
  | none => none

/-- (name, params, startLine, endLine) recovered from a function line. -/
abbrev FnTuple := Str × Str × Nat × Nat

/-- (name, params, line) recovered from a method line. -/
abbrev MTuple := Str × Str × Nat

/-- Parse the body of a two-space-indented line as a function line:
`name(params) start-end …` with a space-free name. Import (`<`), export (`>`),
class and constant lines are rejected. -/
def parseFnLine (rest : Str) : Option FnTuple :=
  match rest.head? with
  | none => none
  | some c =>
    if c = '<' ∨ c = '>' then none
    else
      match spanUntil '(' rest with
      | none => none
      | some (name, r1) =>
        if ' ' ∈ name then none
        else
          match spanUntil ')' r1 with
          | none => none
          | some (params, r2) =>
            match r2 with
            | ' ' :: r3 =>
              match parseRange2 r3 with
              | some (a, b) => some (name, params, a, b)
              | none => none
            | _ => none

/-- Strip a `get:`/`set:` accessor mark. -/
def stripKindMark (s : Str) : Str :=
  match s with
  | 'g' :: 'e' :: 't' :: ':' :: r => r
  | 's' :: 'e' :: 't' :: ':' :: r => r
  | _ => s

/-- Does the string itself start with an accessor mark? -/
def hasKindMark (s : Str) : Bool :=
  match s with
  | 'g' :: 'e' :: 't' :: ':' :: _ => true
  | 's' :: 'e' :: 't' :: ':' :: _ => true
  | _ => false

/-- Parse the body of a four-space-indented line as a method line:
`[+.]⟨mark?⟩name(params) line …`. -/
def parseMethodLine (rest : Str) : Option MTuple :=
  match rest with
  | [] => none
  | mark :: r0 =>
    if mark = '+' ∨ mark = '.' then
      let r1 := stripKindMark r0
      match spanUntil '(' r1 with
      | none => none
      | some (name, r2) =>
        match spanUntil ')' r2 with
        | none => none
        | some (params, r3) =>
          match r3 with
          | ' ' :: r4 =>
            match parseLineNum r4 with
            | some ln => some (name, params, ln)
            | none => none
          | _ => none
    else none

/-- Classify and parse one line of the compact index. -/
def parseFnmapLine (l : Str) : Option (FnTuple ⊕ MTuple) :=
  match l with
  | c1 :: c2 :: rest =>
    if c1 = ' ' ∧ c2 = ' ' then
      match rest with
      | c3 :: c4 :: r =>
        if c3 = ' ' then (if c4 = ' ' then (parseMethodLine r).map Sum.inr else none)
        else (parseFnLine rest).map Sum.inl
      | _ => (parseFnLine rest).map Sum.inl
    else none
  | _ => none

/-- Parse the whole index line by line. -/
def parseFnmapLines (ls : List Str) : List (FnTuple ⊕ MTuple) :=
  ls.filterMap parseFnmapLine

/-- Split a text on `'\n'` (inverse of `joinSep ['\n']` on newline-free lines). -/
def splitOnNl (s : Str) : List Str :=
  match s with
  | [] => [[]]
  | c :: cs =>
    if c = '\n' then [] :: splitOnNl cs
    else
      match splitOnNl cs with
      | [] => [[c]]
      | l :: ls => (c :: l) :: ls

def fnTupleOf (fn : FunctionInfo) : FnTuple := (fn.name, fn.params, fn.startLine, fn.endLine)

def mTupleOf (m : MethodInfo) : MTuple := (m.name, m.params, m.line)

/-- `'\n'`-freeness of an emitted fragment. -/
abbrev noNl (s : Str) : Prop := '\n' ∉ s

/-- Well-formedness of a recorded method for the round trip: no embedded
newlines, no `'('` in the name, no `')'` in the parameter signature, and a
non-accessor method does not itself begin with an accessor mark. -/
abbrev wfMethod (m : MethodInfo) : Prop :=
  noNl m.name ∧ noNl m.params ∧ noNl m.description ∧
  '(' ∉ m.name ∧ ')' ∉ m.params ∧
  (m.kind = .get ∨ m.kind = .set ∨ hasKindMark m.name = false)

/-- Well-formedness of an optional superclass name. -/
def wfSuper : Option Str → Prop
  | some s => noNl s ∧ ' ' ∉ s ∧ '(' ∉ s
  | none => True

instance (o : Option Str) : Decidable (wfSuper o) := by
  cases o with
  | none => exact isTrue trivial
  | some s => exact inferInstanceAs (Decidable (noNl s ∧ ' ' ∉ s ∧ '(' ∉ s))

/-- Well-formedness of a recorded class. -/
abbrev wfClass (cls : ClassInfo) : Prop :=
  noNl cls.name ∧ noNl cls.description ∧ ' ' ∉ cls.name ∧ '(' ∉ cls.name ∧
  wfSuper cls.superClass ∧
  ∀ m ∈ cls.methods, wfMethod m

/-- Well-formedness of a recorded function. -/
abbrev wfFunction (fn : FunctionInfo) : Prop :=
  noNl fn.name ∧ noNl fn.params ∧ noNl fn.description ∧
  ' ' ∉ fn.name ∧ '(' ∉ fn.name ∧ ')' ∉ fn.params ∧
  fn.name.head? ≠ some '<' ∧ fn.name.head? ≠ some '>'

/-- Well-formedness of a recorded constant. -/
abbrev wfConstant (k : ConstantInfo) : Prop :=
  noNl k.name ∧ noNl k.description ∧ ' ' ∉ k.name ∧ '(' ∉ k.name

/-- Well-formedness of a recorded import. -/
abbrev wfImport (imp : ImportInfo) : Prop :=
  noNl imp.module ∧ ∀ mem ∈ imp.members, noNl mem

/-- Well-formedness of an optional local alias. -/
def wfLocal : Option Str → Prop
  | some l => noNl l
  | none => True

instance (o : Option Str) : Decidable (wfLocal o) := by
  cases o with
  | none => exact isTrue trivial
  | some l => exact inferInstanceAs (Decidable (noNl l))

/-- Well-formedness of a recorded export. -/
abbrev wfExport (e : ExportInfo) : Prop :=
  noNl e.name ∧ wfLocal e.localName

/-- Well-formedness of the call graph (its values are emitted in call
suffixes). -/
abbrev wfCallGraph (cg : CallGraph) : Prop :=
  ∀ p ∈ cg, ∀ c ∈ p.2, noNl c

/-- Well-formedness of a whole `FileInfo` for the compact-index round trip:
every name is identifier-like (no spaces, parens, or newlines), all emitted
text is newline-free. Every record the analyzer itself produces satisfies
this. -/
abbrev wfFileInfo (info : FileInfo) : Prop :=
  noNl info.description ∧
  (∀ i ∈ info.imports, wfImport i) ∧
  (∀ f ∈ info.functions, wfFunction f) ∧
  (∀ c ∈ info.classes, wfClass c) ∧
  (∀ k ∈ info.constants, wfConstant k) ∧
  (∀ e ∈ info.exports, wfExport e) ∧
  wfCallGraph info.callGraph

instance (info : FileInfo) : Decidable (wfFileInfo info) := by
  have d1 : Decidable (noNl info.description) := inferInstance
  have d2 : Decidable (∀ i ∈ info.imports, wfImport i) := inferInstance
  have d3 : Decidable (∀ f ∈ info.functions, wfFunction f) := inferInstance
  have d4 : Decidable (∀ c ∈ info.classes, wfClass c) := inferInstance
  have d5 : Decidable (∀ k ∈ info.constants, wfConstant k) := inferInstance
  have d6 : Decidable (∀ e ∈ info.exports, wfExport e) := inferInstance
  have d7 : Decidable (wfCallGraph info.callGraph) := inferInstance
  exact inferInstance

/-- A concrete Module shaped like the repository's sample fixture
(`test/fixtures`): two functions, a class with instance/static/getter
methods, a constant, imports, exports and a call graph. -/
def sampleInfo : FileInfo := {
  description := "Sample file for testing".toList
  imports := [⟨"fs".toList, ["fs".toList], []⟩, ⟨"events".toList, ["EventEmitter".toList], []⟩]
  functions := [⟨"add".toList, "a,b".toList, 18, 20, "Add two numbers".toList⟩,
                ⟨"calculate".toList, "x,y,z".toList, 31, 35, [] ⟩]
  classes := [⟨"MyClass".toList, some "EventEmitter".toList, 10, 38,
               [⟨"increment".toList, [], 20, false, .method, "Increment".toList⟩,
                ⟨"create".toList, "name".toList, 34, true, .method, [] ⟩,
                ⟨"count".toList, [], 36, false, .get, [] ⟩], "A sample class".toList⟩]
  constants := [⟨"MAX_SIZE".toList, 10, "A simple constant".toList⟩]
  exports := [⟨"default".toList, some "MyClass".toList, 40, .default⟩,
              ⟨"Opts".toList, none, 41, .type⟩]
  callGraph := [("calculate".toList, ["add".toList, "multiply".toList]),
                ("MyClass.increment".toList, ["emit".toList])]
}

/-!
## Syntax-tree model (`@babel/parser` nodes consumed by `src/analyzer/index.ts`)

Lists inside the tree are custom mutual inductives so that every traversal is
structurally recursive and kernel-evaluable. Catch-all constructors
(`otherE`, `otherStmt`, …) model the analyzer's "best-effort, skip unknown
shapes" default arms; they carry no children, so the modelled fragment is the
sub-language actually built from the recognized shapes. Documentation
comments are not modelled: every extracted `description` is the empty string,
which no claim constrains.
-/

/-- `node.loc` line information. -/
structure Loc where
  startLine : Nat
  endLine : Nat
deriving DecidableEq

/-- `node.loc?.start?.line ?? 0`. -/
def locStart : Option Loc → Nat
  | some l => l.startLine
  | none => 0

/-- `node.loc?.end?.line ?? 0`. -/
def locEnd : Option Loc → Nat
  | some l => l.endLine
  | none => 0

/-- A property key / member-expression property: an `Identifier` node or any
other shape (computed key, literal, private name). -/
inductive PropKey
  | ident (name : Str)
  | other
deriving DecidableEq

/-- `importKind` / `exportKind` discriminator. -/
inductive TKind
  | value
  | type
deriving DecidableEq

/-- Imported-name position of an `ImportSpecifier`/`ExportSpecifier`
(an identifier or a string literal). -/
inductive ImpName
  | ident (name : Str)
  | str (value : Str)
deriving DecidableEq

/-- `ImportDeclaration` specifiers. -/
inductive ImpSpec
  | defaultSpec (lname : Str)
  | namespaceSpec (lname : Str)
  | namedSpec (imported : ImpName) (lname : Str) (importKind : TKind)
deriving DecidableEq

inductive ImpSpecList
  | nil
  | cons (s : ImpSpec) (ss : ImpSpecList)
deriving DecidableEq

/-- `ExportNamedDeclaration` specifiers: an `ExportSpecifier`, or any other
specifier shape (namespace re-export). -/
inductive ExpSpec
  | spec (lname : Str) (exported : ImpName) (exportKind : TKind)
  | otherSpec
deriving DecidableEq

inductive ExpSpecList
  | nil
  | cons (s : ExpSpec) (ss : ExpSpecList)
deriving DecidableEq

/-- `VariableDeclaration.kind`. -/
inductive VarKind
  | constV
  | letV
  | varV
deriving DecidableEq

mutual

inductive Expr
  | ident (name : Str)
  | thisE
  | strLit (value : Str)
  | call (callee : Expr) (args : ExprList)
  | member (obj : Expr) (prop : PropKey)
  | arrowFn (params : PatList) (body : StmtList)
  | funcExpr (id : Option Str) (params : PatList) (body : StmtList)
  | classExpr (id : Option Str) (superClass : Option Expr) (body : MemberList)
  | objectE (props : ObjPropList)
  | assign (left : Expr) (right : Expr) (loc : Option Loc)
  | otherE

inductive ExprList
  | nil
  | cons (e : Expr) (es : ExprList)

inductive Pat
  | id (name : Str)
  | assignP (left : Pat) (right : Expr)
  | rest (argument : Pat)
  | objectP (props : ObjPatList)
  | otherP

inductive PatList
  | nil
  | cons (p : Pat) (ps : PatList)

inductive ObjPat
  | prop (key : PropKey) (value : Pat)
  | otherP

inductive ObjPatList
  | nil
  | cons (p : ObjPat) (ps : ObjPatList)

inductive ObjProp
  | objMethod (key : PropKey) (params : PatList) (body : StmtList) (loc : Option Loc)
  | objProp (key : PropKey) (value : Expr) (loc : Option Loc)
  | otherProp

inductive ObjPropList
  | nil
  | cons (p : ObjProp) (ps : ObjPropList)

inductive ClassMember
  | method (key : PropKey) (params : PatList) (body : StmtList)
      (isStatic : Bool) (kind : MethodKind) (loc : Option Loc)
  | otherMember

inductive MemberList
  | nil
  | cons (m : ClassMember) (ms : MemberList)

inductive VarDecl
  | mk (id : Pat) (initE : Option Expr)

inductive VarDeclList
  | nil
  | cons (d : VarDecl) (ds : VarDeclList)

inductive DefaultDecl
  | fn (id : Option Str) (params : PatList) (body : StmtList)
  | cls (id : Option Str) (superClass : Option Expr) (body : MemberList)
  | expr (e : Expr)

inductive Stmt
  | exprStmt (e : Expr)
  | varDecl (kind : VarKind) (decls : VarDeclList) (loc : Option Loc)
  | funcDecl (id : Option Str) (params : PatList) (body : StmtList) (loc : Option Loc)
  | classDecl (id : Option Str) (superClass : Option Expr) (body : MemberList) (loc : Option Loc)
  | importDecl (source : Str) (specifiers : ImpSpecList) (importKind : TKind)
  | exportNamed (declaration : Option Stmt) (specifiers : ExpSpecList)
      (exportKind : TKind) (loc : Option Loc)
  | exportDefault (declaration : DefaultDecl) (loc : Option Loc)
  | exportAll (exportKind : TKind)
  | tsTypeAlias (id : Str)
  | tsInterface (id : Str)
  | tsEnum (id : Str)
  | returnStmt (e : Option Expr)
  | block (body : StmtList)
  | otherStmt

inductive StmtList
  | nil
  | cons (s : Stmt) (ss : StmtList)

end

/-! ## JS `Map`/`Set` model: insertion-ordered association lists -/

/-- `Map.get`. -/
def alGet {α : Type} : List (Str × α) → Str → Option α
  | [], _ => none
  | (k0, v) :: rest, k => if k0 = k then some v else alGet rest k

/-- `Map.has`. -/
def alHas {α : Type} (l : List (Str × α)) (k : Str) : Bool := (alGet l k).isSome

/-- `Map.set`: replace in place, or append a fresh entry. -/
def alSet {α : Type} : List (Str × α) → Str → α → List (Str × α)
  | [], k, v => [(k, v)]
  | (k0, v0) :: rest, k, v =>
    if k0 = k then (k0, v) :: rest else (k0, v0) :: alSet rest k v

/-- `Set.add` on an insertion-ordered element list. -/
def setAdd (s : List Str) (x : Str) : List Str := if x ∈ s then s else s ++ [x]

/-- `if (!m.has(k)) m.set(k, new Set())`. -/
def mapEnsure (m : List (Str × List Str)) (k : Str) : List (Str × List Str) :=
  if alHas m k then m else m ++ [(k, [])]

/-- `m.get(k)!.add(x)` (no-op when the key is absent; it is always ensured
first by the analyzer). -/
def mapAddTo : List (Str × List Str) → Str → Str → List (Str × List Str)
  | [], _, _ => []
  | (k0, v) :: rest, k, x =>
    if k0 = k then (k0, setAdd v x) :: rest else (k0, v) :: mapAddTo rest k x

/-! ## Pass 1 — import & alias collection (`analyzeFile`, first `traverse`) -/

structure ImportState where
  importsMap : List (Str × List Str)
  localToModule : List (Str × Str)
  usageMap : List (Str × List Str)
deriving DecidableEq

def requireName : Str := 'r' :: 'e' :: 'q' :: 'u' :: 'i' :: 'r' :: 'e' :: []

/-- `init.type === 'CallExpression' && init.callee.name === 'require' &&
init.arguments[0].type === 'StringLiteral'`: the loaded module name. -/
def requireOf : Expr → Option Str
  | .call (.ident n) (.cons (.strLit m) _) => if n = requireName then some m else none
  | _ => none

/-- Bind `localName` to module `m` (`localToModule.set`; `usageMap.set(_, ∅)`). -/
def bindLocal (σ : ImportState) (localName m : Str) : ImportState :=
  { σ with localToModule := alSet σ.localToModule localName m,
           usageMap := alSet σ.usageMap localName [] }

/-- ObjectPattern destructuring of a `require` call:
`const { a, b: c } = require('m')`. -/
def objPatBind (m : Str) : ImportState → ObjPatList → ImportState
  | σ, .nil => σ
  | σ, .cons p ps =>
    match p with
    | .prop (.ident k) v =>
      let localName := match v with | .id n => n | _ => k
      let σ := { σ with importsMap := mapAddTo σ.importsMap m k }
      objPatBind m (bindLocal σ localName m) ps
    | _ => objPatBind m σ ps

/-- The `VariableDeclarator` visitor of pass 1. -/
def visitDeclarator1 (σ : ImportState) (d : VarDecl) : ImportState :=
  match d with
  | .mk pid (some initE) =>
    match requireOf initE with
    | some m =>
      let σ := { σ with importsMap := mapEnsure σ.importsMap m }
      match pid with
      | .id localName =>
        bindLocal { σ with importsMap := mapAddTo σ.importsMap m localName } localName m
      | .objectP props => objPatBind m σ props
      | _ => σ
    | none => σ
  | _ => σ

/-- The `ImportDeclaration` visitor of pass 1 (fold over the specifiers). -/
def visitImportSpecs (m : Str) : ImportState → ImpSpecList → ImportState
  | σ, .nil => σ
  | σ, .cons sp ss =>
    let names : Str × Str :=
      match sp with
      | .defaultSpec l => ('d' :: 'e' :: 'f' :: 'a' :: 'u' :: 'l' :: 't' :: [], l)
      | .namespaceSpec l => ('*' :: [], l)
      | .namedSpec (.ident n) l _ => (n, l)
      | .namedSpec (.str v) l _ => (v, l)
    let σ :=
      if names.1 ≠ [] ∧ names.2 ≠ [] then
        bindLocal { σ with importsMap := mapAddTo σ.importsMap m names.1 } names.2 m
      else σ
    visitImportSpecs m σ ss

/-- Parent context for pass 1's `CallExpression` visitor: is the node the
object of a `MemberExpression`, and is that member the `init` of a
`VariableDeclarator`? -/
inductive G1
  | noneG
  | declarator (id : Pat)

inductive P1
  | noneP
  | member1 (prop : PropKey) (g : G1)
  | declInit (id : Pat)

def toG1 : P1 → G1
  | .declInit pid => .declarator pid
  | _ => .noneG

mutual

def walk1Expr (σ : ImportState) (pc : P1) : Expr → ImportState
  | .ident _ => σ
  | .thisE => σ
  | .strLit _ => σ
  | .otherE => σ
  | .call callee args =>
    let σ :=
      match requireOf (.call callee args) with
      | some m =>
        match pc with
        | .member1 (.ident p) g =>
          let σ := { σ with importsMap := mapEnsure σ.importsMap m }
          let σ := { σ with importsMap := mapAddTo σ.importsMap m p }
          match g with
          | .declarator (.id name) => bindLocal σ name m
          | _ => σ
        | _ => σ
      | none => σ
    walk1Exprs (walk1Expr σ .noneP callee) args
  | .member obj _prop => walk1Expr σ (.member1 _prop (toG1 pc)) obj
  | .arrowFn params body => walk1Stmts (walk1Pats σ params) body
  | .funcExpr _ params body => walk1Stmts (walk1Pats σ params) body
  | .classExpr _ sc body =>
    walk1Members (match sc with | some e => walk1Expr σ .noneP e | none => σ) body
  | .objectE props => walk1ObjProps σ props
  | .assign l r _ => walk1Expr (walk1Expr σ .noneP l) .noneP r

def walk1Exprs (σ : ImportState) : ExprList → ImportState
  | .nil => σ
  | .cons e es => walk1Exprs (walk1Expr σ .noneP e) es

def walk1Pat (σ : ImportState) : Pat → ImportState
  | .id _ => σ
  | .assignP l r => walk1Expr (walk1Pat σ l) .noneP r
  | .rest a => walk1Pat σ a
  | .objectP props => walk1ObjPats σ props
  | .otherP => σ

def walk1Pats (σ : ImportState) : PatList → ImportState
  | .nil => σ
  | .cons p ps => walk1Pats (walk1Pat σ p) ps

def walk1ObjPats (σ : ImportState) : ObjPatList → ImportState
  | .nil => σ
  | .cons p ps =>
    match p with
    | .prop _ v => walk1ObjPats (walk1Pat σ v) ps
    | .otherP => walk1ObjPats σ ps

def walk1ObjProps (σ : ImportState) : ObjPropList → ImportState
  | .nil => σ
  | .cons p ps =>
    match p with
    | .objMethod _ params body _ => walk1ObjProps (walk1Stmts (walk1Pats σ params) body) ps
    | .objProp _ v _ => walk1ObjProps (walk1Expr σ .noneP v) ps
    | .otherProp => walk1ObjProps σ ps

def walk1Members (σ : ImportState) : MemberList → ImportState
  | .nil => σ
  | .cons m ms =>
    match m with
    | .method _ params body _ _ _ => walk1Members (walk1Stmts (walk1Pats σ params) body) ms
    | .otherMember => walk1Members σ ms

def walk1VarDecls (σ : ImportState) : VarDeclList → ImportState
  | .nil => σ
  | .cons d ds =>
    match d with
    | .mk pid initE =>
      let σ := visitDeclarator1 σ (.mk pid initE)
      let σ := walk1Pat σ pid
      let σ := match initE with
        | some i => walk1Expr σ (.declInit pid) i
        | none => σ
      walk1VarDecls σ ds

def walk1Stmt (σ : ImportState) : Stmt → ImportState
  | .exprStmt e => walk1Expr σ .noneP e
  | .varDecl _ decls _ => walk1VarDecls σ decls
  | .funcDecl _ params body _ => walk1Stmts (walk1Pats σ params) body
  | .classDecl _ sc body _ =>
    walk1Members (match sc with | some e => walk1Expr σ .noneP e | none => σ) body
  | .importDecl src specs _ =>
    visitImportSpecs src { σ with importsMap := mapEnsure σ.importsMap src } specs
  | .exportNamed d _ _ _ =>
    match d with
    | some s => walk1Stmt σ s
    | none => σ
  | .exportDefault d _ =>
    match d with
    | .fn _ params body => walk1Stmts (walk1Pats σ params) body
    | .cls _ sc body =>
      walk1Members (match sc with | some e => walk1Expr σ .noneP e | none => σ) body
    | .expr e => walk1Expr σ .noneP e
  | .exportAll _ => σ
  | .tsTypeAlias _ => σ
  | .tsInterface _ => σ
  | .tsEnum _ => σ
  | .returnStmt e =>
    match e with
    | some x => walk1Expr σ .noneP x
    | none => σ
  | .block body => walk1Stmts σ body
  | .otherStmt => σ

def walk1Stmts (σ : ImportState) : StmtList → ImportState
  | .nil => σ
  | .cons s ss => walk1Stmts (walk1Stmt σ s) ss

end

/-- Pass 1 over a whole program. -/
def importPass (ast : StmtList) : ImportState :=
  walk1Stmts ⟨[], [], []⟩ ast

/-! ## Pass 2 — structural extraction & import-usage walk (second `traverse`) -/

/-- Parameter normalization used for functions, object-literal methods and
default/CommonJS exports (`Identifier` / `AssignmentPattern` / `RestElement`
recognized). -/
def normParamFull : Pat → Str
  | .id n => n
  | .assignP (.id n) _ => n ++ ['?']
  | .rest (.id n) => '.' :: '.' :: '.' :: n
  | _ => ['?']

/-- Parameter normalization used for class methods (`Identifier` /
`AssignmentPattern` only — no `RestElement` arm in the source). -/
def normParamMethod : Pat → Str
  | .id n => n
  | .assignP (.id n) _ => n ++ ['?']
  | _ => ['?']

def mapParams (f : Pat → Str) : PatList → List Str
  | .nil => []
  | .cons p ps => f p :: mapParams f ps

/-- `params.map(...).join(',')`. -/
def paramsSig (f : Pat → Str) (ps : PatList) : Str := joinSep [','] (mapParams f ps)

/-- `getSuperClassName`: a simple identifier, or the root identifier of a
one-level `MemberExpression` whose object and property are identifiers. -/
def getSuperClassName : Option Expr → Option Str
  | none => none
  | some (.ident n) => some n
  | some (.member (.ident o) (.ident _)) => some o
  | some _ => none

def anonymousName : Str := "[anonymous]".toList

def computedName : Str := "[computed]".toList

def defaultName : Str := "[default]".toList

def exportsName : Str := "[exports]".toList

def moduleStr : Str := "module".toList

def exportsStr : Str := "exports".toList

/-- The shared `ClassMethod` extraction loop (name, params, line, static,
kind; descriptions are not modelled). -/
def methodsOf : MemberList → List MethodInfo
  | .nil => []
  | .cons m ms =>
    match m with
    | .method key params _ st kind loc =>
      { name := match key with | .ident n => n | .other => computedName
        params := paramsSig normParamMethod params
        line := locStart loc
        static := st
        kind := kind
        description := [] } :: methodsOf ms
    | .otherMember => methodsOf ms

/-- `ClassRecord` built from a class shape. -/
def classInfoOf (name : Str) (sc : Option Str) (body : MemberList) (loc : Option Loc) :
    ClassInfo :=
  { name := name, superClass := sc, startLine := locStart loc, endLine := locEnd loc,
    methods := methodsOf body, description := [] }

structure ExtractState where
  functions : List FunctionInfo
  classes : List ClassInfo
  constants : List ConstantInfo
  usageMap : List (Str × List Str)
deriving DecidableEq

def pushFn (σ : ExtractState) (name params : Str) (s e : Nat) : ExtractState :=
  { σ with functions := σ.functions ++
      [{ name := name, params := params, startLine := s, endLine := e, description := [] }] }

def pushClass (σ : ExtractState) (c : ClassInfo) : ExtractState :=
  { σ with classes := σ.classes ++ [c] }

def pushConst (σ : ExtractState) (name : Str) (line : Nat) : ExtractState :=
  { σ with constants := σ.constants ++ [{ name := name, line := line, description := [] }] }

/-- The `Identifier` usage visitor: record the enclosing callable as a user of
a known import alias (the alias's declarator/import-specifier sites are
pattern positions, which this walk does not visit). -/
def usageHit (σ : ExtractState) (encl : Option Str) (name : Str) : ExtractState :=
  if alHas σ.usageMap name then
    match encl with
    | some e =>
      if e ≠ [] then
        match alGet σ.usageMap name with
        | some s => { σ with usageMap := alSet σ.usageMap name (setAdd s e) }
        | none => σ
      else σ
    | none => σ
  else σ

/-- `Class.method` qualified name (`className ? Class.method : methodName`). -/
def qualName (className mn : Str) : Str :=
  if className ≠ [] then className ++ '.' :: mn else mn

/-- Enclosing name assigned to nodes inside a `ClassMethod`. -/
def methodEncl (clsId : Option Str) (key : PropKey) : Str :=
  qualName (clsId.getD []) (match key with | .ident n => n | .other => [])

/-- The object-literal part of the `VariableDeclaration` visitor:
`const obj = { m() {}, a: () => {} }` synthesizes `obj.m`, `obj.a`. -/
def visitObjProps (name : Str) : ExtractState → ObjPropList → ExtractState
  | σ, .nil => σ
  | σ, .cons p ps =>
    match p with
    | .objMethod key params _ loc =>
      let mn := match key with
        | .ident k => name ++ '.' :: k
        | .other => name ++ '.' :: computedName
      visitObjProps name
        (pushFn σ mn (paramsSig normParamFull params) (locStart loc) (locEnd loc)) ps
    | .objProp (.ident k) v loc =>
      match v with
      | .arrowFn params _ =>
        visitObjProps name
          (pushFn σ (name ++ '.' :: k) (paramsSig normParamFull params)
            (locStart loc) (locEnd loc)) ps
      | .funcExpr _ params _ =>
        visitObjProps name
          (pushFn σ (name ++ '.' :: k) (paramsSig normParamFull params)
            (locStart loc) (locEnd loc)) ps
      | _ => visitObjProps name σ ps
    | _ => visitObjProps name σ ps

/-- One declarator of the `VariableDeclaration` visitor. -/
def visitOneDeclarator (σ : ExtractState) (kind : VarKind) (loc : Option Loc)
    (d : VarDecl) : ExtractState :=
  match d with
  | .mk pid initE =>
    match pid with
    | .id name =>
      match initE with
      | some (.arrowFn params _) =>
        pushFn σ name (paramsSig normParamFull params) (locStart loc) (locEnd loc)
      | some (.funcExpr _ params _) =>
        pushFn σ name (paramsSig normParamFull params) (locStart loc) (locEnd loc)
      | some (.classExpr _ sc body) =>
        pushClass σ (classInfoOf name (getSuperClassName sc) body loc)
      | _ =>
        let σ :=
          match initE with
          | some (.objectE props) => visitObjProps name σ props
          | _ => σ
        if kind = .constV then
          let isRequireCall : Bool :=
            match initE with
            | some (.call (.ident n) _) => decide (n = requireName)
            | _ => false
          if isRequireCall then σ else pushConst σ name (locStart loc)
        else σ
    | _ => σ

def visitVarDecls (kind : VarKind) (loc : Option Loc) :
    ExtractState → VarDeclList → ExtractState
  | σ, .nil => σ
  | σ, .cons d ds => visitVarDecls kind loc (visitOneDeclarator σ kind loc d) ds

/-- The `ExportDefaultDeclaration` visitor of pass 2. -/
def visitExportDefault (σ : ExtractState) (d : DefaultDecl) (loc : Option Loc) :
    ExtractState :=
  match d with
  | .fn id params _ =>
    pushFn σ (id.getD defaultName) (paramsSig normParamFull params)
      (locStart loc) (locEnd loc)
  | .cls id sc body =>
    pushClass σ (classInfoOf (id.getD defaultName) (getSuperClassName sc) body loc)
  | .expr e =>
    match e with
    | .arrowFn params _ =>
      pushFn σ defaultName (paramsSig normParamFull params) (locStart loc) (locEnd loc)
    | .funcExpr id params _ =>
      pushFn σ (id.getD defaultName) (paramsSig normParamFull params)
        (locStart loc) (locEnd loc)
    | .classExpr id sc body =>
      pushClass σ
        { name := id.getD defaultName
          superClass := match sc with | some (.ident n) => some n | _ => none
          startLine := locStart loc
          endLine := locEnd loc
          methods := methodsOf body
          description := [] }
    | _ => σ

/-- The top-level `AssignmentExpression` visitor of pass 2
(`module.exports = …`, `exports.foo = …`, `module.exports.foo = …`). -/
def visitAssignTop (σ : ExtractState) (l r : Expr) (loc : Option Loc) : ExtractState :=
  match l with
  | .member (.ident m) (.ident p) =>
    if m = moduleStr ∧ p = exportsStr then
      match r with
      | .arrowFn params _ =>
        pushFn σ exportsName (paramsSig normParamFull params) (locStart loc) (locEnd loc)
      | .funcExpr id params _ =>
        pushFn σ (id.getD exportsName) (paramsSig normParamFull params)
          (locStart loc) (locEnd loc)
      | .classExpr id sc body =>
        pushClass σ (classInfoOf (id.getD exportsName) (getSuperClassName sc) body loc)
      | _ => σ
    else
      if m = exportsStr then
        match r with
        | .arrowFn params _ =>
          pushFn σ p (paramsSig normParamFull params) (locStart loc) (locEnd loc)
        | .funcExpr _ params _ =>
          pushFn σ p (paramsSig normParamFull params) (locStart loc) (locEnd loc)
        | _ => σ
      else σ
  | .member (.member (.ident m1) (.ident p1)) (.ident p) =>
    if m1 = moduleStr ∧ p1 = exportsStr then
      match r with
      | .arrowFn params _ =>
        pushFn σ p (paramsSig normParamFull params) (locStart loc) (locEnd loc)
      | .funcExpr _ params _ =>
        pushFn σ p (paramsSig normParamFull params) (locStart loc) (locEnd loc)
      | _ => σ
    else σ
  | _ => σ

/-- Statement-parent tag for the parent checks of pass 2. -/
inductive SP
  | program
  | exportNamed
  | other

mutual

def walk2Expr (σ : ExtractState) (encl : Option Str) : Expr → ExtractState
  | .ident name => usageHit σ encl name
  | .thisE => σ
  | .strLit _ => σ
  | .otherE => σ
  | .call callee args => walk2Exprs (walk2Expr σ encl callee) encl args
  | .member obj prop =>
    let σ := match prop with
      | .ident p => usageHit σ encl p
      | .other => σ
    walk2Expr σ encl obj
  | .arrowFn params body => walk2Stmts (walk2Pats σ encl params) encl .other body
  | .funcExpr _ params body => walk2Stmts (walk2Pats σ encl params) encl .other body
  | .classExpr cid sc body =>
    let σ := match sc with | some e => walk2Expr σ encl e | none => σ
    walk2Members σ encl cid body
  | .objectE props => walk2ObjProps σ encl props
  | .assign l r _ => walk2Expr (walk2Expr σ encl l) encl r

def walk2Exprs (σ : ExtractState) (encl : Option Str) : ExprList → ExtractState
  | .nil => σ
  | .cons e es => walk2Exprs (walk2Expr σ encl e) encl es

def walk2Pat (σ : ExtractState) (encl : Option Str) : Pat → ExtractState
  | .id _ => σ
  | .assignP l r => walk2Expr (walk2Pat σ encl l) encl r
  | .rest a => walk2Pat σ encl a
  | .objectP props => walk2ObjPats σ encl props
  | .otherP => σ

def walk2Pats (σ : ExtractState) (encl : Option Str) : PatList → ExtractState
  | .nil => σ
  | .cons p ps => walk2Pats (walk2Pat σ encl p) encl ps

def walk2ObjPats (σ : ExtractState) (encl : Option Str) : ObjPatList → ExtractState
  | .nil => σ
  | .cons p ps =>
    match p with
    | .prop _ v => walk2ObjPats (walk2Pat σ encl v) encl ps
    | .otherP => walk2ObjPats σ encl ps

def walk2ObjProps (σ : ExtractState) (encl : Option Str) : ObjPropList → ExtractState
  | .nil => σ
  | .cons p ps =>
    match p with
    | .objMethod _ params body _ =>
      walk2ObjProps (walk2Stmts (walk2Pats σ encl params) encl .other body) encl ps
    | .objProp _ v _ => walk2ObjProps (walk2Expr σ encl v) encl ps
    | .otherProp => walk2ObjProps σ encl ps

def walk2Members (σ : ExtractState) (encl : Option Str) (cid : Option Str) :
    MemberList → ExtractState
  | .nil => σ
  | .cons m ms =>
    match m with
    | .method key params body _ _ _ =>
      let e2 := some (methodEncl cid key)
      walk2Members (walk2Stmts (walk2Pats σ e2 params) e2 .other body) encl cid ms
    | .otherMember => walk2Members σ encl cid ms

def walk2VarDecls (σ : ExtractState) (encl : Option Str) : VarDeclList → ExtractState
  | .nil => σ
  | .cons d ds =>
    match d with
    | .mk pid initE =>
      let σ := walk2Pat σ encl pid
      let σ :=
        match initE with
        | some i =>
          let encl2 :=
            match pid, i with
            | .id n, .arrowFn _ _ => some n
            | .id n, .funcExpr _ _ _ => some n
            | _, _ => encl
          walk2Expr σ encl2 i
        | none => σ
      walk2VarDecls σ encl ds

def walk2Stmt (σ : ExtractState) (encl : Option Str) (sp : SP) : Stmt → ExtractState
  | .exprStmt e =>
    let σ :=
      match sp, e with
      | .program, .assign l r loc => visitAssignTop σ l r loc
      | _, _ => σ
    walk2Expr σ encl e
  | .varDecl kind decls loc =>
    let σ :=
      match sp with
      | .program => visitVarDecls kind loc σ decls
      | .exportNamed => visitVarDecls kind loc σ decls
      | .other => σ
    walk2VarDecls σ encl decls
  | .funcDecl id params body loc =>
    let σ := pushFn σ (id.getD anonymousName) (paramsSig normParamFull params)
      (locStart loc) (locEnd loc)
    let e2 := match id with | some n => some n | none => encl
    walk2Stmts (walk2Pats σ e2 params) e2 .other body
  | .classDecl id sc body loc =>
    let σ := pushClass σ (classInfoOf (id.getD anonymousName) (getSuperClassName sc) body loc)
    let σ := match sc with | some e => walk2Expr σ encl e | none => σ
    walk2Members σ encl id body
  | .importDecl _ _ _ => σ
  | .exportNamed d _ _ _ =>
    match d with
    | some s => walk2Stmt σ encl .exportNamed s
    | none => σ
  | .exportDefault d loc =>
    let σ := visitExportDefault σ d loc
    match d with
    | .fn id params body =>
      let e2 := match id with | some n => some n | none => encl
      walk2Stmts (walk2Pats σ e2 params) e2 .other body
    | .cls cid sc body =>
      let σ := match sc with | some e => walk2Expr σ encl e | none => σ
      walk2Members σ encl cid body
    | .expr e => walk2Expr σ encl e
  | .exportAll _ => σ
  | .tsTypeAlias _ => σ
  | .tsInterface _ => σ
  | .tsEnum _ => σ
  | .returnStmt e =>
    match e with
    | some x => walk2Expr σ encl x
    | none => σ
  | .block body => walk2Stmts σ encl .other body
  | .otherStmt => σ

def walk2Stmts (σ : ExtractState) (encl : Option Str) (sp : SP) : StmtList → ExtractState
  | .nil => σ
  | .cons s ss => walk2Stmts (walk2Stmt σ encl sp s) encl sp ss

end

/-- Pass 2 over a whole program (top-level statements have parent `Program`). -/
def extractPass (ast : StmtList) (usage : List (Str × List Str)) : ExtractState :=
  walk2Stmts ⟨[], [], [], usage⟩ none .program ast

/-! ## Pass 3 — call-graph construction (third `traverse`) -/

/-- `definedFunctions`: all function names, plus for every class method both
the bare method name and the `Class.method` template string. -/
def definedFunctionsOf (fns : List FunctionInfo) (cls : List ClassInfo) : List Str :=
  let s := fns.foldl (fun s fn => setAdd s fn.name) []
  cls.foldl
    (fun s c => c.methods.foldl
      (fun s m => setAdd (setAdd s m.name) (c.name ++ '.' :: m.name)) s) s

/-- Callee classification: bare identifier, member access off a known import
alias (qualified), or member access off any other receiver (bare property). -/
def callCalleeName (importedNames : List Str) : Expr → Option Str
  | .ident n => some n
  | .member obj (.ident p) =>
    match obj with
    | .ident o => if o ≠ [] ∧ o ∈ importedNames then some (o ++ '.' :: p) else some p
    | _ => some p
  | _ => none

/-- `calleeName.split('.')[0]`. -/
def dotPrefix (s : Str) : Str := s.takeWhile (fun c => c ≠ '.')

/-- `if (!callGraph.has(caller)) set ∅; get(caller).add(callee)`. -/
def addEdge (cg : CallGraph) (caller cn : Str) : CallGraph :=
  mapAddTo (mapEnsure cg caller) caller cn

/-- The `CallExpression` visitor of pass 3 at one call site. -/
def visitCallSite (dfs imps : List Str) (cg : CallGraph) (encl : Option Str)
    (callee : Expr) : CallGraph :=
  match callCalleeName imps callee with
  | some cn =>
    match encl with
    | some caller =>
      if caller ≠ [] ∧ caller ≠ cn then
        if cn ∈ dfs ∨ (cn ∈ imps ∨ ('.' ∈ cn ∧ dotPrefix cn ∈ imps)) then
          addEdge cg caller cn
        else cg
      else cg
    | none => cg
  | none => cg

mutual

def walk3Expr (dfs imps : List Str) (cg : CallGraph) (encl : Option Str) :
    Expr → CallGraph
  | .ident _ => cg
  | .thisE => cg
  | .strLit _ => cg
  | .otherE => cg
  | .call callee args =>
    let cg := visitCallSite dfs imps cg encl callee
    walk3Exprs dfs imps (walk3Expr dfs imps cg encl callee) encl args
  | .member obj _ => walk3Expr dfs imps cg encl obj
  | .arrowFn params body =>
    walk3Stmts dfs imps (walk3Pats dfs imps cg encl params) encl body
  | .funcExpr _ params body =>
    walk3Stmts dfs imps (walk3Pats dfs imps cg encl params) encl body
  | .classExpr cid sc body =>
    let cg := match sc with | some e => walk3Expr dfs imps cg encl e | none => cg
    walk3Members dfs imps cg encl cid body
  | .objectE props => walk3ObjProps dfs imps cg encl props
  | .assign l r _ => walk3Expr dfs imps (walk3Expr dfs imps cg encl l) encl r

def walk3Exprs (dfs imps : List Str) (cg : CallGraph) (encl : Option Str) :
    ExprList → CallGraph
  | .nil => cg
  | .cons e es => walk3Exprs dfs imps (walk3Expr dfs imps cg encl e) encl es

def walk3Pat (dfs imps : List Str) (cg : CallGraph) (encl : Option Str) :
    Pat → CallGraph
  | .id _ => cg
  | .assignP l r => walk3Expr dfs imps (walk3Pat dfs imps cg encl l) encl r
  | .rest a => walk3Pat dfs imps cg encl a
  | .objectP props => walk3ObjPats dfs imps cg encl props
  | .otherP => cg

def walk3Pats (dfs imps : List Str) (cg : CallGraph) (encl : Option Str) :
    PatList → CallGraph
  | .nil => cg
  | .cons p ps => walk3Pats dfs imps (walk3Pat dfs imps cg encl p) encl ps

def walk3ObjPats (dfs imps : List Str) (cg : CallGraph) (encl : Option Str) :
    ObjPatList → CallGraph
  | .nil => cg
  | .cons p ps =>
    match p with
    | .prop _ v => walk3ObjPats dfs imps (walk3Pat dfs imps cg encl v) encl ps
    | .otherP => walk3ObjPats dfs imps cg encl ps

def walk3ObjProps (dfs imps : List Str) (cg : CallGraph) (encl : Option Str) :
    ObjPropList → CallGraph
  | .nil => cg
  | .cons p ps =>
    match p with
    | .objMethod _ params body _ =>
      walk3ObjProps dfs imps
        (walk3Stmts dfs imps (walk3Pats dfs imps cg encl params) encl body) encl ps
    | .objProp _ v _ => walk3ObjProps dfs imps (walk3Expr dfs imps cg encl v) encl ps
    | .otherProp => walk3ObjProps dfs imps cg encl ps

def walk3Members (dfs imps : List Str) (cg : CallGraph) (encl : Option Str)
    (cid : Option Str) : MemberList → CallGraph
  | .nil => cg
  | .cons m ms =>
    match m with
    | .method key params body _ _ _ =>
      let e2 := some (methodEncl cid key)
      walk3Members dfs imps
        (walk3Stmts dfs imps (walk3Pats dfs imps cg e2 params) e2 body) encl cid ms
    | .otherMember => walk3Members dfs imps cg encl cid ms

def walk3VarDecls (dfs imps : List Str) (cg : CallGraph) (encl : Option Str) :
    VarDeclList → CallGraph
  | .nil => cg
  | .cons d ds =>
    match d with
    | .mk pid initE =>
      let cg := walk3Pat dfs imps cg encl pid
      let cg :=
        match initE with
        | some i =>
          let encl2 :=
            match pid, i with
            | .id n, .arrowFn _ _ => some n
            | .id n, .funcExpr _ _ _ => some n
            | _, _ => encl
          walk3Expr dfs imps cg encl2 i
        | none => cg
      walk3VarDecls dfs imps cg encl ds

def walk3Stmt (dfs imps : List Str) (cg : CallGraph) (encl : Option Str) :
    Stmt → CallGraph
  | .exprStmt e => walk3Expr dfs imps cg encl e
  | .varDecl _ decls _ => walk3VarDecls dfs imps cg encl decls
  | .funcDecl id params body _ =>
    let e2 := match id with | some n => some n | none => encl
    walk3Stmts dfs imps (walk3Pats dfs imps cg e2 params) e2 body
  | .classDecl cid sc body _ =>
    let cg := match sc with | some e => walk3Expr dfs imps cg encl e | none => cg
    walk3Members dfs imps cg encl cid body
  | .importDecl _ _ _ => cg
  | .exportNamed d _ _ _ =>
    match d with
    | some s => walk3Stmt dfs imps cg encl s
    | none => cg
  | .exportDefault d _ =>
    match d with
    | .fn id params body =>
      let e2 := match id with | some n => some n | none => encl
      walk3Stmts dfs imps (walk3Pats dfs imps cg e2 params) e2 body
    | .cls cid sc body =>
      let cg := match sc with | some e => walk3Expr dfs imps cg encl e | none => cg
      walk3Members dfs imps cg encl cid body
    | .expr e => walk3Expr dfs imps cg encl e
  | .exportAll _ => cg
  | .tsTypeAlias _ => cg
  | .tsInterface _ => cg
  | .tsEnum _ => cg
  | .returnStmt e =>
    match e with
    | some x => walk3Expr dfs imps cg encl x
    | none => cg
  | .block body => walk3Stmts dfs imps cg encl body
  | .otherStmt => cg

def walk3Stmts (dfs imps : List Str) (cg : CallGraph) (encl : Option Str) :
    StmtList → CallGraph
  | .nil => cg
  | .cons s ss => walk3Stmts dfs imps (walk3Stmt dfs imps cg encl s) encl ss

end

/-- Pass 3 over a whole program. -/
def callGraphPass (ast : StmtList) (dfs imps : List Str) : CallGraph :=
  walk3Stmts dfs imps [] none ast

/-!
`sites…`: all call sites of the program in traversal order, each paired with
its resolved enclosing-callable name (`getEnclosingFunctionName`).
-/

mutual

def sitesExpr (encl : Option Str) : Expr → List (Option Str × Expr)
  | .ident _ => []
  | .thisE => []
  | .strLit _ => []
  | .otherE => []
  | .call callee args => (encl, callee) :: (sitesExpr encl callee ++ sitesExprs encl args)
  | .member obj _ => sitesExpr encl obj
  | .arrowFn params body => sitesPats encl params ++ sitesStmts encl body
  | .funcExpr _ params body => sitesPats encl params ++ sitesStmts encl body
  | .classExpr cid sc body =>
    (match sc with | some e => sitesExpr encl e | none => []) ++ sitesMembers encl cid body
  | .objectE props => sitesObjProps encl props
  | .assign l r _ => sitesExpr encl l ++ sitesExpr encl r

def sitesExprs (encl : Option Str) : ExprList → List (Option Str × Expr)
  | .nil => []
  | .cons e es => sitesExpr encl e ++ sitesExprs encl es

def sitesPat (encl : Option Str) : Pat → List (Option Str × Expr)
  | .id _ => []
  | .assignP l r => sitesPat encl l ++ sitesExpr encl r
  | .rest a => sitesPat encl a
  | .objectP props => sitesObjPats encl props
  | .otherP => []

def sitesPats (encl : Option Str) : PatList → List (Option Str × Expr)
  | .nil => []
  | .cons p ps => sitesPat encl p ++ sitesPats encl ps

def sitesObjPats (encl : Option Str) : ObjPatList → List (Option Str × Expr)
  | .nil => []
  | .cons p ps =>
    match p with
    | .prop _ v => sitesPat encl v ++ sitesObjPats encl ps
    | .otherP => sitesObjPats encl ps

def sitesObjProps (encl : Option Str) : ObjPropList → List (Option Str × Expr)
  | .nil => []
  | .cons p ps =>
    match p with
    | .objMethod _ params body _ =>
      (sitesPats encl params ++ sitesStmts encl body) ++ sitesObjProps encl ps
    | .objProp _ v _ => sitesExpr encl v ++ sitesObjProps encl ps
    | .otherProp => sitesObjProps encl ps

def sitesMembers (encl : Option Str) (cid : Option Str) :
    MemberList → List (Option Str × Expr)
  | .nil => []
  | .cons m ms =>
    match m with
    | .method key params body _ _ _ =>
      let e2 := some (methodEncl cid key)
      (sitesPats e2 params ++ sitesStmts e2 body) ++ sitesMembers encl cid ms
    | .otherMember => sitesMembers encl cid ms

def sitesVarDecls (encl : Option Str) : VarDeclList → List (Option Str × Expr)
  | .nil => []
  | .cons d ds =>
    match d with
    | .mk pid initE =>
      (sitesPat encl pid ++
        match initE with
        | some i =>
          let encl2 :=
            match pid, i with
            | .id n, .arrowFn _ _ => some n
            | .id n, .funcExpr _ _ _ => some n
            | _, _ => encl
          sitesExpr encl2 i
        | none => []) ++ sitesVarDecls encl ds

def sitesStmt (encl : Option Str) : Stmt → List (Option Str × Expr)
  | .exprStmt e => sitesExpr encl e
  | .varDecl _ decls _ => sitesVarDecls encl decls
  | .funcDecl id params body _ =>
    let e2 := match id with | some n => some n | none => encl
    sitesPats e2 params ++ sitesStmts e2 body
  | .classDecl cid sc body _ =>
    (match sc with | some e => sitesExpr encl e | none => []) ++ sitesMembers encl cid body
  | .importDecl _ _ _ => []
  | .exportNamed d _ _ _ =>
    match d with
    | some s => sitesStmt encl s
    | none => []
  | .exportDefault d _ =>
    match d with
    | .fn id params body =>
      let e2 := match id with | some n => some n | none => encl
      sitesPats e2 params ++ sitesStmts e2 body
    | .cls cid sc body =>
      (match sc with | some e => sitesExpr encl e | none => []) ++ sitesMembers encl cid body
    | .expr e => sitesExpr encl e
  | .exportAll _ => []
  | .tsTypeAlias _ => []
  | .tsInterface _ => []
  | .tsEnum _ => []
  | .returnStmt e =>
    match e with
    | some x => sitesExpr encl x
    | none => []
  | .block body => sitesStmts encl body
  | .otherStmt => []

def sitesStmts (encl : Option Str) : StmtList → List (Option Str × Expr)
  | .nil => []
  | .cons s ss => sitesStmt encl s ++ sitesStmts encl ss

end

/-- All call sites of a program. -/
def callSites (ast : StmtList) : List (Option Str × Expr) := sitesStmts none ast

/-! ## Pass 4 — export collection (fourth `traverse`) -/

def expNameOf : ImpName → Str
  | .ident n => n
  | .str v => v

def defaultStr : Str := "default".toList

/-- `ExportSpecifier` loop of the `ExportNamedDeclaration` visitor. -/
def visitExportSpecs (line : Nat) (isType : Bool) :
    List ExportInfo → ExpSpecList → List ExportInfo
  | acc, .nil => acc
  | acc, .cons sp ss =>
    match sp with
    | .spec lname exported kind =>
      let exportedName := expNameOf exported
      visitExportSpecs line isType
        (acc ++ [{ name := exportedName
                   localName := if lname ≠ exportedName then some lname else none
                   line := line
                   kind := if isType ∨ kind = .type then .type else .value }]) ss
    | .otherSpec => visitExportSpecs line isType acc ss

def exportVarDecls (line : Nat) : List ExportInfo → VarDeclList → List ExportInfo
  | acc, .nil => acc
  | acc, .cons d ds =>
    match d with
    | .mk (.id n) _ =>
      exportVarDecls line
        (acc ++ [{ name := n, localName := none, line := line, kind := .value }]) ds
    | _ => exportVarDecls line acc ds

/-- The `ExportNamedDeclaration` visitor of pass 4. -/
def visitExportNamed4 (acc : List ExportInfo) (d : Option Stmt) (specs : ExpSpecList)
    (kind : TKind) (loc : Option Loc) : List ExportInfo :=
  let line := locStart loc
  let isType := kind = .type
  match specs with
  | .cons _ _ => visitExportSpecs line isType acc specs
  | .nil =>
    match d with
    | some (.funcDecl (some id) _ _ _) =>
      acc ++ [{ name := id, localName := none, line := line, kind := .value }]
    | some (.classDecl (some id) _ _ _) =>
      acc ++ [{ name := id, localName := none, line := line, kind := .value }]
    | some (.varDecl _ decls _) => exportVarDecls line acc decls
    | some (.tsTypeAlias id) =>
      acc ++ [{ name := id, localName := none, line := line, kind := .type }]
    | some (.tsInterface id) =>
      acc ++ [{ name := id, localName := none, line := line, kind := .type }]
    | _ => acc

/-- The `ExportDefaultDeclaration` visitor of pass 4. -/
def visitExportDefault4 (acc : List ExportInfo) (d : DefaultDecl) (loc : Option Loc) :
    List ExportInfo :=
  let localName : Option Str :=
    match d with
    | .fn (some id) _ _ => some id
    | .cls (some id) _ _ => some id
    | .expr (.ident n) => some n
    | _ => none
  acc ++ [{ name := defaultStr, localName := localName, line := locStart loc,
            kind := .default }]

mutual

def walk4Expr (acc : List ExportInfo) : Expr → List ExportInfo
  | .ident _ => acc
  | .thisE => acc
  | .strLit _ => acc
  | .otherE => acc
  | .call callee args => walk4Exprs (walk4Expr acc callee) args
  | .member obj _ => walk4Expr acc obj
  | .arrowFn params body => walk4Stmts (walk4Pats acc params) body
  | .funcExpr _ params body => walk4Stmts (walk4Pats acc params) body
  | .classExpr _ sc body =>
    walk4Members (match sc with | some e => walk4Expr acc e | none => acc) body
  | .objectE props => walk4ObjProps acc props
  | .assign l r _ => walk4Expr (walk4Expr acc l) r

def walk4Exprs (acc : List ExportInfo) : ExprList → List ExportInfo
  | .nil => acc
  | .cons e es => walk4Exprs (walk4Expr acc e) es

def walk4Pat (acc : List ExportInfo) : Pat → List ExportInfo
  | .id _ => acc
  | .assignP l r => walk4Expr (walk4Pat acc l) r
  | .rest a => walk4Pat acc a
  | .objectP props => walk4ObjPats acc props
  | .otherP => acc

def walk4Pats (acc : List ExportInfo) : PatList → List ExportInfo
  | .nil => acc
  | .cons p ps => walk4Pats (walk4Pat acc p) ps

def walk4ObjPats (acc : List ExportInfo) : ObjPatList → List ExportInfo
  | .nil => acc
  | .cons p ps =>
    match p with
    | .prop _ v => walk4ObjPats (walk4Pat acc v) ps
    | .otherP => walk4ObjPats acc ps

def walk4ObjProps (acc : List ExportInfo) : ObjPropList → List ExportInfo
  | .nil => acc
  | .cons p ps =>
    match p with
    | .objMethod _ params body _ => walk4ObjProps (walk4Stmts (walk4Pats acc params) body) ps
    | .objProp _ v _ => walk4ObjProps (walk4Expr acc v) ps
    | .otherProp => walk4ObjProps acc ps

def walk4Members (acc : List ExportInfo) : MemberList → List ExportInfo
  | .nil => acc
  | .cons m ms =>
    match m with
    | .method _ params body _ _ _ => walk4Members (walk4Stmts (walk4Pats acc params) body) ms
    | .otherMember => walk4Members acc ms

def walk4VarDecls (acc : List ExportInfo) : VarDeclList → List ExportInfo
  | .nil => acc
  | .cons d ds =>
    match d with
    | .mk pid initE =>
      let acc := walk4Pat acc pid
      let acc := match initE with
        | some i => walk4Expr acc i
        | none => acc
      walk4VarDecls acc ds

def walk4Stmt (acc : List ExportInfo) : Stmt → List ExportInfo
  | .exprStmt e => walk4Expr acc e
  | .varDecl _ decls _ => walk4VarDecls acc decls
  | .funcDecl _ params body _ => walk4Stmts (walk4Pats acc params) body
  | .classDecl _ sc body _ =>
    walk4Members (match sc with | some e => walk4Expr acc e | none => acc) body
  | .importDecl _ _ _ => acc
  | .exportNamed d specs kind loc =>
    let acc := visitExportNamed4 acc d specs kind loc
    match d with
    | some s => walk4Stmt acc s
    | none => acc
  | .exportDefault d loc =>
    let acc := visitExportDefault4 acc d loc
    match d with
    | .fn _ params body => walk4Stmts (walk4Pats acc params) body
    | .cls _ sc body =>
      walk4Members (match sc with | some e => walk4Expr acc e | none => acc) body
    | .expr e => walk4Expr acc e
  | .exportAll _ => acc
  | .tsTypeAlias _ => acc
  | .tsInterface _ => acc
  | .tsEnum _ => acc
  | .returnStmt e =>
    match e with
    | some x => walk4Expr acc x
    | none => acc
  | .block body => walk4Stmts acc body
  | .otherStmt => acc

def walk4Stmts (acc : List ExportInfo) : StmtList → List ExportInfo
  | .nil => acc
  | .cons s ss => walk4Stmts (walk4Stmt acc s) ss

end

/-- Pass 4 over a whole program. -/
def exportsPass (ast : StmtList) : List ExportInfo := walk4Stmts [] ast

/-! ## Purity classifier (`isPureTypeFile`) -/

/-- `specifiers.some(spec => spec.type !== 'ImportSpecifier' ||
spec.importKind !== 'type')`. -/
def impSpecsAnyValue : ImpSpecList → Bool
  | .nil => false
  | .cons sp ss =>
    (match sp with
     | .namedSpec _ _ k => decide (k ≠ .type)
     | _ => true) || impSpecsAnyValue ss

def impSpecsNonempty : ImpSpecList → Bool
  | .nil => false
  | .cons _ _ => true

/-- `specifiers.some(spec => spec.type !== 'ExportSpecifier' ||
spec.exportKind !== 'type')`. -/
def expSpecsAnyValue : ExpSpecList → Bool
  | .nil => false
  | .cons sp ss =>
    (match sp with
     | .spec _ _ k => decide (k ≠ .type)
     | .otherSpec => true) || expSpecsAnyValue ss

def expSpecsNonempty : ExpSpecList → Bool
  | .nil => false
  | .cons _ _ => true

/-- One arm of the `isPureTypeFile` switch: does this top-level statement
count as runtime code? -/
def stmtHasRuntime : Stmt → Bool
  | .tsTypeAlias _ => false
  | .tsInterface _ => false
  | .tsEnum _ => false
  | .importDecl _ specs kind =>
    if kind ≠ .type then impSpecsAnyValue specs && impSpecsNonempty specs
    else false
  | .exportNamed d specs kind _ =>
    if kind = .type then false
    else
      match d with
      | some decl =>
        match decl with
        | .tsTypeAlias _ => false
        | .tsInterface _ => false
        | _ => true
      | none =>
        if expSpecsNonempty specs then expSpecsAnyValue specs else false
  | .exportDefault _ _ => true
  | .exportAll kind => decide (kind ≠ .type)
  | _ => true

/-- `isPureTypeFile`: scan the top-level statement list, short-circuiting on
the first runtime statement. -/
def isPureTypeFile : StmtList → Bool
  | .nil => true
  | .cons s ss => if stmtHasRuntime s then false else isPureTypeFile ss

/-! ## Result assembly (`analyzeFile` tail) -/

/-- `usedIn` of one import: union of the usage sets of every local alias
bound to this module, in alias-insertion order. -/
def importsUsedIn (ltm : List (Str × Str)) (usage : List (Str × List Str))
    (moduleName : Str) : List Str :=
  ltm.foldl
    (fun acc kv =>
      if kv.2 = moduleName ∧ alHas usage kv.1 then
        ((alGet usage kv.1).getD []).foldl setAdd acc
      else acc) []

/-- Conversion of the pass-1 maps into the `imports` list. -/
def convertImports (im : List (Str × List Str)) (ltm : List (Str × Str))
    (usage : List (Str × List Str)) : List ImportInfo :=
  im.map (fun kv => { module := kv.1, members := kv.2,
                      usedIn := importsUsedIn ltm usage kv.1 })

/-- The whole engine on a parsed tree (`analyzeFile` after a successful
parse). -/
def analyzeAst (ast : StmtList) (fileDesc : Str) : FileInfo :=
  let σ1 := importPass ast
  let σ2 := extractPass ast σ1.usageMap
  let importedNames := σ1.localToModule.map (fun kv => kv.1)
  let dfs := definedFunctionsOf σ2.functions σ2.classes
  { description := fileDesc
    imports := convertImports σ1.importsMap σ1.localToModule σ2.usageMap
    functions := σ2.functions
    classes := σ2.classes
    constants := σ2.constants
    exports := exportsPass ast
    callGraph := callGraphPass ast dfs importedNames
    isPureType := some (isPureTypeFile ast) }

/-! ## `analyzeFile` wrapper: validation, empty files, parse failures -/

/-- `ErrorTypes` of `src/types/index.ts`. -/
inductive ErrorType
  | FILE_NOT_FOUND
  | FILE_READ_ERROR
  | PARSE_ERROR
  | CONFIG_ERROR
  | VALIDATION_ERROR
  | PERMISSION_ERROR
  | FILE_TOO_LARGE
deriving DecidableEq

/-- A parser-reported source location (`error.loc`). -/
structure LocLC where
  line : Nat
  column : Nat
deriving DecidableEq

/-- A parser exception: message and optional location. -/
structure ParseErr where
  message : Str
  loc : Option LocLC
deriving DecidableEq

/-- `ParseErrorResult`. -/
structure ParseErrorResult where
  parseError : Str
  errorType : ErrorType
  loc : Option LocLC
deriving DecidableEq

/-- `AnalyzeResult = FileInfo | ParseErrorResult`. -/
inductive AnalyzeResult
  | ok (info : FileInfo)
  | failure (e : ParseErrorResult)
deriving DecidableEq

/-- The `analyzeFile` argument: `null`/`undefined`, a non-string value, or a
string. -/
inductive CodeInput
  | nullish
  | nonString
  | str (code : Str)

/-- ASCII JavaScript whitespace (`String.prototype.trim`; the non-ASCII
whitespace code points never occur in the programs considered here). -/
def isJsWs (c : Char) : Bool :=
  c = ' ' ∨ c = '\t' ∨ c = '\n' ∨ c = '\r' ∨ c = '\x0b' ∨ c = '\x0c'

/-- `code.trim()`. -/
def trimStr (s : Str) : Str :=
  ((s.dropWhile isJsWs).reverse.dropWhile isJsWs).reverse

/-- Text before the first `*/`, together with the remainder. -/
def splitCommentEnd : Str → Option (Str × Str)
  | [] => none
  | '*' :: '/' :: r => some ([], r)
  | c :: cs =>
    match splitCommentEnd cs with
    | some p => some (c :: p.1, p.2)
    | none => none

/-- `l.replace(/^\s*\*\s?/, '')`: strip leading whitespace, one `*`, and one
optional following whitespace character — only when the `*` is present. -/
def stripStarPrefix (l : Str) : Str :=
  match l.dropWhile isJsWs with
  | '*' :: r =>
    (match r with
     | c :: r2 => if isJsWs c then r2 else r
     | [] => [])
  | _ => l

def startsWithChar (l : Str) (c : Char) : Bool :=
  match l with
  | x :: _ => x = c
  | [] => false

/-- The leading `/** … */` file-description extraction of `analyzeFile`. -/
def extractFileDescription (code : Str) : Str :=
  match code with
  | '/' :: '*' :: '*' :: rest =>
    match splitCommentEnd rest with
    | some (body, _) =>
      let commentText := '/' :: '*' :: '*' :: (body ++ '*' :: '/' :: [])
      let ls := (splitOnNl commentText).map (fun l => trimStr (stripStarPrefix l))
      let filtered := ls.filter (fun l =>
        l ≠ [] ∧ ¬startsWithChar l '/' ∧ ¬("@ai".toList.isPrefixOf l))
      let descTag := "@description ".toList
      let desc0 :=
        match filtered.find? (fun l => descTag.isPrefixOf l) with
        | some l => trimStr (l.drop 13)
        | none => []
      if desc0 = [] ∧ filtered ≠ [] then
        match filtered.find? (fun l => ¬startsWithChar l '@') with
        | some l => l
        | none => desc0
      else desc0
    | none => []
  | _ => []

/-- `formatError` of `src/validation/index.ts` (the error type is accepted and
ignored; line/column are present together or not at all). -/
def formatError (_errorType : ErrorType) (message : Str) (file : Option Str)
    (loc : Option LocLC) (suggestion : Option Str) : Str :=
  let parts : List Str :=
    [message] ++
    (match file with
     | some f => ["File: ".toList ++ f]
     | none => []) ++
    (match loc with
     | some l => ["Location: Line ".toList ++ decRepr l.line ++
         ", Column ".toList ++ decRepr l.column]
     | none => []) ++
    (match suggestion with
     | some s => ["Suggestion: ".toList ++ s]
     | none => [])
  joinSep ('\n' :: ' ' :: ' ' :: []) parts

/-- The early-return Module for blank input (`!code.trim()`): every list
empty, `isPureType` absent. -/
def emptyInfo : FileInfo :=
  { description := [], imports := [], functions := [], classes := [], constants := [],
    exports := [], callGraph := [], isPureType := none }

/-- `analyzeFile`, with the external parser supplied as an oracle. -/
def analyzeFile (parse : Str → Except ParseErr StmtList) (code : CodeInput)
    (filePath : Option Str) : AnalyzeResult :=
  match code with
  | .nullish =>
    .failure { parseError := "Code content is null or undefined / 代码内容为空".toList,
               errorType := .VALIDATION_ERROR, loc := none }
  | .nonString =>
    .failure { parseError := "Code must be a string / 代码必须是字符串类型".toList,
               errorType := .VALIDATION_ERROR, loc := none }
  | .str s =>
    if trimStr s = [] then .ok emptyInfo
    else
      match parse s with
      | .error e =>
        .failure { parseError := formatError .PARSE_ERROR
                     ("Syntax error: ".toList ++ e.message ++ " / 语法错误".toList)
                     filePath e.loc
                     (some "Check syntax errors in the file / 检查文件中的语法错误".toList)
                   errorType := .PARSE_ERROR
                   loc := e.loc }
      | .ok ast => .ok (analyzeAst ast (extractFileDescription s))

/-! ## C2 — purity classifier -/

/-- "Every top-level statement is …" as a Boolean scan. -/
def allStmts (p : Stmt → Bool) : StmtList → Bool
  | .nil => true
  | .cons s ss => p s && allStmts p ss

/-- The claim's notion of a type-only statement, written from the spec's
words: a type-only declaration (type alias / interface / TS enum), a
type-only import (`import type …` or all specifiers type-only — a
side-effect-only import is *not* type-only), or a type-only
export/re-export. -/
def claimedTypeOnly : Stmt → Bool
  | .tsTypeAlias _ => true
  | .tsInterface _ => true
  | .tsEnum _ => true
  | .importDecl _ specs kind =>
    decide (kind = .type) || (impSpecsNonempty specs && !impSpecsAnyValue specs)
  | .exportNamed d specs kind _ =>
    decide (kind = .type) ||
    (match d with
     | some (.tsTypeAlias _) => true
     | some (.tsInterface _) => true
     | _ => false) ||
    (expSpecsNonempty specs && !expSpecsAnyValue specs)
  | .exportAll kind => decide (kind = .type)
  | _ => false

/-- A file whose only statement is a side-effect-only value import
(`import 'x';`). -/
def c2prog : StmtList := .cons (.importDecl "x".toList .nil .value) .nil

/-- The amended notion: as claimed, except that an import with no specifiers
(side-effect-only import) and a named export with neither declaration nor
specifiers (`export {}`) also count as type-only. -/
def amendedTypeOnly : Stmt → Bool
  | .tsTypeAlias _ => true
  | .tsInterface _ => true
  | .tsEnum _ => true
  | .importDecl _ specs kind =>
    decide (kind = .type) || !impSpecsAnyValue specs
  | .exportNamed d specs kind _ =>
    decide (kind = .type) ||
    (match d with
     | some (.tsTypeAlias _) => true
     | some (.tsInterface _) => true
     | some _ => false
     | none => !expSpecsAnyValue specs)
  | .exportAll kind => decide (kind = .type)
  | _ => false

/-! ## Pass-2 state monotonicity: every walker only appends to the
`functions` / `classes` / `constants` accumulators -/

/-- The three extraction accumulators of `σ` are prefixes of those of `τ`. -/
def extPrefix (σ τ : ExtractState) : Prop :=
  σ.functions <+: τ.functions ∧ σ.classes <+: τ.classes ∧ σ.constants <+: τ.constants

/-! ## C3 — parameter normalization -/

/-- The claim's parameter mapping, written from the spec's words: a plain
identifier parameter maps to its name, a default-valued parameter to
`name?`, a rest parameter to `...name`, any other binding pattern to `?`. -/
def specFnParamNorm : Pat → Str
  | .id n => n
  | .assignP (.id n) _ => n ++ ['?']
  | .rest (.id n) => '.' :: '.' :: '.' :: n
  | _ => ['?']

/-- The amended parameter mapping for class methods: as the claim, but with
no rest-parameter case (a rest parameter falls through to `?`). -/
def specMethodParamNorm : Pat → Str
  | .id n => n
  | .assignP (.id n) _ => n ++ ['?']
  | _ => ['?']

/-- The rest-parameter list `(...args)`. -/
def c3params : PatList := .cons (.rest (.id "args".toList)) .nil

/-- `class C { m(...args) {} }`. -/
def c3prog : StmtList :=
  .cons (.classDecl (some "C".toList) none
    (.cons (.method (.ident "m".toList) c3params .nil false .method none) .nil) none) .nil

/-! ## C4 — superclass extraction -/

/-- Root identifier of a (possibly nested) dotted expression, as the claim
reads: `A.B.C` has root `A`. -/
def exprRootIdent : Expr → Option Str
  | .ident n => some n
  | .member obj _ => exprRootIdent obj
  | _ => none

/-- The claim's superclass rule, written from the spec's words: the
identifier's name, or the root object identifier of a dotted expression. -/
def specClaimedSuper : Option Expr → Option Str
  | none => none
  | some e => exprRootIdent e

/-- `class C extends A.B.C {}`. -/
def c4prog : StmtList :=
  .cons (.classDecl (some "C".toList)
    (some (.member (.member (.ident "A".toList) (.ident "B".toList))
      (.ident "C".toList))) .nil none) .nil

/-- The amended superclass rule: a plain identifier gives its name, a
one-level member expression whose object and property are both plain
identifiers gives the object's name, and any other superclass expression
(including deeper dotted chains) gives no superclass. -/
def specAmendedSuper : Option Expr → Option Str
  | some (.ident n) => some n
  | some (.member (.ident o) (.ident _)) => some o
  | _ => none

/-- The imported-member name contributed by each import specifier (default →
`default`, namespace → `*`, named → imported name or string value), keeping
only specifiers with a non-empty imported name and local name, in source
order — the spec's member set of one import. -/
def specMembers : ImpSpecList → List Str
  | .nil => []
  | .cons sp ss =>
    let names : Str × Str :=
      match sp with
      | .defaultSpec l => ('d' :: 'e' :: 'f' :: 'a' :: 'u' :: 'l' :: 't' :: [], l)
      | .namespaceSpec l => ('*' :: [], l)
      | .namedSpec (.ident n) l _ => (n, l)
      | .namedSpec (.str v) l _ => (v, l)
    if names.1 ≠ [] ∧ names.2 ≠ [] then names.1 :: specMembers ss
    else specMembers ss

/-- "Deduplicated, in first-seen order": fold JS `Set.add` over the list. -/
def dedupFirst (l : List Str) : List Str := l.foldl setAdd []

/-! ## Pass 3 as a fold of the call-site visitor over `callSites` -/

/-- One call-graph step at a (site-enclosing-name, callee) pair. -/
def edgeStep (dfs imps : List Str) (cg : CallGraph) (p : Option Str × Expr) :
    CallGraph :=
  visitCallSite dfs imps cg p.1 p.2

/-- `const g = () => { add(1, 2); }` nested inside `function f`. -/
def c1gbody : StmtList :=
  .cons (.exprStmt (.call (.ident "add".toList) .nil)) .nil

/-- `function add(a, b) {}  function f() { const g = () => { add(); }; }`. -/
def c1prog : StmtList :=
  .cons (.funcDecl (some "add".toList)
    (.cons (.id "a".toList) (.cons (.id "b".toList) .nil)) .nil none)
    (.cons (.funcDecl (some "f".toList) .nil
      (.cons (.varDecl .constV
        (.cons (.mk (.id "g".toList) (some (.arrowFn .nil c1gbody))) .nil) none)
        .nil) none) .nil)

/-- `class C { m() {} }  function m() { x.m(); }`. -/
def c10prog : StmtList :=
  .cons (.classDecl (some "C".toList) none
    (.cons (.method (.ident "m".toList) .nil .nil false .method none) .nil) none)
    (.cons (.funcDecl (some "m".toList) .nil
      (.cons (.exprStmt (.call
        (.member (.ident "x".toList) (.ident "m".toList)) .nil)) .nil) none) .nil)

/-- The class record extracted from `w10prog`. -/
def w10m : MethodInfo :=
  { name := "m".toList, params := [], line := 0, static := false,
    kind := .method, description := [] }

def w10cls : ClassInfo :=
  { name := "C".toList, superClass := none, startLine := 0, endLine := 0,
    methods := [w10m], description := [] }

/-- `class C { m() {} }  function f() { x.m(); }`. -/
def w10prog : StmtList :=
  .cons (.classDecl (some "C".toList) none
    (.cons (.method (.ident "m".toList) .nil .nil false .method none) .nil) none)
    (.cons (.funcDecl (some "f".toList) .nil
      (.cons (.exprStmt (.call
        (.member (.ident "x".toList) (.ident "m".toList)) .nil)) .nil) none) .nil)

theorem decAux_zero : ∀ fuel, decAux fuel 0 = [] := by
  intro fuel; cases fuel <;> simp [decAux]

theorem toNat_digitChar {d : Nat} (h : d < 10) : (digitChar d).toNat = 48 + d := by
  interval_cases d <;> decide

theorem isDig_digitChar {d : Nat} (h : d < 10) : isDig (digitChar d) = true := by
  interval_cases d <;> decide

theorem digitsToNat_decAux : ∀ fuel n, n ≤ fuel → digitsToNat (decAux fuel n) = n := by
  intro fuel
  induction fuel with
  | zero => intro n h; interval_cases n; simp [decAux, digitsToNat]
  | succ f ih =>
    intro n h
    by_cases h0 : n = 0
    · subst h0; simp [decAux, digitsToNat]
    · have hlt : n / 10 < n := Nat.div_lt_self (Nat.pos_of_ne_zero h0) (by norm_num)
      have hle : n / 10 ≤ f := by omega
      simp only [decAux, if_neg h0, digitsToNat, List.foldl_append, List.foldl_cons,
        List.foldl_nil]
      have := ih (n / 10) hle
      simp only [digitsToNat] at this
      rw [this, toNat_digitChar (Nat.mod_lt _ (by norm_num))]
      omega

theorem isDig_decAux : ∀ fuel n, ∀ c ∈ decAux fuel n, isDig c = true := by
  intro fuel
  induction fuel with
  | zero => intro n c hc; simp [decAux] at hc
  | succ f ih =>
    intro n c hc
    by_cases h0 : n = 0
    · subst h0; simp [decAux] at hc
    · simp only [decAux, if_neg h0, List.mem_append, List.mem_singleton] at hc
      rcases hc with hc | hc
      · exact ih _ c hc
      · subst hc; exact isDig_digitChar (Nat.mod_lt _ (by norm_num))

theorem digitsToNat_decRepr (n : Nat) : digitsToNat (decRepr n) = n := by
  by_cases h0 : n = 0
  · subst h0; decide
  · simp only [decRepr, if_neg h0]
    exact digitsToNat_decAux _ n (Nat.le_succ n)

theorem isDig_decRepr (n : Nat) : ∀ c ∈ decRepr n, isDig c = true := by
  by_cases h0 : n = 0
  · subst h0; decide
  · simp only [decRepr, if_neg h0]
    exact isDig_decAux _ n

theorem decRepr_ne_nil (n : Nat) : decRepr n ≠ [] := by
  by_cases h0 : n = 0
  · subst h0; decide
  · simp only [decRepr, if_neg h0]
    cases fuel : n + 1 with
    | zero => omega
    | succ f => simp [decAux, h0]

theorem decRepr_inj {m n : Nat} (h : decRepr m = decRepr n) : m = n := by
  have := congrArg digitsToNat h
  rwa [digitsToNat_decRepr, digitsToNat_decRepr] at this

theorem encChar_ne_nil (c : Char) : encChar c ≠ [] := by
  unfold encChar; split <;> simp

theorem isDig_ne_underscore {c : Char} (h : isDig c = true) : c ≠ '_' := by
  intro hc; subst hc; simp [isDig] at h

/-- Splitting at the first `'_'` after a digit run is unambiguous. -/
theorem digit_run_split : ∀ (d1 : Str) (d2 r1 r2 : Str),
    (∀ c ∈ d1, isDig c = true) → (∀ c ∈ d2, isDig c = true) →
    d1 ++ '_' :: r1 = d2 ++ '_' :: r2 → d1 = d2 ∧ r1 = r2 := by
  intro d1
  induction d1 with
  | nil =>
    intro d2 r1 r2 _ hd2 h
    cases d2 with
    | nil => simpa using h
    | cons e es =>
      exfalso
      simp only [List.nil_append, List.cons_append, List.cons.injEq] at h
      exact isDig_ne_underscore (hd2 e (by simp)) h.1.symm
  | cons c cs ih =>
    intro d2 r1 r2 hd1 hd2 h
    cases d2 with
    | nil =>
      exfalso
      simp only [List.nil_append, List.cons_append, List.cons.injEq] at h
      exact isDig_ne_underscore (hd1 c (by simp)) h.1
    | cons e es =>
      simp only [List.cons_append, List.cons.injEq] at h
      obtain ⟨hce, htail⟩ := h
      obtain ⟨hcs, hr⟩ := ih es r1 r2 (fun x hx => hd1 x (by simp [hx]))
        (fun x hx => hd2 x (by simp [hx])) htail
      exact ⟨by simp [hce, hcs], hr⟩

theorem isAsciiAlnum_underscore : isAsciiAlnum '_' = false := by decide

theorem char_toNat_inj {c d : Char} (h : c.toNat = d.toNat) : c = d :=
  Char.ext (UInt32.ext h)

theorem encodeChars_inj : ∀ s t : Str, encodeChars s = encodeChars t → s = t := by
  intro s
  induction s with
  | nil =>
    intro t h
    cases t with
    | nil => rfl
    | cons e es =>
      exfalso
      have : encChar e ++ encodeChars es = [] := by simpa [encodeChars] using h.symm
      exact encChar_ne_nil e (List.append_eq_nil.mp this).1
  | cons c cs ih =>
    intro t h
    cases t with
    | nil =>
      exfalso
      have : encChar c ++ encodeChars cs = [] := by simpa [encodeChars] using h
      exact encChar_ne_nil c (List.append_eq_nil.mp this).1
    | cons e es =>
      simp only [encodeChars] at h
      by_cases hc : isAsciiAlnum c = true <;> by_cases he : isAsciiAlnum e = true
      · simp only [encChar, if_pos hc, if_pos he, List.cons_append, List.nil_append,
          List.cons.injEq] at h
        exact by rw [h.1, ih es h.2]
      · exfalso
        simp only [encChar, if_pos hc, if_neg he, List.cons_append, List.nil_append,
          List.cons.injEq] at h
        have : isAsciiAlnum '_' = true := h.1 ▸ hc
        rw [isAsciiAlnum_underscore] at this; exact Bool.false_ne_true this
      · exfalso
        simp only [encChar, if_neg hc, if_pos he, List.cons_append, List.nil_append,
          List.cons.injEq] at h
        have : isAsciiAlnum '_' = true := h.1 ▸ he
        rw [isAsciiAlnum_underscore] at this; exact Bool.false_ne_true this
      · simp only [encChar, if_neg hc, if_neg he, List.cons_append, List.cons.injEq,
          List.append_assoc, List.singleton_append, List.nil_append, true_and] at h
        obtain ⟨hrun, hrest⟩ := digit_run_split _ _ _ _ (isDig_decRepr _) (isDig_decRepr _) h
        have hcd : c = e := char_toNat_inj (decRepr_inj hrun)
        rw [hcd, ih es hrest]

/-- **C5** — The diagram node-id derivation (replace every non-alphanumeric
character of a display name with an underscore-delimited numeric code-point
token) is injective: distinct display names always receive distinct derived
node identifiers, so e.g. `test.js` and `test_js` can never collide. -/
theorem c5_nodeId_injective (n1 n2 : Str) (h : n1 ≠ n2) : safeId n1 ≠ safeId n2 := by
  intro heq
  apply h
  have : encodeChars n1 = encodeChars n2 := by
    simpa [safeId] using heq
  exact encodeChars_inj _ _ this

/-- Witness for C5 at the display names `test.js` and `test_js`. -/
theorem c5_nodeId_injective_witness :
    "test.js".toList ≠ "test_js".toList ∧ safeId "test.js".toList ≠ safeId "test_js".toList :=
  ⟨by decide, c5_nodeId_injective _ _ (by decide)⟩

/-! ## Round-trip lemmas for the compact index -/

theorem spanUntil_append {t : Char} {xs ys : Str} (h : t ∉ xs) :
    spanUntil t (xs ++ t :: ys) = some (xs, ys) := by
  induction xs with
  | nil => simp [spanUntil]
  | cons c cs ih =>
    have hct : ¬c = t := fun hc => h (hc ▸ List.mem_cons_self c cs)
    simp only [List.cons_append, spanUntil, if_neg hct, List.append_eq]
    rw [ih (fun hm => h (List.mem_cons_of_mem _ hm))]

theorem spanUntil_none {t : Char} {s : Str} (h : t ∉ s) : spanUntil t s = none := by
  induction s with
  | nil => rfl
  | cons c cs ih =>
    have hct : ¬c = t := fun hc => h (hc ▸ List.mem_cons_self c cs)
    simp only [spanUntil, if_neg hct, ih (fun hm => h (List.mem_cons_of_mem _ hm))]

theorem spanUntil_eq {t : Char} : ∀ {s a b : Str},
    spanUntil t s = some (a, b) → s = a ++ t :: b ∧ t ∉ a := by
  intro s
  induction s with
  | nil => intro a b h; simp [spanUntil] at h
  | cons c cs ih =>
    intro a b h
    by_cases hct : c = t
    · subst hct
      simp only [spanUntil, if_pos rfl, Option.some.injEq, Prod.mk.injEq] at h
      obtain ⟨rfl, rfl⟩ := h
      simp
    · simp only [spanUntil, if_neg hct] at h
      cases hsp : spanUntil t cs with
      | none => rw [hsp] at h; simp at h
      | some p =>
        rw [hsp] at h
        obtain ⟨a', b'⟩ := p
        simp only [Option.some.injEq, Prod.mk.injEq] at h
        obtain ⟨rfl, rfl⟩ := h
        obtain ⟨hcs, hmem⟩ := ih hsp
        constructor
        · rw [hcs]; simp
        · intro hm
          rcases List.mem_cons.mp hm with h1 | h1
          · exact hct h1.symm
          · exact hmem h1

theorem takeWhile_append_stop (p : Char → Bool) (xs : Str) (y : Char) (ys : Str)
    (hxs : ∀ x ∈ xs, p x = true) (hy : p y = false) :
    (xs ++ y :: ys).takeWhile p = xs ∧ (xs ++ y :: ys).dropWhile p = y :: ys := by
  induction xs with
  | nil => simp [List.takeWhile, List.dropWhile, hy]
  | cons c cs ih =>
    have hc : p c = true := hxs c (by simp)
    obtain ⟨h1, h2⟩ := ih (fun x hx => hxs x (by simp [hx]))
    simp [List.takeWhile, List.dropWhile, hc, h1, h2]

theorem takeWhile_all (p : Char → Bool) (xs : Str) (hxs : ∀ x ∈ xs, p x = true) :
    xs.takeWhile p = xs ∧ xs.dropWhile p = [] := by
  induction xs with
  | nil => simp
  | cons c cs ih =>
    have hc : p c = true := hxs c (by simp)
    obtain ⟨h1, h2⟩ := ih (fun x hx => hxs x (by simp [hx]))
    simp [List.takeWhile, List.dropWhile, hc, h1, h2]

theorem parseNatToken_decRepr (n : Nat) (rest : Str)
    (h : ∀ c, rest.head? = some c → isDig c = false) :
    parseNatToken (decRepr n ++ rest) = some (n, rest) := by
  cases rest with
  | nil =>
    obtain ⟨h1, h2⟩ := takeWhile_all isDig (decRepr n) (isDig_decRepr n)
    simp only [List.append_nil, parseNatToken, h1, h2]
    rw [if_neg (decRepr_ne_nil n), digitsToNat_decRepr]
  | cons c cs =>
    obtain ⟨h1, h2⟩ := takeWhile_append_stop isDig (decRepr n) c cs (isDig_decRepr n) (h c rfl)
    simp only [parseNatToken, h1, h2]
    rw [if_neg (decRepr_ne_nil n), digitsToNat_decRepr]

theorem head_not_dig_of_tailOk {s : Str} (h : tailOk s = true) :
    ∀ c, s.head? = some c → isDig c = false := by
  intro c hc
  cases s with
  | nil => simp at hc
  | cons d ds =>
    simp only [List.head?_cons, Option.some.injEq] at hc
    subst hc
    simp only [tailOk, decide_eq_true_eq] at h
    subst h; decide

theorem parseRange2_ok (a b : Nat) (tail : Str) (h : tailOk tail = true) :
    parseRange2 (decRepr a ++ '-' :: (decRepr b ++ tail)) = some (a, b) := by
  have h1 : parseNatToken (decRepr a ++ '-' :: (decRepr b ++ tail)) =
      some (a, '-' :: (decRepr b ++ tail)) :=
    parseNatToken_decRepr a _ (by intro c hc; simp at hc; subst hc; decide)
  have h2 : parseNatToken (decRepr b ++ tail) = some (b, tail) :=
    parseNatToken_decRepr b tail (head_not_dig_of_tailOk h)
  simp only [parseRange2, h1, h2, if_pos h]

theorem parseLineNum_ok (n : Nat) (tail : Str) (h : tailOk tail = true) :
    parseLineNum (decRepr n ++ tail) = some n := by
  have h1 : parseNatToken (decRepr n ++ tail) = some (n, tail) :=
    parseNatToken_decRepr n tail (head_not_dig_of_tailOk h)
  simp only [parseLineNum, h1, if_pos h]

theorem tailOk_suffix (d : Str) (c : Option (List Str)) :
    tailOk (descSuffix d ++ callSuffix c) = true := by
  rcases d with _ | ⟨x, xs⟩
  · rcases c with _ | cs
    · rfl
    · simp only [descSuffix, callSuffix]
      by_cases hcs : cs = []
      · simp [hcs, tailOk]
      · simp [hcs, tailOk]
  · simp [descSuffix, tailOk]

theorem stripKindMark_eq_self {s : Str} (h : hasKindMark s = false) : stripKindMark s = s := by
  unfold stripKindMark
  split
  · exfalso; revert h; simp [hasKindMark]
  · exfalso; revert h; simp [hasKindMark]
  · rfl

theorem hasKindMark_append_paren (nm X : Str) (h : hasKindMark nm = false) :
    hasKindMark (nm ++ '(' :: X) = false := by
  rcases nm with _ | ⟨a, _ | ⟨b, _ | ⟨c, _ | ⟨d, r⟩⟩⟩⟩ <;>
    simp_all [hasKindMark] <;>
    (try split at h) <;>
    (try split) <;>
    simp_all

/-- A space occurring before the first `'('` of a line lands inside the
name segment cut off by `spanUntil '('`. -/
theorem mem_of_span_after : ∀ (A B nm rest : Str),
    A ++ ' ' :: B = nm ++ '(' :: rest → '(' ∉ A → ' ' ∈ nm := by
  intro A
  induction A with
  | nil =>
    intro B nm rest h _
    cases nm with
    | nil => simp at h
    | cons c nm' =>
      simp only [List.nil_append, List.cons_append, List.cons.injEq] at h
      exact h.1 ▸ List.mem_cons_self _ _
  | cons a A' ih =>
    intro B nm rest h hA
    cases nm with
    | nil =>
      exfalso
      simp only [List.cons_append, List.nil_append, List.cons.injEq] at h
      exact hA (h.1 ▸ List.mem_cons_self _ _)
    | cons c nm' =>
      simp only [List.cons_append, List.cons.injEq] at h
      exact List.mem_cons_of_mem _ (ih B nm' rest h.2 (fun hm => hA (List.mem_cons_of_mem _ hm)))

/-- Any two-space line whose pre-`'('` segment contains a space is not a
function line. -/
theorem parseFnLine_spacey (A B : Str) (hA : '(' ∉ A) :
    parseFnLine (A ++ ' ' :: B) = none := by
  have hmem : ∀ nm rest, spanUntil '(' (A ++ ' ' :: B) = some (nm, rest) → ' ' ∈ nm := by
    intro nm rest hsp
    obtain ⟨heq, _⟩ := spanUntil_eq hsp
    exact mem_of_span_after A B nm rest heq hA
  unfold parseFnLine
  cases hh : (A ++ ' ' :: B).head? with
  | none => rfl
  | some c =>
    by_cases hlt : c = '<' ∨ c = '>'
    · simp [hlt]
    · simp only [if_neg hlt]
      cases hsp : spanUntil '(' (A ++ ' ' :: B) with
      | none => rfl
      | some p =>
        obtain ⟨nm, rest⟩ := p
        simp [hmem nm rest hsp]

theorem parseFnmapLine_not_space (c : Char) (xs : Str) (h : c ≠ ' ') :
    parseFnmapLine (c :: xs) = none := by
  cases xs with
  | nil => rfl
  | cons c2 xs' => simp [parseFnmapLine, h]

theorem parseFnmapLine_two_space (c3 : Char) (t : Str) (h : c3 ≠ ' ') :
    parseFnmapLine (' ' :: ' ' :: c3 :: t) = (parseFnLine (c3 :: t)).map Sum.inl := by
  cases t with
  | nil => simp [parseFnmapLine, h]
  | cons c4 t' => simp [parseFnmapLine, h]

theorem parseFnmapLine_three_space (c4 : Char) (r : Str) (h : c4 ≠ ' ') :
    parseFnmapLine (' ' :: ' ' :: ' ' :: c4 :: r) = none := by
  simp [parseFnmapLine, h]

theorem parseFnmapLine_four_space (r : Str) :
    parseFnmapLine (' ' :: ' ' :: ' ' :: ' ' :: r) = (parseMethodLine r).map Sum.inr := by
  simp [parseFnmapLine]

theorem parseFnLine_skip (r : Str) (c : Char) (hh : r.head? = some c)
    (h : c = '<' ∨ c = '>') : parseFnLine r = none := by
  unfold parseFnLine
  rw [hh]
  simp [h]

/-- Lines of shape `  A B…` with a space-free, paren-free first segment
(class headers, constant lines) are never parsed as tuples. -/
theorem dataLine_none (A B : Str) (h1 : '(' ∉ A) (h2 : ' ' ∉ A)
    (h3 : ∀ c, B.head? = some c → c ≠ ' ') :
    parseFnmapLine (' ' :: ' ' :: (A ++ ' ' :: B)) = none := by
  cases A with
  | nil =>
    cases B with
    | nil => rfl
    | cons c B' =>
      have hc : c ≠ ' ' := h3 c rfl
      simpa using parseFnmapLine_three_space c B' hc
  | cons a A' =>
    have ha : a ≠ ' ' := fun hs => h2 (hs ▸ List.mem_cons_self a A')
    rw [List.cons_append, parseFnmapLine_two_space a _ ha]
    rw [show a :: (A' ++ ' ' :: B) = (a :: A') ++ ' ' :: B from rfl]
    rw [parseFnLine_spacey _ _ h1]
    rfl

/-- The emitted function line parses back to exactly its source tuple. -/
theorem parseFnmapLine_functionLine (cg : CallGraph) (fn : FunctionInfo)
    (hn1 : ' ' ∉ fn.name) (hn2 : '(' ∉ fn.name)
    (hn3 : fn.name.head? ≠ some '<') (hn4 : fn.name.head? ≠ some '>')
    (hp : ')' ∉ fn.params) :
    parseFnmapLine (functionLine cg fn) = some (Sum.inl (fnTupleOf fn)) := by
  have hfn : parseFnLine (fn.name ++ '(' :: (fn.params ++ ')' :: ' ' ::
      (decRepr fn.startLine ++ '-' :: (decRepr fn.endLine ++
        (descSuffix fn.description ++
          callSuffix (cgFind cg fn.name)))))) = some (fnTupleOf fn) := by
    have hhead : ∀ c, (fn.name ++ '(' :: (fn.params ++ ')' :: ' ' ::
        (decRepr fn.startLine ++ '-' :: (decRepr fn.endLine ++
          (descSuffix fn.description ++
            callSuffix (cgFind cg fn.name)))))).head? = some c → ¬(c = '<' ∨ c = '>') := by
      intro c hc hor
      cases hname : fn.name with
      | nil =>
        rw [hname] at hc
        simp only [List.nil_append, List.head?_cons, Option.some.injEq] at hc
        subst hc
        rcases hor with h | h <;> simp at h
      | cons n0 nm =>
        rw [hname] at hc
        simp only [List.cons_append, List.head?_cons, Option.some.injEq] at hc
        subst hc
        rcases hor with h | h
        · exact hn3 (by rw [hname, h]; rfl)
        · exact hn4 (by rw [hname, h]; rfl)
    unfold parseFnLine
    cases hh : (fn.name ++ '(' :: (fn.params ++ ')' :: ' ' ::
        (decRepr fn.startLine ++ '-' :: (decRepr fn.endLine ++
          (descSuffix fn.description ++
            callSuffix (cgFind cg fn.name)))))).head? with
    | none => exfalso; cases hname : fn.name <;> rw [hname] at hh <;> simp at hh
    | some c =>
      simp only [if_neg (hhead c hh), spanUntil_append hn2, if_neg hn1, spanUntil_append hp,
        parseRange2_ok _ _ _ (tailOk_suffix fn.description (cgFind cg fn.name))]
      rfl
  have hshape : functionLine cg fn = ' ' :: ' ' :: (fn.name ++ '(' :: (fn.params ++ ')' :: ' ' ::
      (decRepr fn.startLine ++ '-' :: (decRepr fn.endLine ++
        (descSuffix fn.description ++
          callSuffix (cgFind cg fn.name)))))) := by
    simp [functionLine, List.cons_append, List.append_assoc]
  rw [hshape]
  cases hname : fn.name with
  | nil =>
    rw [hname] at hfn
    simp only [List.nil_append] at hfn ⊢
    rw [parseFnmapLine_two_space '(' _ (by decide), hfn]
    rfl
  | cons n0 nm =>
    have h0 : n0 ≠ ' ' := fun hs => hn1 (hname ▸ hs ▸ List.mem_cons_self n0 nm)
    rw [hname] at hfn
    rw [List.cons_append] at hfn ⊢
    rw [parseFnmapLine_two_space n0 _ h0, hfn]
    rfl

theorem stripKindMark_kindMark (k : MethodKind) (nm Y : Str)
    (h : k = .get ∨ k = .set ∨ hasKindMark nm = false) :
    stripKindMark (kindMark k ++ (nm ++ '(' :: Y)) = nm ++ '(' :: Y := by
  cases k with
  | get => simp [kindMark, stripKindMark]
  | set => simp [kindMark, stripKindMark]
  | ctor =>
    have h3 : hasKindMark nm = false := by
      rcases h with h | h | h
      · cases h
      · cases h
      · exact h
    simp only [kindMark, List.nil_append]
    exact stripKindMark_eq_self (hasKindMark_append_paren nm Y h3)
  | method =>
    have h3 : hasKindMark nm = false := by
      rcases h with h | h | h
      · cases h
      · cases h
      · exact h
    simp only [kindMark, List.nil_append]
    exact stripKindMark_eq_self (hasKindMark_append_paren nm Y h3)

/-- The emitted method line parses back to exactly its source tuple. -/
theorem parseFnmapLine_methodLine (cg : CallGraph) (cn : Str) (m : MethodInfo)
    (hn2 : '(' ∉ m.name) (hp : ')' ∉ m.params)
    (hk : m.kind = .get ∨ m.kind = .set ∨ hasKindMark m.name = false) :
    parseFnmapLine (methodLine cg cn m) = some (Sum.inr (mTupleOf m)) := by
  have hcore : ∀ mk : Char, mk = '+' ∨ mk = '.' →
      parseMethodLine (mk :: (kindMark m.kind ++ (m.name ++ '(' :: (m.params ++ ')' :: ' ' ::
        (decRepr m.line ++ (descSuffix m.description ++
          callSuffix ((cgFind cg (cn ++ '.' :: m.name)).orElse
            (fun _ => cgFind cg m.name)))))))) = some (mTupleOf m) := by
    intro mk hmk
    simp only [parseMethodLine, if_pos hmk, stripKindMark_kindMark m.kind _ _ hk,
      spanUntil_append hn2, spanUntil_append hp,
      parseLineNum_ok _ _ (tailOk_suffix m.description _)]
    rfl
  have hshape : methodLine cg cn m = ' ' :: ' ' :: ' ' :: ' ' ::
      ((if m.static then '+' else '.') :: (kindMark m.kind ++ (m.name ++ '(' :: (m.params ++
        ')' :: ' ' :: (decRepr m.line ++ (descSuffix m.description ++
          callSuffix ((cgFind cg (cn ++ '.' :: m.name)).orElse
            (fun _ => cgFind cg m.name)))))))) := by
    cases hs : m.static <;> simp [methodLine, hs, List.cons_append, List.append_assoc]
  rw [hshape, parseFnmapLine_four_space, hcore _ (by cases hs : m.static <;> simp [hs])]
  rfl

theorem head?_append_ne (l r : Str) (h : l ≠ []) : (l ++ r).head? = l.head? := by
  cases l with
  | nil => exact absurd rfl h
  | cons c cs => rfl

theorem decRepr_head_not_space (n : Nat) (X : Str) :
    ∀ c, (decRepr n ++ X).head? = some c → c ≠ ' ' := by
  intro c hc
  rw [head?_append_ne _ _ (decRepr_ne_nil n)] at hc
  have hmem : c ∈ decRepr n := by
    cases hd : decRepr n with
    | nil => exact absurd hd (decRepr_ne_nil n)
    | cons x xs =>
      rw [hd] at hc
      simp only [List.head?_cons, Option.some.injEq] at hc
      exact hc ▸ hd ▸ List.mem_cons_self x xs
  have := isDig_decRepr n c hmem
  intro hsp
  rw [hsp] at this
  simp [isDig] at this

theorem parseFnmapLine_fileHeader (p : Str) (info : FileInfo) :
    parseFnmapLine (fileHeaderLine p info) = none := by
  rw [fileHeaderLine, List.cons_append]
  exact parseFnmapLine_not_space '#' _ (by decide)

theorem parseFnmapLine_lt (T : Str) : parseFnmapLine (' ' :: ' ' :: '<' :: T) = none := by
  rw [parseFnmapLine_two_space '<' T (by decide),
    parseFnLine_skip ('<' :: T) '<' rfl (Or.inl rfl)]
  rfl

theorem parseFnmapLine_gt (T : Str) : parseFnmapLine (' ' :: ' ' :: '>' :: T) = none := by
  rw [parseFnmapLine_two_space '>' T (by decide),
    parseFnLine_skip ('>' :: T) '>' rfl (Or.inr rfl)]
  rfl

theorem parseFnmapLine_importLine (imp : ImportInfo) :
    parseFnmapLine (importLine imp) = none := by
  have hshape : importLine imp =
      ' ' :: ' ' :: '<' :: (imp.module ++ ':' :: joinSep [','] imp.members) := by
    simp [importLine]
  rw [hshape]
  exact parseFnmapLine_lt _

theorem parseFnmapLine_classHeader (cls : ClassInfo)
    (h1 : ' ' ∉ cls.name) (h2 : '(' ∉ cls.name)
    (h3 : ∀ s, cls.superClass = some s → ' ' ∉ s ∧ '(' ∉ s) :
    parseFnmapLine (classHeaderLine cls) = none := by
  have hshape : classHeaderLine cls = ' ' :: ' ' ::
      ((cls.name ++ (match cls.superClass with | some s => ':' :: s | none => [])) ++
        ' ' :: (decRepr cls.startLine ++ '-' :: (decRepr cls.endLine ++
          descSuffix cls.description))) := by
    simp [classHeaderLine, List.cons_append, List.append_assoc]
  rw [hshape]
  apply dataLine_none
  · intro hm
    rcases List.mem_append.mp hm with hm | hm
    · exact h2 hm
    · cases hsc : cls.superClass with
      | none => rw [hsc] at hm; simp at hm
      | some s =>
        rw [hsc] at hm
        rcases List.mem_cons.mp hm with hm | hm
        · cases hm
        · exact (h3 s hsc).2 hm
  · intro hm
    rcases List.mem_append.mp hm with hm | hm
    · exact h1 hm
    · cases hsc : cls.superClass with
      | none => rw [hsc] at hm; simp at hm
      | some s =>
        rw [hsc] at hm
        rcases List.mem_cons.mp hm with hm | hm
        · cases hm
        · exact (h3 s hsc).1 hm
  · exact decRepr_head_not_space cls.startLine _

theorem parseFnmapLine_constLine (k : ConstantInfo)
    (h1 : ' ' ∉ k.name) (h2 : '(' ∉ k.name) :
    parseFnmapLine (constantLine k) = none := by
  have hshape : constantLine k = ' ' :: ' ' ::
      (k.name ++ ' ' :: (decRepr k.line ++ descSuffix k.description)) := by
    simp [constantLine, List.cons_append, List.append_assoc]
  rw [hshape]
  exact dataLine_none _ _ h2 h1 (decRepr_head_not_space k.line _)

theorem noNl_decRepr (n : Nat) : noNl (decRepr n) := by
  intro h
  have := isDig_decRepr n _ h
  simp [isDig] at this

theorem not_mem_joinSep (c : Char) (sep : Str) :
    ∀ ls : List Str, c ∉ sep → (∀ l ∈ ls, c ∉ l) → c ∉ joinSep sep ls := by
  intro ls
  induction ls with
  | nil => intro _ _; simp [joinSep]
  | cons x xs ih =>
    intro hsep hls
    cases xs with
    | nil => simpa [joinSep] using hls x (by simp)
    | cons y ys =>
      have hexp : joinSep sep (x :: y :: ys) = x ++ sep ++ joinSep sep (y :: ys) := rfl
      rw [hexp]
      intro hm
      rcases List.mem_append.mp hm with hm | hm
      · rcases List.mem_append.mp hm with hm | hm
        · exact hls x (by simp) hm
        · exact hsep hm
      · exact ih hsep (fun l hl => hls l (by simp [hl])) hm

theorem cgFind_some_mem : ∀ (cg : CallGraph) (k : Str) (v : List Str),
    cgFind cg k = some v → ∃ kk, (kk, v) ∈ cg := by
  intro cg
  induction cg with
  | nil => intro k v h; simp [cgFind] at h
  | cons p rest ih =>
    intro k v h
    obtain ⟨k0, v0⟩ := p
    rw [cgFind] at h
    by_cases hk : k0 = k
    · rw [if_pos hk] at h
      cases Option.some.inj h
      exact ⟨k0, List.mem_cons_self _ _⟩
    · rw [if_neg hk] at h
      obtain ⟨kk, hm⟩ := ih k v h
      exact ⟨kk, by simp [hm]⟩

theorem noNl_callSuffix (o : Option (List Str))
    (h : ∀ cs, o = some cs → ∀ x ∈ cs, noNl x) : noNl (callSuffix o) := by
  cases o with
  | none => simp [callSuffix, noNl]
  | some cs =>
    rw [callSuffix]
    by_cases hcs : cs = []
    · simp [hcs, noNl]
    · rw [if_pos hcs]
      intro hm
      rcases List.mem_cons.mp hm with hm | hm
      · cases hm
      · rcases List.mem_cons.mp hm with hm | hm
        · cases hm
        · exact not_mem_joinSep '\n' [','] cs (by decide) (h cs rfl) hm

theorem noNl_descSuffix (d : Str) (h : noNl d) : noNl (descSuffix d) := by
  rw [descSuffix]
  by_cases hd : d = []
  · simp [hd, noNl]
  · rw [if_pos hd]
    intro hm
    rcases List.mem_cons.mp hm with hm | hm
    · cases hm
    · exact h hm

theorem mem_basenameStr {c : Char} {p : Str} (h : c ∈ basenameStr p) : c ∈ p := by
  rw [basenameStr, List.mem_reverse] at h
  have h1 := (List.takeWhile_sublist _).subset h
  have h2 := (List.dropWhile_sublist _).subset h1
  exact List.mem_reverse.mp h2

theorem splitOnNl_ne_nil : ∀ s : Str, splitOnNl s ≠ [] := by
  intro s
  induction s with
  | nil => simp [splitOnNl]
  | cons c cs ih =>
    rw [splitOnNl]
    by_cases hc : c = '\n'
    · simp [hc]
    · rw [if_neg hc]
      cases hsp : splitOnNl cs with
      | nil => simp
      | cons l ls => simp

theorem splitOnNl_no_nl : ∀ l : Str, noNl l → splitOnNl l = [l] := by
  intro l
  induction l with
  | nil => intro _; rfl
  | cons c cs ih =>
    intro h
    have hc : c ≠ '\n' := fun hcc => h (hcc ▸ List.mem_cons_self c cs)
    rw [splitOnNl, if_neg hc, ih (fun hm => h (List.mem_cons_of_mem _ hm))]

theorem splitOnNl_append : ∀ (x r : Str), noNl x →
    splitOnNl (x ++ '\n' :: r) = x :: splitOnNl r := by
  intro x
  induction x with
  | nil => intro r _; simp [splitOnNl]
  | cons c cs ih =>
    intro r h
    have hc : c ≠ '\n' := fun hcc => h (hcc ▸ List.mem_cons_self c cs)
    rw [List.cons_append, splitOnNl, if_neg hc, ih r (fun hm => h (List.mem_cons_of_mem _ hm))]

theorem splitOnNl_joinSep : ∀ ls : List Str, ls ≠ [] → (∀ l ∈ ls, noNl l) →
    splitOnNl (joinSep ['\n'] ls) = ls := by
  intro ls
  induction ls with
  | nil => intro h _; exact absurd rfl h
  | cons x xs ih =>
    intro _ hls
    cases xs with
    | nil => exact splitOnNl_no_nl x (hls x (by simp))
    | cons y ys =>
      have hexp : joinSep ['\n'] (x :: y :: ys) = x ++ ['\n'] ++ joinSep ['\n'] (y :: ys) := rfl
      rw [hexp, List.append_assoc, List.singleton_append,
        splitOnNl_append _ _ (hls x (by simp)),
        ih (by simp) (fun l hl => hls l (by simp [hl]))]

theorem filterMap_all_none {α β : Type} (f : α → Option β) :
    ∀ l : List α, (∀ x ∈ l, f x = none) → l.filterMap f = [] := by
  intro l
  induction l with
  | nil => intro _; rfl
  | cons x xs ih =>
    intro h
    rw [List.filterMap_cons, h x (by simp), ih (fun y hy => h y (by simp [hy]))]

theorem filterMap_all_some {α β : Type} (f : α → Option β) (g : α → β) :
    ∀ l : List α, (∀ x ∈ l, f x = some (g x)) → l.filterMap f = l.map g := by
  intro l
  induction l with
  | nil => intro _; rfl
  | cons x xs ih =>
    intro h
    rw [List.filterMap_cons, h x (by simp), ih (fun y hy => h y (by simp [hy])), List.map_cons]

theorem noNl_nil : noNl [] := List.not_mem_nil _

theorem noNl_cons {c : Char} {s : Str} (hc : c ≠ '\n') (h : noNl s) : noNl (c :: s) := by
  intro hm
  rcases List.mem_cons.mp hm with hm | hm
  · exact hc hm.symm
  · exact h hm

theorem noNl_append {a b : Str} (ha : noNl a) (hb : noNl b) : noNl (a ++ b) := by
  intro hm
  rcases List.mem_append.mp hm with hm | hm
  · exact ha hm
  · exact hb hm

theorem noNl_take {s : Str} (n : Nat) (h : noNl s) : noNl (s.take n) :=
  fun hm => h (List.take_subset n s hm)

theorem noNl_joinSep {sep : Str} {ls : List Str} (hsep : noNl sep)
    (hls : ∀ l ∈ ls, noNl l) : noNl (joinSep sep ls) :=
  not_mem_joinSep '\n' sep ls hsep hls

theorem noNl_basename {p : Str} (h : noNl p) : noNl (basenameStr p) :=
  fun hm => h (mem_basenameStr hm)

theorem wfSuper_all {o : Option Str} (h : wfSuper o) :
    ∀ s, o = some s → noNl s ∧ ' ' ∉ s ∧ '(' ∉ s := by
  intro s hs
  subst hs
  exact h

theorem noNl_cgCalls (cg : CallGraph) (hcg : wfCallGraph cg) (o : Option (List Str))
    (ho : ∀ cs, o = some cs → ∃ kk, (kk, cs) ∈ cg) : noNl (callSuffix o) := by
  apply noNl_callSuffix
  intro cs hcs x hx
  obtain ⟨kk, hm⟩ := ho cs hcs
  exact hcg (kk, cs) hm x hx

theorem cgFind_orElse_mem (cg : CallGraph) (k1 k2 : Str) :
    ∀ cs, (cgFind cg k1).orElse (fun _ => cgFind cg k2) = some cs → ∃ kk, (kk, cs) ∈ cg := by
  intro cs hcs
  cases h1 : cgFind cg k1 with
  | some v =>
    rw [h1] at hcs
    have hv : v = cs := by simpa [Option.orElse] using hcs
    exact cgFind_some_mem cg k1 cs (by rw [h1, hv])
  | none =>
    rw [h1] at hcs
    have hv : cgFind cg k2 = some cs := by simpa [Option.orElse] using hcs
    exact cgFind_some_mem cg k2 cs hv

theorem noNl_fileHeaderLine (rel : Str) (info : FileInfo) (hrel : noNl rel)
    (hd : noNl info.description) : noNl (fileHeaderLine rel info) := by
  unfold fileHeaderLine
  apply noNl_append (noNl_cons (by decide) (noNl_basename hrel))
  split
  · exact noNl_cons (by decide) (noNl_take 50 hd)
  · exact noNl_nil

theorem noNl_importLine (imp : ImportInfo) (hw : wfImport imp) : noNl (importLine imp) := by
  unfold importLine
  exact noNl_append
    (noNl_cons (by decide) (noNl_cons (by decide) (noNl_cons (by decide) hw.1)))
    (noNl_cons (by decide) (noNl_joinSep (by decide) hw.2))

theorem noNl_classHeaderLine (cls : ClassInfo) (hw : wfClass cls) :
    noNl (classHeaderLine cls) := by
  obtain ⟨h1, h2, _, _, h5, _⟩ := hw
  simp only [classHeaderLine, List.append_assoc, List.cons_append]
  refine noNl_cons (by decide) (noNl_cons (by decide) (noNl_append h1 (noNl_append ?_
    (noNl_cons (by decide) (noNl_append (noNl_decRepr _) (noNl_cons (by decide)
      (noNl_append (noNl_decRepr _) (noNl_descSuffix _ h2))))))))
  cases hsc : cls.superClass with
  | none => exact noNl_nil
  | some s => exact noNl_cons (by decide) (wfSuper_all h5 s hsc).1

theorem noNl_methodLine (cg : CallGraph) (cn : Str) (m : MethodInfo)
    (hcg : wfCallGraph cg) (hw : wfMethod m) : noNl (methodLine cg cn m) := by
  obtain ⟨h1, h2, h3, _⟩ := hw
  simp only [methodLine, List.append_assoc, List.cons_append]
  refine noNl_append ?_ (noNl_append ?_ (noNl_append h1 (noNl_cons (by decide)
    (noNl_append h2 (noNl_cons (by decide) (noNl_cons (by decide)
      (noNl_append (noNl_decRepr _) (noNl_append (noNl_descSuffix _ h3)
        (noNl_cgCalls cg hcg _ (cgFind_orElse_mem cg _ _))))))))))
  · split <;> decide
  · cases m.kind <;> decide

theorem noNl_functionLine (cg : CallGraph) (fn : FunctionInfo)
    (hcg : wfCallGraph cg) (hw : wfFunction fn) : noNl (functionLine cg fn) := by
  obtain ⟨h1, h2, h3, _⟩ := hw
  simp only [functionLine, List.append_assoc, List.cons_append]
  exact noNl_cons (by decide) (noNl_cons (by decide) (noNl_append h1 (noNl_cons (by decide)
    (noNl_append h2 (noNl_cons (by decide) (noNl_cons (by decide)
      (noNl_append (noNl_decRepr _) (noNl_cons (by decide)
        (noNl_append (noNl_decRepr _) (noNl_append (noNl_descSuffix _ h3)
          (noNl_cgCalls cg hcg _ (fun cs hcs => cgFind_some_mem cg _ cs hcs))))))))))))

theorem noNl_constantLine (k : ConstantInfo) (hw : wfConstant k) :
    noNl (constantLine k) := by
  obtain ⟨h1, h2, _⟩ := hw
  simp only [constantLine, List.append_assoc, List.cons_append]
  exact noNl_cons (by decide) (noNl_cons (by decide) (noNl_append h1 (noNl_cons (by decide)
    (noNl_append (noNl_decRepr _) (noNl_descSuffix _ h2)))))

theorem noNl_exportName (e : ExportInfo) (hw : wfExport e) : noNl (exportName e) := by
  cases hk : e.kind with
  | value => simpa [exportName, hk] using hw.1
  | type =>
    simp only [exportName, hk]
    exact noNl_cons (by decide) (noNl_cons (by decide) (noNl_cons (by decide)
      (noNl_cons (by decide) (noNl_cons (by decide) hw.1))))
  | default =>
    cases hl : e.localName with
    | none => simp [exportName, hk, hl]; decide
    | some l =>
      simp only [exportName, hk, hl]
      have hwl : noNl l := by
        have := hw.2
        rw [hl] at this
        exact this
      exact noNl_cons (by decide) (noNl_cons (by decide) (noNl_cons (by decide)
        (noNl_cons (by decide) (noNl_cons (by decide) (noNl_cons (by decide)
          (noNl_cons (by decide) (noNl_cons (by decide) hwl)))))))

theorem noNl_generateAiMapLines (d rel : Str) (info : FileInfo)
    (hwf : wfFileInfo info) (hd : noNl d) (hrel : noNl rel) :
    ∀ l ∈ generateAiMapLines d [(rel, info)], noNl l := by
  obtain ⟨hdesc, himp, hfun, hcls, hconst, hexp, hcg⟩ := hwf
  intro l hl
  rw [generateAiMapLines] at hl
  rcases List.mem_cons.mp hl with rfl | hl
  · exact noNl_append
      (noNl_cons (by decide) (noNl_cons (by decide) (noNl_cons (by decide)
        (noNl_cons (by decide) (noNl_cons (by decide) (noNl_cons (by decide)
          (noNl_cons (by decide) (noNl_basename hd)))))))) (by decide)
  rcases List.mem_append.mp hl with hl | hl
  swap
  · have : l = '@' :: 'F' :: 'N' :: 'M' :: 'A' :: 'P' :: [] := by simpa using hl
    subst this; decide
  simp only [List.flatMap_cons, List.flatMap_nil, List.append_nil] at hl
  rw [entryLines] at hl
  rcases List.mem_append.mp hl with hl | hl
  on_goal 2 =>
    rcases hel : info.exports with _ | ⟨e0, es⟩
    · rw [hel] at hl; simp at hl
    · rw [hel] at hl
      rw [if_pos (by simp)] at hl
      have hll : l = ' ' :: ' ' :: '>' :: joinSep [','] ((e0 :: es).map exportName) := by
        simpa using hl
      subst hll
      apply noNl_cons (by decide) (noNl_cons (by decide) (noNl_cons (by decide)
        (noNl_joinSep (by decide) ?_)))
      intro x hx
      obtain ⟨e, he, rfl⟩ := List.mem_map.mp hx
      exact noNl_exportName e (hexp e (hel ▸ he))
  rcases List.mem_append.mp hl with hl | hl
  on_goal 2 =>
    obtain ⟨k, hk, rfl⟩ := List.mem_map.mp hl
    exact noNl_constantLine k (hconst k hk)
  rcases List.mem_append.mp hl with hl | hl
  on_goal 2 =>
    obtain ⟨fn, hf, rfl⟩ := List.mem_map.mp hl
    exact noNl_functionLine info.callGraph fn hcg (hfun fn hf)
  rcases List.mem_append.mp hl with hl | hl
  on_goal 2 =>
    obtain ⟨cls, hcm, hlm⟩ := List.mem_flatMap.mp hl
    rcases List.mem_cons.mp hlm with rfl | hlm
    · exact noNl_classHeaderLine cls (hcls cls hcm)
    · obtain ⟨m, hmm, rfl⟩ := List.mem_map.mp hlm
      exact noNl_methodLine info.callGraph cls.name m hcg ((hcls cls hcm).2.2.2.2.2 m hmm)
  rcases List.mem_cons.mp hl with rfl | hl
  · exact noNl_fileHeaderLine rel info hrel hdesc
  · obtain ⟨imp, hi, rfl⟩ := List.mem_map.mp hl
    exact noNl_importLine imp (himp imp hi)

theorem filterMap_map {α β γ : Type} (f : β → Option γ) (g : α → β) :
    ∀ l : List α, (l.map g).filterMap f = l.filterMap (fun a => f (g a)) := by
  intro l
  induction l with
  | nil => rfl
  | cons x xs ih => simp only [List.map_cons, List.filterMap_cons, ih]

theorem filterMap_flatMap {α β γ : Type} (f : β → Option γ) (g : α → List β) :
    ∀ l : List α, (l.flatMap g).filterMap f = l.flatMap (fun a => (g a).filterMap f) := by
  intro l
  induction l with
  | nil => rfl
  | cons x xs ih => simp only [List.flatMap_cons, List.filterMap_append, ih]

theorem flatMap_congr_mem {α β : Type} (f g : α → List β) :
    ∀ l : List α, (∀ x ∈ l, f x = g x) → l.flatMap f = l.flatMap g := by
  intro l
  induction l with
  | nil => intro _; rfl
  | cons x xs ih =>
    intro h
    simp only [List.flatMap_cons, h x (by simp), ih (fun y hy => h y (by simp [hy]))]

/-- **C6** — Round trip of the compact index: for every well-formed Module,
parsing the text produced by `generateAiMap` line by line recovers exactly the
(name, parameter-signature, line-range) tuple of every method (in class order)
and every function the Module contains. -/
theorem c6_index_roundTrip (d rel : Str) (info : FileInfo)
    (hwf : wfFileInfo info) (hd : noNl d) (hrel : noNl rel) :
    parseFnmapLines (splitOnNl (generateAiMap d [(rel, info)])) =
      (info.classes.flatMap fun cls => cls.methods.map fun m => Sum.inr (mTupleOf m)) ++
        info.functions.map fun fn => Sum.inl (fnTupleOf fn) := by
  obtain ⟨hdesc, himp, hfun, hcls, hconst, hexp, hcg⟩ := hwf
  rw [generateAiMap, splitOnNl_joinSep _ (by simp [generateAiMapLines])
    (noNl_generateAiMapLines d rel info ⟨hdesc, himp, hfun, hcls, hconst, hexp, hcg⟩ hd hrel)]
  rw [generateAiMapLines, parseFnmapLines]
  simp only [List.flatMap_cons, List.flatMap_nil, List.append_nil]
  have hhdr : parseFnmapLine (('@' :: 'F' :: 'N' :: 'M' :: 'A' :: 'P' :: ' ' ::
      basenameStr d) ++ ['/']) = none := by
    rw [List.cons_append]
    exact parseFnmapLine_not_space '@' _ (by decide)
  have hftr : List.filterMap parseFnmapLine ['@' :: 'F' :: 'N' :: 'M' :: 'A' :: 'P' :: []] =
      [] := by decide
  rw [List.filterMap_append, hftr, List.append_nil, List.filterMap_cons, hhdr, entryLines]
  rw [List.filterMap_append]
  have hexpLine : List.filterMap parseFnmapLine
      (if info.exports ≠ [] then
        [' ' :: ' ' :: '>' :: joinSep [','] (info.exports.map exportName)]
      else []) = [] := by
    split
    · rw [List.filterMap_cons, parseFnmapLine_gt _]
      rfl
    · rfl
  rw [hexpLine, List.append_nil, List.filterMap_append]
  have hconsts : List.filterMap parseFnmapLine (info.constants.map constantLine) = [] := by
    rw [filterMap_map]
    apply filterMap_all_none
    intro k hk
    exact parseFnmapLine_constLine k (hconst k hk).2.2.1 (hconst k hk).2.2.2
  rw [hconsts, List.append_nil, List.filterMap_append]
  have hfuns : List.filterMap parseFnmapLine
      (info.functions.map (functionLine info.callGraph)) =
      info.functions.map fun fn => Sum.inl (fnTupleOf fn) := by
    rw [filterMap_map]
    apply filterMap_all_some
    intro fn hf
    obtain ⟨_, _, _, w4, w5, w6, w7, w8⟩ := hfun fn hf
    exact parseFnmapLine_functionLine info.callGraph fn w4 w5 w7 w8 w6
  rw [hfuns, List.filterMap_append]
  have hclsBlocks : List.filterMap parseFnmapLine
      (info.classes.flatMap fun cls =>
        classHeaderLine cls :: cls.methods.map (methodLine info.callGraph cls.name)) =
      info.classes.flatMap fun cls => cls.methods.map fun m => Sum.inr (mTupleOf m) := by
    rw [filterMap_flatMap]
    apply flatMap_congr_mem
    intro cls hc
    obtain ⟨w1, w2, w3, w4, w5, w6⟩ := hcls cls hc
    rw [List.filterMap_cons, parseFnmapLine_classHeader cls w3 w4
      (fun s hs => ⟨(wfSuper_all w5 s hs).2.1, (wfSuper_all w5 s hs).2.2⟩)]
    rw [filterMap_map]
    apply filterMap_all_some
    intro m hm
    obtain ⟨_, _, _, v4, v5, v6⟩ := w6 m hm
    exact parseFnmapLine_methodLine info.callGraph cls.name m v4 v5 v6
  rw [hclsBlocks]
  have hhdrLine : List.filterMap parseFnmapLine
      (fileHeaderLine rel info :: info.imports.map importLine) = [] := by
    rw [List.filterMap_cons, parseFnmapLine_fileHeader, filterMap_map]
    apply filterMap_all_none
    intro imp hi
    exact parseFnmapLine_importLine imp
  rw [hhdrLine, List.nil_append]

/-- Witness for C6 at the concrete Module `sampleInfo`. -/
theorem c6_index_roundTrip_witness :
    wfFileInfo sampleInfo ∧
    parseFnmapLines (splitOnNl (generateAiMap "src".toList [("test.js".toList, sampleInfo)])) =
      (sampleInfo.classes.flatMap fun cls => cls.methods.map fun m => Sum.inr (mTupleOf m)) ++
        sampleInfo.functions.map fun fn => Sum.inl (fnTupleOf fn) :=
  ⟨by decide, c6_index_roundTrip _ _ _ (by decide) (by decide) (by decide)⟩

/-! ## C9 — blank input -/

/-- **C9** — For every input string that is empty or consists only of
whitespace, `analyzeFile` returns a Module whose description is empty, whose
import, function, class, constant and export lists are all empty and whose
call graph is empty, without reporting any error; the purity flag is left
unset (`none`) rather than set to `true`. -/
theorem c9_blank_input (parse : Str → Except ParseErr StmtList) (fp : Option Str)
    (s : Str) (h : ∀ c ∈ s, isJsWs c = true) :
    analyzeFile parse (.str s) fp = .ok emptyInfo ∧
    emptyInfo.description = [] ∧ emptyInfo.imports = [] ∧ emptyInfo.functions = [] ∧
    emptyInfo.classes = [] ∧ emptyInfo.constants = [] ∧ emptyInfo.exports = [] ∧
    emptyInfo.callGraph = [] ∧ emptyInfo.isPureType = none := by
  refine ⟨?_, rfl, rfl, rfl, rfl, rfl, rfl, rfl, rfl⟩
  have h1 : s.dropWhile isJsWs = [] := (takeWhile_all isJsWs s h).2
  simp [analyzeFile, trimStr, h1]

/-- Witness for C9 at the whitespace input `"  \n\t "`. -/
theorem c9_blank_input_witness :
    (∀ c ∈ "  \n\t ".toList, isJsWs c = true) ∧
    analyzeFile (fun _ => .ok .nil) (.str "  \n\t ".toList) none = .ok emptyInfo :=
  ⟨by decide, (c9_blank_input (fun _ => .ok .nil) none "  \n\t ".toList (by decide)).1⟩

/-! ## C7 — structured parse failure -/

theorem joinSep_ne_nil_of_head {sep x : Str} {xs : List Str} (h : x ≠ []) :
    joinSep sep (x :: xs) ≠ [] := by
  cases xs with
  | nil => simpa [joinSep] using h
  | cons y ys =>
    have hexp : joinSep sep (x :: y :: ys) = x ++ sep ++ joinSep sep (y :: ys) := rfl
    rw [hexp]
    simp [h]

/-- **C7** — For every input whose parse fails (and which survives the
null/blank early returns), `analyzeFile` returns a structured failure carrying
a non-empty message, the parser-supplied line/column location when present,
and no Module fields (the `failure` branch of `AnalyzeResult` carries
only the error record). -/
theorem c7_parse_failure (parse : Str → Except ParseErr StmtList) (fp : Option Str)
    (s : Str) (e : ParseErr) (h1 : trimStr s ≠ []) (h2 : parse s = .error e) :
    ∃ msg : Str, msg ≠ [] ∧
      analyzeFile parse (.str s) fp =
        .failure { parseError := msg, errorType := .PARSE_ERROR, loc := e.loc } := by
  refine ⟨formatError .PARSE_ERROR
      ("Syntax error: ".toList ++ e.message ++ " / 语法错误".toList) fp e.loc
      (some "Check syntax errors in the file / 检查文件中的语法错误".toList), ?_, ?_⟩
  · exact joinSep_ne_nil_of_head (by simp)
  · rw [analyzeFile, if_neg h1, h2]

/-- Witness for C7 at a concrete failing parse with a location. -/
theorem c7_parse_failure_witness :
    trimStr "x".toList ≠ [] ∧
    ∃ msg : Str, msg ≠ [] ∧
      analyzeFile (fun _ => .error ⟨"boom".toList, some ⟨3, 5⟩⟩) (.str "x".toList) none =
        .failure { parseError := msg, errorType := .PARSE_ERROR, loc := some ⟨3, 5⟩ } :=
  ⟨by decide,
    c7_parse_failure (fun _ => .error ⟨"boom".toList, some ⟨3, 5⟩⟩) none "x".toList
      ⟨"boom".toList, some ⟨3, 5⟩⟩ (by decide) rfl⟩

/-- **C2 counterexample** — the claimed equivalence fails on the code: a file
containing only the side-effect import `import 'x';` (a statement that is not
type-only — the claim explicitly lists side-effect-only imports as
runtime-effect) is nevertheless classified pure. -/
theorem c2_counterexample :
    ¬(isPureTypeFile c2prog = true ↔ allStmts claimedTypeOnly c2prog = true) := by
  decide

theorem impSpecsAnyValue_nonempty {specs : ImpSpecList}
    (h : impSpecsAnyValue specs = true) : impSpecsNonempty specs = true := by
  cases specs with
  | nil => simp [impSpecsAnyValue] at h
  | cons sp ss => rfl

theorem amendedTypeOnly_eq (s : Stmt) : amendedTypeOnly s = !stmtHasRuntime s := by
  cases s with
  | importDecl src specs kind =>
    cases kind with
    | type => simp [amendedTypeOnly, stmtHasRuntime]
    | value =>
      cases h : impSpecsAnyValue specs with
      | false => simp [amendedTypeOnly, stmtHasRuntime, h]
      | true =>
        simp [amendedTypeOnly, stmtHasRuntime, h, impSpecsAnyValue_nonempty h]
  | exportNamed d specs kind loc =>
    cases kind with
    | type => simp [amendedTypeOnly, stmtHasRuntime]
    | value =>
      cases d with
      | some decl =>
        cases decl <;> simp [amendedTypeOnly, stmtHasRuntime]
      | none =>
        cases specs with
        | nil => simp [amendedTypeOnly, stmtHasRuntime, expSpecsAnyValue, expSpecsNonempty]
        | cons sp ss =>
          simp [amendedTypeOnly, stmtHasRuntime, expSpecsNonempty]
  | exportAll kind => cases kind <;> simp [amendedTypeOnly, stmtHasRuntime]
  | exportDefault d loc => simp [amendedTypeOnly, stmtHasRuntime]
  | tsTypeAlias i => simp [amendedTypeOnly, stmtHasRuntime]
  | tsInterface i => simp [amendedTypeOnly, stmtHasRuntime]
  | tsEnum i => simp [amendedTypeOnly, stmtHasRuntime]
  | exprStmt e => simp [amendedTypeOnly, stmtHasRuntime]
  | varDecl k ds l => simp [amendedTypeOnly, stmtHasRuntime]
  | funcDecl i p b l => simp [amendedTypeOnly, stmtHasRuntime]
  | classDecl i sc b l => simp [amendedTypeOnly, stmtHasRuntime]
  | returnStmt e => simp [amendedTypeOnly, stmtHasRuntime]
  | block b => simp [amendedTypeOnly, stmtHasRuntime]
  | otherStmt => simp [amendedTypeOnly, stmtHasRuntime]

/-- **C2 (amended)** — the purity flag is `true` exactly when every top-level
statement is type-only in the amended sense: type alias / interface / enum
declarations, type-only imports, side-effect-only imports, type-only
exports/re-exports and empty named exports. In particular a file with only a
type alias and a type-only export is pure, and any executable statement,
value import or value export makes the flag `false`. -/
theorem c2_purity : (body : StmtList) →
    isPureTypeFile body = allStmts amendedTypeOnly body
  | .nil => rfl
  | .cons s ss => by
    rw [isPureTypeFile, allStmts, amendedTypeOnly_eq s, c2_purity ss]
    cases stmtHasRuntime s <;> simp

theorem extPrefix_refl (σ : ExtractState) : extPrefix σ σ :=
  ⟨List.prefix_refl _, List.prefix_refl _, List.prefix_refl _⟩

theorem extPrefix_trans {a b c : ExtractState} (h1 : extPrefix a b) (h2 : extPrefix b c) :
    extPrefix a c :=
  ⟨h1.1.trans h2.1, h1.2.1.trans h2.2.1, h1.2.2.trans h2.2.2⟩

theorem extPrefix_pushFn (σ : ExtractState) (n p : Str) (s e : Nat) :
    extPrefix σ (pushFn σ n p s e) :=
  ⟨List.prefix_append _ _, List.prefix_refl _, List.prefix_refl _⟩

theorem extPrefix_pushClass (σ : ExtractState) (c : ClassInfo) :
    extPrefix σ (pushClass σ c) :=
  ⟨List.prefix_refl _, List.prefix_append _ _, List.prefix_refl _⟩

theorem extPrefix_pushConst (σ : ExtractState) (n : Str) (l : Nat) :
    extPrefix σ (pushConst σ n l) :=
  ⟨List.prefix_refl _, List.prefix_refl _, List.prefix_append _ _⟩

theorem usageHit_pre (σ : ExtractState) (encl : Option Str) (n : Str) :
    extPrefix σ (usageHit σ encl n) := by
  rw [usageHit.eq_def]
  repeat' split
  all_goals exact ⟨List.prefix_refl _, List.prefix_refl _, List.prefix_refl _⟩

theorem visitObjProps_pre (name : Str) : ∀ (σ : ExtractState) (ps : ObjPropList),
    extPrefix σ (visitObjProps name σ ps)
  | σ, .nil => extPrefix_refl σ
  | σ, .cons (.objMethod key params body loc) ps =>
    extPrefix_trans (extPrefix_pushFn _ _ _ _ _) (visitObjProps_pre name _ ps)
  | σ, .cons (.objProp (.ident k) v loc) ps => by
    cases v <;>
      first
        | exact extPrefix_trans (extPrefix_pushFn _ _ _ _ _) (visitObjProps_pre name _ ps)
        | exact visitObjProps_pre name _ ps
  | σ, .cons (.objProp .other v loc) ps => visitObjProps_pre name _ ps
  | σ, .cons .otherProp ps => visitObjProps_pre name _ ps

theorem visitOneDeclarator_pre (σ : ExtractState) (kind : VarKind) (loc : Option Loc)
    (d : VarDecl) : extPrefix σ (visitOneDeclarator σ kind loc d) := by
  rw [visitOneDeclarator.eq_def]
  dsimp only
  repeat' split
  all_goals
    first
      | exact extPrefix_refl _
      | exact extPrefix_pushFn _ _ _ _ _
      | exact extPrefix_pushClass _ _
      | exact extPrefix_pushConst _ _ _
      | exact visitObjProps_pre _ _ _
      | exact extPrefix_trans (visitObjProps_pre _ _ _) (extPrefix_pushConst _ _ _)

theorem visitVarDecls_pre (kind : VarKind) (loc : Option Loc) :
    ∀ (σ : ExtractState) (ds : VarDeclList), extPrefix σ (visitVarDecls kind loc σ ds)
  | σ, .nil => extPrefix_refl σ
  | σ, .cons d ds =>
    extPrefix_trans (visitOneDeclarator_pre σ kind loc d)
      (visitVarDecls_pre kind loc _ ds)

theorem visitExportDefault_pre (σ : ExtractState) (d : DefaultDecl) (loc : Option Loc) :
    extPrefix σ (visitExportDefault σ d loc) := by
  rw [visitExportDefault.eq_def]
  repeat' split
  all_goals
    first
      | exact extPrefix_refl _
      | exact extPrefix_pushFn _ _ _ _ _
      | exact extPrefix_pushClass _ _

theorem visitAssignTop_pre (σ : ExtractState) (l r : Expr) (loc : Option Loc) :
    extPrefix σ (visitAssignTop σ l r loc) := by
  rw [visitAssignTop.eq_def]
  repeat' split
  all_goals
    first
      | exact extPrefix_refl _
      | exact extPrefix_pushFn _ _ _ _ _
      | exact extPrefix_pushClass _ _

mutual

theorem walk2Expr_pre : ∀ (σ : ExtractState) (encl : Option Str) (e : Expr),
    extPrefix σ (walk2Expr σ encl e)
  | σ, encl, .ident name => usageHit_pre σ encl name
  | σ, _, .thisE => extPrefix_refl σ
  | σ, _, .strLit s => extPrefix_refl σ
  | σ, _, .otherE => extPrefix_refl σ
  | σ, encl, .call callee args =>
    extPrefix_trans (walk2Expr_pre σ encl callee) (walk2Exprs_pre _ encl args)
  | σ, encl, .member obj (.ident p) =>
    extPrefix_trans (usageHit_pre σ encl p) (walk2Expr_pre _ encl obj)
  | σ, encl, .member obj .other => walk2Expr_pre σ encl obj
  | σ, encl, .arrowFn params body =>
    extPrefix_trans (walk2Pats_pre σ encl params) (walk2Stmts_pre _ encl .other body)
  | σ, encl, .funcExpr id params body =>
    extPrefix_trans (walk2Pats_pre σ encl params) (walk2Stmts_pre _ encl .other body)
  | σ, encl, .classExpr cid (some e) body =>
    extPrefix_trans (walk2Expr_pre σ encl e) (walk2Members_pre _ encl cid body)
  | σ, encl, .classExpr cid none body => walk2Members_pre σ encl cid body
  | σ, encl, .objectE props => walk2ObjProps_pre σ encl props
  | σ, encl, .assign l r loc =>
    extPrefix_trans (walk2Expr_pre σ encl l) (walk2Expr_pre _ encl r)

theorem walk2Exprs_pre : ∀ (σ : ExtractState) (encl : Option Str) (es : ExprList),
    extPrefix σ (walk2Exprs σ encl es)
  | σ, _, .nil => extPrefix_refl σ
  | σ, encl, .cons e es =>
    extPrefix_trans (walk2Expr_pre σ encl e) (walk2Exprs_pre _ encl es)

theorem walk2Pat_pre : ∀ (σ : ExtractState) (encl : Option Str) (p : Pat),
    extPrefix σ (walk2Pat σ encl p)
  | σ, _, .id n => extPrefix_refl σ
  | σ, encl, .assignP l r =>
    extPrefix_trans (walk2Pat_pre σ encl l) (walk2Expr_pre _ encl r)
  | σ, encl, .rest a => walk2Pat_pre σ encl a
  | σ, encl, .objectP props => walk2ObjPats_pre σ encl props
  | σ, _, .otherP => extPrefix_refl σ

theorem walk2Pats_pre : ∀ (σ : ExtractState) (encl : Option Str) (ps : PatList),
    extPrefix σ (walk2Pats σ encl ps)
  | σ, _, .nil => extPrefix_refl σ
  | σ, encl, .cons p ps =>
    extPrefix_trans (walk2Pat_pre σ encl p) (walk2Pats_pre _ encl ps)

theorem walk2ObjPats_pre : ∀ (σ : ExtractState) (encl : Option Str) (ps : ObjPatList),
    extPrefix σ (walk2ObjPats σ encl ps)
  | σ, _, .nil => extPrefix_refl σ
  | σ, encl, .cons (.prop k v) ps =>
    extPrefix_trans (walk2Pat_pre σ encl v) (walk2ObjPats_pre _ encl ps)
  | σ, encl, .cons .otherP ps => walk2ObjPats_pre σ encl ps

theorem walk2ObjProps_pre : ∀ (σ : ExtractState) (encl : Option Str) (ps : ObjPropList),
    extPrefix σ (walk2ObjProps σ encl ps)
  | σ, _, .nil => extPrefix_refl σ
  | σ, encl, .cons (.objMethod key params body loc) ps =>
    extPrefix_trans
      (extPrefix_trans (walk2Pats_pre σ encl params) (walk2Stmts_pre _ encl .other body))
      (walk2ObjProps_pre _ encl ps)
  | σ, encl, .cons (.objProp k v loc) ps =>
    extPrefix_trans (walk2Expr_pre σ encl v) (walk2ObjProps_pre _ encl ps)
  | σ, encl, .cons .otherProp ps => walk2ObjProps_pre σ encl ps

theorem walk2Members_pre : ∀ (σ : ExtractState) (encl : Option Str) (cid : Option Str)
    (ms : MemberList), extPrefix σ (walk2Members σ encl cid ms)
  | σ, _, _, .nil => extPrefix_refl σ
  | σ, encl, cid, .cons (.method key params body st kind loc) ms =>
    extPrefix_trans
      (extPrefix_trans (walk2Pats_pre σ _ params) (walk2Stmts_pre _ _ .other body))
      (walk2Members_pre _ encl cid ms)
  | σ, encl, cid, .cons .otherMember ms => walk2Members_pre σ encl cid ms

theorem walk2VarDecls_pre : ∀ (σ : ExtractState) (encl : Option Str) (ds : VarDeclList),
    extPrefix σ (walk2VarDecls σ encl ds)
  | σ, _, .nil => extPrefix_refl σ
  | σ, encl, .cons (.mk pid (some i)) ds =>
    extPrefix_trans
      (extPrefix_trans (walk2Pat_pre σ encl pid) (walk2Expr_pre _ _ i))
      (walk2VarDecls_pre _ encl ds)
  | σ, encl, .cons (.mk pid none) ds =>
    extPrefix_trans (walk2Pat_pre σ encl pid) (walk2VarDecls_pre _ encl ds)

theorem walk2Stmt_pre : ∀ (σ : ExtractState) (encl : Option Str) (sp : SP) (s : Stmt),
    extPrefix σ (walk2Stmt σ encl sp s)
  | σ, encl, sp, .exprStmt e => by
    refine extPrefix_trans ?_ (walk2Expr_pre _ encl e)
    cases sp <;> cases e <;>
      first
        | exact visitAssignTop_pre _ _ _ _
        | exact extPrefix_refl _
  | σ, encl, sp, .varDecl kind decls loc => by
    refine extPrefix_trans ?_ (walk2VarDecls_pre _ encl decls)
    cases sp with
    | program => exact visitVarDecls_pre kind loc σ decls
    | exportNamed => exact visitVarDecls_pre kind loc σ decls
    | other => exact extPrefix_refl σ
  | σ, encl, sp, .funcDecl id params body loc =>
    extPrefix_trans (extPrefix_pushFn _ _ _ _ _)
      (extPrefix_trans (walk2Pats_pre _ _ params) (walk2Stmts_pre _ _ .other body))
  | σ, encl, sp, .classDecl id (some e) body loc =>
    extPrefix_trans (extPrefix_pushClass _ _)
      (extPrefix_trans (walk2Expr_pre _ encl e) (walk2Members_pre _ encl id body))
  | σ, encl, sp, .classDecl id none body loc =>
    extPrefix_trans (extPrefix_pushClass _ _) (walk2Members_pre _ encl id body)
  | σ, _, _, .importDecl src specs k => extPrefix_refl σ
  | σ, encl, sp, .exportNamed (some s) specs k loc => walk2Stmt_pre σ encl .exportNamed s
  | σ, encl, sp, .exportNamed none specs k loc => extPrefix_refl σ
  | σ, encl, sp, .exportDefault (.fn id params body) loc =>
    extPrefix_trans (visitExportDefault_pre σ _ loc)
      (extPrefix_trans (walk2Pats_pre _ _ params) (walk2Stmts_pre _ _ .other body))
  | σ, encl, sp, .exportDefault (.cls cid (some e) body) loc =>
    extPrefix_trans (visitExportDefault_pre σ _ loc)
      (extPrefix_trans (walk2Expr_pre _ encl e) (walk2Members_pre _ encl cid body))
  | σ, encl, sp, .exportDefault (.cls cid none body) loc =>
    extPrefix_trans (visitExportDefault_pre σ _ loc) (walk2Members_pre _ encl cid body)
  | σ, encl, sp, .exportDefault (.expr e) loc =>
    extPrefix_trans (visitExportDefault_pre σ _ loc) (walk2Expr_pre _ encl e)
  | σ, _, _, .exportAll k => extPrefix_refl σ
  | σ, _, _, .tsTypeAlias i => extPrefix_refl σ
  | σ, _, _, .tsInterface i => extPrefix_refl σ
  | σ, _, _, .tsEnum i => extPrefix_refl σ
  | σ, encl, _, .returnStmt (some x) => walk2Expr_pre σ encl x
  | σ, encl, _, .returnStmt none => extPrefix_refl σ
  | σ, encl, _, .block body => walk2Stmts_pre σ encl .other body
  | σ, _, _, .otherStmt => extPrefix_refl σ

theorem walk2Stmts_pre : ∀ (σ : ExtractState) (encl : Option Str) (sp : SP)
    (ss : StmtList), extPrefix σ (walk2Stmts σ encl sp ss)
  | σ, _, _, .nil => extPrefix_refl σ
  | σ, encl, sp, .cons s ss =>
    extPrefix_trans (walk2Stmt_pre σ encl sp s) (walk2Stmts_pre _ encl sp ss)

end

theorem prefix_head {α : Type} {l1 l2 : List α} (h : l1 <+: l2) (hne : l1 ≠ []) :
    l2.head? = l1.head? := by
  obtain ⟨t, rfl⟩ := h
  cases l1 with
  | nil => exact absurd rfl hne
  | cons x xs => rfl

theorem specFnParamNorm_eq (p : Pat) : specFnParamNorm p = normParamFull p := by
  cases p with
  | id n => rfl
  | assignP l r => cases l <;> rfl
  | rest a => cases a <;> rfl
  | objectP props => rfl
  | otherP => rfl

theorem specMethodParamNorm_eq (p : Pat) : specMethodParamNorm p = normParamMethod p := by
  cases p with
  | id n => rfl
  | assignP l r => cases l <;> rfl
  | rest a => cases a <;> rfl
  | objectP props => rfl
  | otherP => rfl

theorem mapParams_congr (f g : Pat → Str) (h : ∀ p, f p = g p) :
    ∀ ps, mapParams f ps = mapParams g ps
  | .nil => rfl
  | .cons p ps => by rw [mapParams, mapParams, h p, mapParams_congr f g h ps]

theorem paramsSig_fnSpec (ps : PatList) :
    paramsSig specFnParamNorm ps = paramsSig normParamFull ps := by
  rw [paramsSig, paramsSig, mapParams_congr _ _ specFnParamNorm_eq ps]

theorem paramsSig_methodSpec (ps : PatList) :
    paramsSig specMethodParamNorm ps = paramsSig normParamMethod ps := by
  rw [paramsSig, paramsSig, mapParams_congr _ _ specMethodParamNorm_eq ps]

/-- **C3 counterexample** — the claim's mapping is wrong for class methods: in
`class C { m(...args) {} }` the recorded parameter signature of `m` is `?`,
while the claimed mapping gives `...args`. -/
theorem c3_counterexample :
    ((analyzeAst c3prog []).classes.map fun c => c.methods.map fun m => m.params) =
      [["?".toList]] ∧
    paramsSig specFnParamNorm c3params = "...args".toList ∧
    "?".toList ≠ "...args".toList := by
  decide

/-- **C3 (amended)** — for every parameter list: a function declaration's
recorded signature maps each parameter by the claimed rule (identifier →
name, default → `name?`, rest → `...name`, other → `?`, joined by commas),
while a class method's recorded signature uses the same rule without the
rest case (rest parameters also render as `?`). Stated on the first recorded
function/class of single-declaration programs with arbitrary parameter
lists, bodies and locations. -/
theorem c3_params (fname : Str) (fps : PatList) (fbody : StmtList) (floc : Option Loc)
    (d1 : Str) (cname mname : Str) (mps : PatList) (mbody : StmtList) (mst : Bool)
    (mkind : MethodKind) (mloc cloc : Option Loc) (d2 : Str) :
    (analyzeAst (.cons (.funcDecl (some fname) fps fbody floc) .nil) d1).functions.head? =
      some { name := fname, params := paramsSig specFnParamNorm fps,
             startLine := locStart floc, endLine := locEnd floc, description := [] } ∧
    (analyzeAst (.cons (.classDecl (some cname) none
        (.cons (.method (.ident mname) mps mbody mst mkind mloc) .nil) cloc) .nil)
        d2).classes.head? =
      some { name := cname, superClass := none, startLine := locStart cloc,
             endLine := locEnd cloc,
             methods := [{ name := mname, params := paramsSig specMethodParamNorm mps,
                           line := locStart mloc, static := mst, kind := mkind,
                           description := [] }],
             description := [] } := by
  constructor
  · rw [paramsSig_fnSpec]
    have hp := extPrefix_trans
      (walk2Pats_pre (pushFn
          ⟨[], [], [],
            (importPass (.cons (.funcDecl (some fname) fps fbody floc) .nil)).usageMap⟩
          fname (paramsSig normParamFull fps) (locStart floc) (locEnd floc))
        (some fname) fps)
      (walk2Stmts_pre _ (some fname) .other fbody)
    exact prefix_head hp.1 (by simp [pushFn])
  · rw [paramsSig_methodSpec]
    have hp := walk2Members_pre
      (pushClass
        ⟨[], [], [],
          (importPass (.cons (.classDecl (some cname) none
            (.cons (.method (.ident mname) mps mbody mst mkind mloc) .nil) cloc)
            .nil)).usageMap⟩
        (classInfoOf cname (getSuperClassName none)
          (.cons (.method (.ident mname) mps mbody mst mkind mloc) .nil) cloc))
      none (some cname)
      (.cons (.method (.ident mname) mps mbody mst mkind mloc) .nil)
    exact prefix_head hp.2.1 (by simp [pushClass])

/-- **C4 counterexample** — the claim fails on a doubly-dotted superclass:
for `class C extends A.B.C {}` the claimed rule yields the root identifier
`A`, but the analyzer records no superclass at all (`null`), because only a
one-level member expression is recognized. -/
theorem c4_counterexample :
    (analyzeAst c4prog []).classes.map (fun c => c.superClass) = [none] ∧
    specClaimedSuper (some (.member (.member (.ident "A".toList) (.ident "B".toList))
      (.ident "C".toList))) = some "A".toList := by
  decide

theorem specAmendedSuper_eq (sc : Option Expr) :
    specAmendedSuper sc = getSuperClassName sc := by
  cases sc with
  | none => rfl
  | some e =>
    cases e with
    | member obj prop => cases obj <;> cases prop <;> rfl
    | ident n => rfl
    | thisE => rfl
    | strLit s => rfl
    | otherE => rfl
    | call c a => rfl
    | arrowFn p b => rfl
    | funcExpr i p b => rfl
    | classExpr i s b => rfl
    | objectE p => rfl
    | assign l r o => rfl

/-- **C4 (amended)** — for every class declaration `class N extends E { … }`,
the recorded superclass follows the amended rule: identifier → its name,
one-level `A.B` (both identifiers) → `A`, anything else (including `A.B.C`)
→ none. Stated on the first recorded class of an arbitrary
single-class-declaration program. -/
theorem c4_superclass (cname : Str) (sc : Option Expr) (body : MemberList)
    (cloc : Option Loc) (d : Str) :
    (analyzeAst (.cons (.classDecl (some cname) sc body cloc) .nil) d).classes.head? =
      some { name := cname, superClass := specAmendedSuper sc,
             startLine := locStart cloc, endLine := locEnd cloc,
             methods := methodsOf body, description := [] } := by
  rw [specAmendedSuper_eq]
  cases sc with
  | none =>
    have hp := walk2Members_pre
      (pushClass
        ⟨[], [], [],
          (importPass (.cons (.classDecl (some cname) none body cloc) .nil)).usageMap⟩
        (classInfoOf cname (getSuperClassName none) body cloc))
      none (some cname) body
    exact prefix_head hp.2.1 (by simp [pushClass])
  | some e =>
    have hp := extPrefix_trans
      (walk2Expr_pre
        (pushClass
          ⟨[], [], [],
            (importPass (.cons (.classDecl (some cname) (some e) body cloc)
              .nil)).usageMap⟩
          (classInfoOf cname (getSuperClassName (some e)) body cloc))
        none e)
      (walk2Members_pre _ none (some cname) body)
    exact prefix_head hp.2.1 (by simp [pushClass])

/-! ## C8 — import merging and last-write-wins alias binding -/

theorem alGet_mapAddTo_self : ∀ (mm : List (Str × List Str)) (k x : Str)
    (cur : List Str), alGet mm k = some cur →
    alGet (mapAddTo mm k x) k = some (setAdd cur x)
  | [], k, x, cur, h => by rw [alGet] at h; exact absurd h (by simp)
  | (k0, v) :: rest, k, x, cur, h => by
    by_cases hk : k0 = k
    · rw [alGet, if_pos hk] at h
      cases Option.some.inj h
      rw [mapAddTo, if_pos hk, alGet, if_pos hk]
    · rw [alGet, if_neg hk] at h
      rw [mapAddTo, if_neg hk, alGet, if_neg hk]
      exact alGet_mapAddTo_self rest k x cur h

theorem alGet_alSet_self {α : Type} : ∀ (mm : List (Str × α)) (k : Str) (v : α),
    alGet (alSet mm k v) k = some v
  | [], k, v => by rw [alSet, alGet, if_pos rfl]
  | (k0, w) :: rest, k, v => by
    by_cases hk : k0 = k
    · rw [alSet, if_pos hk, alGet, if_pos hk]
    · rw [alSet, if_neg hk, alGet, if_neg hk]
      exact alGet_alSet_self rest k v

theorem mapEnsure_of_some {mm : List (Str × List Str)} {m : Str} {cur : List Str}
    (h : alGet mm m = some cur) : mapEnsure mm m = mm := by
  rw [mapEnsure, alHas, h]
  rfl

theorem visitImportSpecs_importsMap (m : Str) : ∀ (σ : ImportState)
    (ss : ImpSpecList) (cur : List Str), alGet σ.importsMap m = some cur →
    alGet (visitImportSpecs m σ ss).importsMap m =
      some (List.foldl setAdd cur (specMembers ss))
  | σ, .nil, cur, h => by rw [visitImportSpecs, specMembers]; exact h
  | σ, .cons sp ss, cur, h => by
    cases sp with
    | defaultSpec l =>
      rw [visitImportSpecs, specMembers]
      dsimp only
      by_cases hc : ('d' :: 'e' :: 'f' :: 'a' :: 'u' :: 'l' :: 't' :: []) ≠ ([] : Str) ∧
          l ≠ ([] : Str)
      · simp only [if_pos hc]
        exact visitImportSpecs_importsMap m _ ss _ (alGet_mapAddTo_self _ _ _ _ h)
      · simp only [if_neg hc]
        exact visitImportSpecs_importsMap m σ ss cur h
    | namespaceSpec l =>
      rw [visitImportSpecs, specMembers]
      dsimp only
      by_cases hc : ('*' :: []) ≠ ([] : Str) ∧ l ≠ ([] : Str)
      · simp only [if_pos hc]
        exact visitImportSpecs_importsMap m _ ss _ (alGet_mapAddTo_self _ _ _ _ h)
      · simp only [if_neg hc]
        exact visitImportSpecs_importsMap m σ ss cur h
    | namedSpec key l k =>
      cases key with
      | ident n =>
        rw [visitImportSpecs, specMembers]
        dsimp only
        by_cases hc : n ≠ ([] : Str) ∧ l ≠ ([] : Str)
        · simp only [if_pos hc]
          exact visitImportSpecs_importsMap m _ ss _ (alGet_mapAddTo_self _ _ _ _ h)
        · simp only [if_neg hc]
          exact visitImportSpecs_importsMap m σ ss cur h
      | str v =>
        rw [visitImportSpecs, specMembers]
        dsimp only
        by_cases hc : v ≠ ([] : Str) ∧ l ≠ ([] : Str)
        · simp only [if_pos hc]
          exact visitImportSpecs_importsMap m _ ss _ (alGet_mapAddTo_self _ _ _ _ h)
        · simp only [if_neg hc]
          exact visitImportSpecs_importsMap m σ ss cur h

/-- **C8** — alias collection over two imports. First conjunct: two imports
of the same module `m` record as `m`'s member set the union of both imports'
member lists, deduplicated in first-seen order. Second conjunct: when two
successive imports bind the same (non-empty) local name, the
local-alias→module map records the later module — last write wins. -/
theorem c8_import_merge (m : Str) (ss1 ss2 : ImpSpecList) (k1 k2 : TKind)
    (m1 m2 l : Str) (hl : l ≠ []) :
    alGet (importPass (.cons (.importDecl m ss1 k1)
        (.cons (.importDecl m ss2 k2) .nil))).importsMap m =
      some (dedupFirst (specMembers ss1 ++ specMembers ss2)) ∧
    alGet (importPass (.cons (.importDecl m1 (.cons (.defaultSpec l) .nil) k1)
        (.cons (.importDecl m2 (.cons (.defaultSpec l) .nil) k2) .nil))).localToModule
        l = some m2 := by
  constructor
  · have h0 : alGet (mapEnsure ([] : List (Str × List Str)) m) m = some [] := by
      show alGet [(m, [])] m = some []
      rw [alGet, if_pos rfl]
    have hA := visitImportSpecs_importsMap m ⟨mapEnsure [] m, [], []⟩ ss1 [] h0
    have hEns := mapEnsure_of_some hA
    have hB := visitImportSpecs_importsMap m
      ⟨mapEnsure (visitImportSpecs m ⟨mapEnsure [] m, [], []⟩ ss1).importsMap m,
       (visitImportSpecs m ⟨mapEnsure [] m, [], []⟩ ss1).localToModule,
       (visitImportSpecs m ⟨mapEnsure [] m, [], []⟩ ss1).usageMap⟩ ss2
      (List.foldl setAdd [] (specMembers ss1)) (by rw [hEns]; exact hA)
    rw [dedupFirst, List.foldl_append]
    exact hB
  · have hstep : ∀ (σ : ImportState) (mm : Str) (kk : TKind),
        walk1Stmt σ (.importDecl mm (.cons (.defaultSpec l) .nil) kk) =
          bindLocal ⟨mapAddTo (mapEnsure σ.importsMap mm) mm
              ('d' :: 'e' :: 'f' :: 'a' :: 'u' :: 'l' :: 't' :: []),
            σ.localToModule, σ.usageMap⟩ l mm := by
      intro σ mm kk
      rw [walk1Stmt, visitImportSpecs]
      dsimp only
      rw [if_pos ⟨by decide, hl⟩, visitImportSpecs]
    rw [importPass, walk1Stmts, walk1Stmts, walk1Stmts, hstep, hstep]
    exact alGet_alSet_self _ l m2

/-- Witness for C8 at `import { a } from 'm'; import { b, a } from 'm'`
(members merge to `[a, b]`) and two default imports rebinding `x`. -/
theorem c8_import_merge_witness :
    ("x".toList ≠ ([] : Str)) ∧
    (alGet (importPass (.cons (.importDecl "m".toList
        (.cons (.namedSpec (.ident "a".toList) "a".toList .value) .nil) .value)
        (.cons (.importDecl "m".toList
          (.cons (.namedSpec (.ident "b".toList) "b".toList .value)
            (.cons (.namedSpec (.ident "a".toList) "a".toList .value) .nil)) .value)
          .nil))).importsMap "m".toList =
      some (dedupFirst (specMembers
          (.cons (.namedSpec (.ident "a".toList) "a".toList .value) .nil) ++
        specMembers (.cons (.namedSpec (.ident "b".toList) "b".toList .value)
          (.cons (.namedSpec (.ident "a".toList) "a".toList .value) .nil)))) ∧
    alGet (importPass (.cons (.importDecl "m1".toList
        (.cons (.defaultSpec "x".toList) .nil) .value)
        (.cons (.importDecl "m2".toList (.cons (.defaultSpec "x".toList) .nil) .value)
          .nil))).localToModule "x".toList = some "m2".toList) :=
  ⟨by decide,
    c8_import_merge "m".toList
      (.cons (.namedSpec (.ident "a".toList) "a".toList .value) .nil)
      (.cons (.namedSpec (.ident "b".toList) "b".toList .value)
        (.cons (.namedSpec (.ident "a".toList) "a".toList .value) .nil))
      .value .value "m1".toList "m2".toList "x".toList (by decide)⟩

mutual

theorem walk3Expr_sites : ∀ (dfs imps : List Str) (cg : CallGraph)
    (encl : Option Str) (e : Expr),
    walk3Expr dfs imps cg encl e = (sitesExpr encl e).foldl (edgeStep dfs imps) cg
  | dfs, imps, cg, encl, .ident n => rfl
  | dfs, imps, cg, encl, .thisE => rfl
  | dfs, imps, cg, encl, .strLit s => rfl
  | dfs, imps, cg, encl, .otherE => rfl
  | dfs, imps, cg, encl, .call callee args => by
    show walk3Exprs dfs imps
        (walk3Expr dfs imps (visitCallSite dfs imps cg encl callee) encl callee)
        encl args =
      ((encl, callee) :: (sitesExpr encl callee ++ sitesExprs encl args)).foldl
        (edgeStep dfs imps) cg
    rw [List.foldl_cons, List.foldl_append,
        walk3Expr_sites dfs imps _ encl callee, walk3Exprs_sites dfs imps _ encl args]
    rfl
  | dfs, imps, cg, encl, .member obj prop => walk3Expr_sites dfs imps cg encl obj
  | dfs, imps, cg, encl, .arrowFn params body => by
    show walk3Stmts dfs imps (walk3Pats dfs imps cg encl params) encl body =
      (sitesPats encl params ++ sitesStmts encl body).foldl (edgeStep dfs imps) cg
    rw [List.foldl_append, walk3Pats_sites dfs imps cg encl params,
        walk3Stmts_sites dfs imps _ encl body]
  | dfs, imps, cg, encl, .funcExpr id params body => by
    show walk3Stmts dfs imps (walk3Pats dfs imps cg encl params) encl body =
      (sitesPats encl params ++ sitesStmts encl body).foldl (edgeStep dfs imps) cg
    rw [List.foldl_append, walk3Pats_sites dfs imps cg encl params,
        walk3Stmts_sites dfs imps _ encl body]
  | dfs, imps, cg, encl, .classExpr cid (some e) body => by
    show walk3Members dfs imps (walk3Expr dfs imps cg encl e) encl cid body =
      (sitesExpr encl e ++ sitesMembers encl cid body).foldl (edgeStep dfs imps) cg
    rw [List.foldl_append, walk3Expr_sites dfs imps cg encl e,
        walk3Members_sites dfs imps _ encl cid body]
  | dfs, imps, cg, encl, .classExpr cid none body =>
    walk3Members_sites dfs imps cg encl cid body
  | dfs, imps, cg, encl, .objectE props => walk3ObjProps_sites dfs imps cg encl props
  | dfs, imps, cg, encl, .assign l r loc => by
    show walk3Expr dfs imps (walk3Expr dfs imps cg encl l) encl r =
      (sitesExpr encl l ++ sitesExpr encl r).foldl (edgeStep dfs imps) cg
    rw [List.foldl_append, walk3Expr_sites dfs imps cg encl l,
        walk3Expr_sites dfs imps _ encl r]

theorem walk3Exprs_sites : ∀ (dfs imps : List Str) (cg : CallGraph)
    (encl : Option Str) (es : ExprList),
    walk3Exprs dfs imps cg encl es = (sitesExprs encl es).foldl (edgeStep dfs imps) cg
  | dfs, imps, cg, encl, .nil => rfl
  | dfs, imps, cg, encl, .cons e es => by
    show walk3Exprs dfs imps (walk3Expr dfs imps cg encl e) encl es =
      (sitesExpr encl e ++ sitesExprs encl es).foldl (edgeStep dfs imps) cg
    rw [List.foldl_append, walk3Expr_sites dfs imps cg encl e,
        walk3Exprs_sites dfs imps _ encl es]

theorem walk3Pat_sites : ∀ (dfs imps : List Str) (cg : CallGraph)
    (encl : Option Str) (p : Pat),
    walk3Pat dfs imps cg encl p = (sitesPat encl p).foldl (edgeStep dfs imps) cg
  | dfs, imps, cg, encl, .id n => rfl
  | dfs, imps, cg, encl, .assignP l r => by
    show walk3Expr dfs imps (walk3Pat dfs imps cg encl l) encl r =
      (sitesPat encl l ++ sitesExpr encl r).foldl (edgeStep dfs imps) cg
    rw [List.foldl_append, walk3Pat_sites dfs imps cg encl l,
        walk3Expr_sites dfs imps _ encl r]
  | dfs, imps, cg, encl, .rest a => walk3Pat_sites dfs imps cg encl a
  | dfs, imps, cg, encl, .objectP props => walk3ObjPats_sites dfs imps cg encl props
  | dfs, imps, cg, encl, .otherP => rfl

theorem walk3Pats_sites : ∀ (dfs imps : List Str) (cg : CallGraph)
    (encl : Option Str) (ps : PatList),
    walk3Pats dfs imps cg encl ps = (sitesPats encl ps).foldl (edgeStep dfs imps) cg
  | dfs, imps, cg, encl, .nil => rfl
  | dfs, imps, cg, encl, .cons p ps => by
    show walk3Pats dfs imps (walk3Pat dfs imps cg encl p) encl ps =
      (sitesPat encl p ++ sitesPats encl ps).foldl (edgeStep dfs imps) cg
    rw [List.foldl_append, walk3Pat_sites dfs imps cg encl p,
        walk3Pats_sites dfs imps _ encl ps]

theorem walk3ObjPats_sites : ∀ (dfs imps : List Str) (cg : CallGraph)
    (encl : Option Str) (ps : ObjPatList),
    walk3ObjPats dfs imps cg encl ps =
      (sitesObjPats encl ps).foldl (edgeStep dfs imps) cg
  | dfs, imps, cg, encl, .nil => rfl
  | dfs, imps, cg, encl, .cons (.prop k v) ps => by
    show walk3ObjPats dfs imps (walk3Pat dfs imps cg encl v) encl ps =
      (sitesPat encl v ++ sitesObjPats encl ps).foldl (edgeStep dfs imps) cg
    rw [List.foldl_append, walk3Pat_sites dfs imps cg encl v,
        walk3ObjPats_sites dfs imps _ encl ps]
  | dfs, imps, cg, encl, .cons .otherP ps => walk3ObjPats_sites dfs imps cg encl ps

theorem walk3ObjProps_sites : ∀ (dfs imps : List Str) (cg : CallGraph)
    (encl : Option Str) (ps : ObjPropList),
    walk3ObjProps dfs imps cg encl ps =
      (sitesObjProps encl ps).foldl (edgeStep dfs imps) cg
  | dfs, imps, cg, encl, .nil => rfl
  | dfs, imps, cg, encl, .cons (.objMethod key params body loc) ps => by
    show walk3ObjProps dfs imps
        (walk3Stmts dfs imps (walk3Pats dfs imps cg encl params) encl body) encl ps =
      ((sitesPats encl params ++ sitesStmts encl body) ++ sitesObjProps encl ps).foldl
        (edgeStep dfs imps) cg
    rw [List.foldl_append, List.foldl_append, walk3Pats_sites dfs imps cg encl params,
        walk3Stmts_sites dfs imps _ encl body, walk3ObjProps_sites dfs imps _ encl ps]
  | dfs, imps, cg, encl, .cons (.objProp k v loc) ps => by
    show walk3ObjProps dfs imps (walk3Expr dfs imps cg encl v) encl ps =
      (sitesExpr encl v ++ sitesObjProps encl ps).foldl (edgeStep dfs imps) cg
    rw [List.foldl_append, walk3Expr_sites dfs imps cg encl v,
        walk3ObjProps_sites dfs imps _ encl ps]
  | dfs, imps, cg, encl, .cons .otherProp ps => walk3ObjProps_sites dfs imps cg encl ps

theorem walk3Members_sites : ∀ (dfs imps : List Str) (cg : CallGraph)
    (encl : Option Str) (cid : Option Str) (ms : MemberList),
    walk3Members dfs imps cg encl cid ms =
      (sitesMembers encl cid ms).foldl (edgeStep dfs imps) cg
  | dfs, imps, cg, encl, cid, .nil => rfl
  | dfs, imps, cg, encl, cid, .cons (.method key params body st kind loc) ms => by
    show walk3Members dfs imps
        (walk3Stmts dfs imps
          (walk3Pats dfs imps cg (some (methodEncl cid key)) params)
          (some (methodEncl cid key)) body) encl cid ms =
      ((sitesPats (some (methodEncl cid key)) params ++
          sitesStmts (some (methodEncl cid key)) body) ++
        sitesMembers encl cid ms).foldl (edgeStep dfs imps) cg
    rw [List.foldl_append, List.foldl_append,
        walk3Pats_sites dfs imps cg (some (methodEncl cid key)) params,
        walk3Stmts_sites dfs imps _ (some (methodEncl cid key)) body,
        walk3Members_sites dfs imps _ encl cid ms]
  | dfs, imps, cg, encl, cid, .cons .otherMember ms =>
    walk3Members_sites dfs imps cg encl cid ms

theorem walk3VarDecls_sites : ∀ (dfs imps : List Str) (cg : CallGraph)
    (encl : Option Str) (ds : VarDeclList),
    walk3VarDecls dfs imps cg encl ds =
      (sitesVarDecls encl ds).foldl (edgeStep dfs imps) cg
  | dfs, imps, cg, encl, .nil => rfl
  | dfs, imps, cg, encl, .cons (.mk pid (some i)) ds => by
    show walk3VarDecls dfs imps
        (walk3Expr dfs imps (walk3Pat dfs imps cg encl pid)
          (match pid, i with
           | .id n, .arrowFn _ _ => some n
           | .id n, .funcExpr _ _ _ => some n
           | _, _ => encl) i) encl ds =
      ((sitesPat encl pid ++
          sitesExpr
            (match pid, i with
             | .id n, .arrowFn _ _ => some n
             | .id n, .funcExpr _ _ _ => some n
             | _, _ => encl) i) ++ sitesVarDecls encl ds).foldl (edgeStep dfs imps) cg
    rw [List.foldl_append, List.foldl_append, walk3Pat_sites dfs imps cg encl pid,
        walk3Expr_sites dfs imps _ _ i, walk3VarDecls_sites dfs imps _ encl ds]
  | dfs, imps, cg, encl, .cons (.mk pid none) ds => by
    have h1 : walk3VarDecls dfs imps cg encl (.cons (.mk pid none) ds) =
        walk3VarDecls dfs imps (walk3Pat dfs imps cg encl pid) encl ds := rfl
    have h2 : sitesVarDecls encl (.cons (.mk pid none) ds) =
        (sitesPat encl pid ++ ([] : List (Option Str × Expr))) ++
          sitesVarDecls encl ds := rfl
    rw [h1, h2, List.append_nil, List.foldl_append,
        walk3Pat_sites dfs imps cg encl pid, walk3VarDecls_sites dfs imps _ encl ds]

theorem walk3Stmt_sites : ∀ (dfs imps : List Str) (cg : CallGraph)
    (encl : Option Str) (s : Stmt),
    walk3Stmt dfs imps cg encl s = (sitesStmt encl s).foldl (edgeStep dfs imps) cg
  | dfs, imps, cg, encl, .exprStmt e => walk3Expr_sites dfs imps cg encl e
  | dfs, imps, cg, encl, .varDecl kind decls loc =>
    walk3VarDecls_sites dfs imps cg encl decls
  | dfs, imps, cg, encl, .funcDecl (some n) params body loc => by
    show walk3Stmts dfs imps (walk3Pats dfs imps cg (some n) params) (some n) body =
      (sitesPats (some n) params ++ sitesStmts (some n) body).foldl
        (edgeStep dfs imps) cg
    rw [List.foldl_append, walk3Pats_sites dfs imps cg (some n) params,
        walk3Stmts_sites dfs imps _ (some n) body]
  | dfs, imps, cg, encl, .funcDecl none params body loc => by
    show walk3Stmts dfs imps (walk3Pats dfs imps cg encl params) encl body =
      (sitesPats encl params ++ sitesStmts encl body).foldl (edgeStep dfs imps) cg
    rw [List.foldl_append, walk3Pats_sites dfs imps cg encl params,
        walk3Stmts_sites dfs imps _ encl body]
  | dfs, imps, cg, encl, .classDecl cid (some e) body loc => by
    show walk3Members dfs imps (walk3Expr dfs imps cg encl e) encl cid body =
      (sitesExpr encl e ++ sitesMembers encl cid body).foldl (edgeStep dfs imps) cg
    rw [List.foldl_append, walk3Expr_sites dfs imps cg encl e,
        walk3Members_sites dfs imps _ encl cid body]
  | dfs, imps, cg, encl, .classDecl cid none body loc =>
    walk3Members_sites dfs imps cg encl cid body
  | dfs, imps, cg, encl, .importDecl src specs k => rfl
  | dfs, imps, cg, encl, .exportNamed (some s) specs k loc =>
    walk3Stmt_sites dfs imps cg encl s
  | dfs, imps, cg, encl, .exportNamed none specs k loc => rfl
  | dfs, imps, cg, encl, .exportDefault (.fn (some n) params body) loc => by
    show walk3Stmts dfs imps (walk3Pats dfs imps cg (some n) params) (some n) body =
      (sitesPats (some n) params ++ sitesStmts (some n) body).foldl
        (edgeStep dfs imps) cg
    rw [List.foldl_append, walk3Pats_sites dfs imps cg (some n) params,
        walk3Stmts_sites dfs imps _ (some n) body]
  | dfs, imps, cg, encl, .exportDefault (.fn none params body) loc => by
    show walk3Stmts dfs imps (walk3Pats dfs imps cg encl params) encl body =
      (sitesPats encl params ++ sitesStmts encl body).foldl (edgeStep dfs imps) cg
    rw [List.foldl_append, walk3Pats_sites dfs imps cg encl params,
        walk3Stmts_sites dfs imps _ encl body]
  | dfs, imps, cg, encl, .exportDefault (.cls cid (some e) body) loc => by
    show walk3Members dfs imps (walk3Expr dfs imps cg encl e) encl cid body =
      (sitesExpr encl e ++ sitesMembers encl cid body).foldl (edgeStep dfs imps) cg
    rw [List.foldl_append, walk3Expr_sites dfs imps cg encl e,
        walk3Members_sites dfs imps _ encl cid body]
  | dfs, imps, cg, encl, .exportDefault (.cls cid none body) loc =>
    walk3Members_sites dfs imps cg encl cid body
  | dfs, imps, cg, encl, .exportDefault (.expr e) loc =>
    walk3Expr_sites dfs imps cg encl e
  | dfs, imps, cg, encl, .exportAll k => rfl
  | dfs, imps, cg, encl, .tsTypeAlias i => rfl
  | dfs, imps, cg, encl, .tsInterface i => rfl
  | dfs, imps, cg, encl, .tsEnum i => rfl
  | dfs, imps, cg, encl, .returnStmt (some x) => walk3Expr_sites dfs imps cg encl x
  | dfs, imps, cg, encl, .returnStmt none => rfl
  | dfs, imps, cg, encl, .block body => walk3Stmts_sites dfs imps cg encl body
  | dfs, imps, cg, encl, .otherStmt => rfl

theorem walk3Stmts_sites : ∀ (dfs imps : List Str) (cg : CallGraph)
    (encl : Option Str) (ss : StmtList),
    walk3Stmts dfs imps cg encl ss = (sitesStmts encl ss).foldl (edgeStep dfs imps) cg
  | dfs, imps, cg, encl, .nil => rfl
  | dfs, imps, cg, encl, .cons s ss => by
    show walk3Stmts dfs imps (walk3Stmt dfs imps cg encl s) encl ss =
      (sitesStmt encl s ++ sitesStmts encl ss).foldl (edgeStep dfs imps) cg
    rw [List.foldl_append, walk3Stmt_sites dfs imps cg encl s,
        walk3Stmts_sites dfs imps _ encl ss]

end

/-! ## Association-list and `Set.add` membership lemmas for pass 3 -/

theorem setAdd_mem_self (s : List Str) (x : Str) : x ∈ setAdd s x := by
  rw [setAdd]
  split
  · assumption
  · simp

theorem setAdd_mem_mono {s : List Str} {y : Str} (x : Str) (h : y ∈ s) :
    y ∈ setAdd s x := by
  rw [setAdd]
  split
  · exact h
  · exact List.mem_append_left _ h

theorem alGet_append_of_none {α : Type} : ∀ (mm : List (Str × α)) (m : Str) (v : α),
    alGet mm m = none → alGet (mm ++ [(m, v)]) m = some v
  | [], m, v, _ => by rw [List.nil_append, alGet, if_pos rfl]
  | (k0, w) :: rest, m, v, h => by
    rw [alGet] at h
    by_cases hk : k0 = m
    · rw [if_pos hk] at h
      exact absurd h (by simp)
    · rw [if_neg hk] at h
      rw [List.cons_append, alGet, if_neg hk]
      exact alGet_append_of_none rest m v h

theorem alGet_mapEnsure_self (mm : List (Str × List Str)) (m : Str) :
    alGet (mapEnsure mm m) m = some ((alGet mm m).getD []) := by
  cases hg : alGet mm m with
  | some v => rw [mapEnsure_of_some hg, hg]; rfl
  | none =>
    rw [mapEnsure, alHas, hg]
    show alGet (mm ++ [(m, [])]) m = some []
    exact alGet_append_of_none mm m [] hg

theorem alGet_append_ne {α : Type} {k c : Str} (v : α) (hk : k ≠ c) :
    ∀ (mm : List (Str × α)), alGet (mm ++ [(c, v)]) k = alGet mm k
  | [] => by
    simp only [List.nil_append, alGet]
    rw [if_neg (fun hh => hk hh.symm)]
  | (k0, w) :: rest => by
    rw [List.cons_append, alGet, alGet]
    split
    · rfl
    · exact alGet_append_ne v hk rest

theorem alGet_mapEnsure_ne {k c : Str} (mm : List (Str × List Str)) (hk : k ≠ c) :
    alGet (mapEnsure mm c) k = alGet mm k := by
  rw [mapEnsure]
  split
  · rfl
  · exact alGet_append_ne [] hk mm

theorem alGet_mapAddTo_ne {k c : Str} (x : Str) (hk : k ≠ c) :
    ∀ (mm : List (Str × List Str)), alGet (mapAddTo mm c x) k = alGet mm k
  | [] => rfl
  | (k0, v) :: rest => by
    by_cases h0 : k0 = c
    · rw [mapAddTo, if_pos h0, alGet, alGet]
      have : k0 ≠ k := fun hh => hk (hh ▸ h0)
      rw [if_neg (fun hh => this hh), if_neg (fun hh => this hh)]
    · rw [mapAddTo, if_neg h0, alGet, alGet]
      split
      · rfl
      · exact alGet_mapAddTo_ne x hk rest

/-- A recorded callee stays recorded when any further edge is added. -/
theorem mem_alGet_addEdge {cg : CallGraph} {k mn : Str} (c x : Str)
    (h : mn ∈ (alGet cg k).getD []) : mn ∈ (alGet (addEdge cg c x) k).getD [] := by
  rw [addEdge]
  by_cases hk : k = c
  · subst hk
    cases hv : alGet cg k with
    | none => rw [hv] at h; exact absurd h (by simp)
    | some v =>
      rw [hv] at h
      have h1 : alGet (mapEnsure cg k) k = some v := by
        rw [alGet_mapEnsure_self, hv]
        rfl
      rw [alGet_mapAddTo_self _ _ _ _ h1]
      exact setAdd_mem_mono x h
  · rw [alGet_mapAddTo_ne x hk, alGet_mapEnsure_ne _ hk]
    exact h

/-- The edge added by `addEdge` is recorded. -/
theorem mem_alGet_addEdge_self (cg : CallGraph) (c x : Str) :
    x ∈ (alGet (addEdge cg c x) c).getD [] := by
  rw [addEdge, alGet_mapAddTo_self _ _ _ _ (alGet_mapEnsure_self cg c)]
  exact setAdd_mem_self _ x

theorem mem_alGet_edgeStep (D I : List Str) {cg : CallGraph} {k mn : Str}
    (p : Option Str × Expr) (h : mn ∈ (alGet cg k).getD []) :
    mn ∈ (alGet (edgeStep D I cg p) k).getD [] := by
  rw [edgeStep, visitCallSite.eq_def]
  repeat' split
  all_goals first
    | exact h
    | exact mem_alGet_addEdge _ _ h

theorem mem_alGet_foldl_edgeStep (D I : List Str) {k mn : Str} :
    ∀ (sites : List (Option Str × Expr)) (cg : CallGraph),
    mn ∈ (alGet cg k).getD [] →
    mn ∈ (alGet (sites.foldl (edgeStep D I) cg) k).getD []
  | [], cg, h => h
  | p :: rest, cg, h =>
    mem_alGet_foldl_edgeStep D I rest _ (mem_alGet_edgeStep D I p h)

/-- If a call site with resolved enclosing name `caller` and a callee that
classifies to `mn` (passing the defined/imported filter and the
self-call/falsy-caller guards) occurs among `sites`, the folded call graph
records the edge `caller → mn`. -/
theorem mem_edge_foldl (D I : List Str) (caller mn : Str) (callee : Expr)
    (hcn : callCalleeName I callee = some mn)
    (hor : mn ∈ D ∨ (mn ∈ I ∨ ('.' ∈ mn ∧ dotPrefix mn ∈ I)))
    (hc1 : caller ≠ []) (hc2 : caller ≠ mn) :
    ∀ (sites : List (Option Str × Expr)) (cg : CallGraph),
    (some caller, callee) ∈ sites →
    mn ∈ (alGet (sites.foldl (edgeStep D I) cg) caller).getD []
  | [], cg, hmem => absurd hmem (by simp)
  | p :: rest, cg, hmem => by
    rw [List.foldl_cons]
    rcases List.mem_cons.mp hmem with heq | htail
    · apply mem_alGet_foldl_edgeStep D I rest
      rw [← heq]
      show mn ∈ (alGet (visitCallSite D I cg (some caller) callee) caller).getD []
      rw [visitCallSite.eq_def, hcn]
      show mn ∈ (alGet (if caller ≠ [] ∧ caller ≠ mn then
        if mn ∈ D ∨ (mn ∈ I ∨ ('.' ∈ mn ∧ dotPrefix mn ∈ I)) then
          addEdge cg caller mn else cg else cg) caller).getD []
      rw [if_pos ⟨hc1, hc2⟩, if_pos hor]
      exact mem_alGet_addEdge_self cg caller mn
    · exact mem_edge_foldl D I caller mn callee hcn hor hc1 hc2 rest _ htail

/-! ## C1 — call-graph caller keys -/

theorem map_fst_mapAddTo : ∀ (mm : List (Str × List Str)) (c x : Str),
    (mapAddTo mm c x).map Prod.fst = mm.map Prod.fst
  | [], c, x => rfl
  | (k0, v) :: rest, c, x => by
    rw [mapAddTo]
    split
    · rfl
    · rw [List.map_cons, List.map_cons, map_fst_mapAddTo rest c x]

theorem mem_keys_mapEnsure {k : Str} (mm : List (Str × List Str)) (c : Str)
    (h : k ∈ (mapEnsure mm c).map Prod.fst) : k ∈ mm.map Prod.fst ∨ k = c := by
  rw [mapEnsure] at h
  split at h
  · exact Or.inl h
  · rw [List.map_append] at h
    rcases List.mem_append.mp h with h1 | h1
    · exact Or.inl h1
    · simp at h1
      exact Or.inr h1

theorem mem_keys_visitCallSite (D I : List Str) {cg : CallGraph}
    {encl : Option Str} {callee : Expr} {k : Str}
    (h : k ∈ (visitCallSite D I cg encl callee).map Prod.fst) :
    k ∈ cg.map Prod.fst ∨ (encl = some k ∧ k ≠ []) := by
  rw [visitCallSite.eq_def] at h
  repeat' split at h
  all_goals try exact Or.inl h
  rw [addEdge, map_fst_mapAddTo] at h
  rcases mem_keys_mapEnsure _ _ h with h1 | h1
  · exact Or.inl h1
  · subst h1
    rename_i hcond
    exact Or.inr ⟨rfl, hcond.1⟩

theorem mem_keys_foldl (D I : List Str) {k : Str} :
    ∀ (sites : List (Option Str × Expr)) (cg : CallGraph),
    k ∈ (sites.foldl (edgeStep D I) cg).map Prod.fst →
    k ∈ cg.map Prod.fst ∨ ∃ p ∈ sites, p.1 = some k ∧ k ≠ []
  | [], cg, h => Or.inl h
  | p :: rest, cg, h => by
    rw [List.foldl_cons] at h
    rcases mem_keys_foldl D I rest _ h with h1 | h1
    · rcases mem_keys_visitCallSite D I h1 with h2 | h2
      · exact Or.inl h2
      · exact Or.inr ⟨p, List.mem_cons_self p rest, h2⟩
    · obtain ⟨q, hq, hq2⟩ := h1
      exact Or.inr ⟨q, List.mem_cons_of_mem p hq, hq2⟩

/-- **C1 counterexample** — a caller key need not be a top-level function
name or a `Class.method` name: for a call inside an arrow function bound to a
local `const g` nested in `function f`, the recorded caller key is `g`, which
is neither among the extracted function names (`add`, `f`) nor any
`Class.method` name (there are no classes). -/
theorem c1_counterexample :
    (analyzeAst c1prog []).callGraph = [("g".toList, ["add".toList])] ∧
    ((analyzeAst c1prog []).functions.map fun fn => fn.name) =
      ["add".toList, "f".toList] ∧
    (analyzeAst c1prog []).classes = [] ∧
    "g".toList ∉ ["add".toList, "f".toList] := by
  decide

/-- **C1 (amended)** — every caller key of the call graph is the non-empty
enclosing-callable name resolved for some call site of the program (a named
function declaration, a class method, or a variable-bound arrow/function
expression — whatever `getEnclosingFunctionName` resolves); in particular no
call edge is recorded for a call expression whose enclosing-name resolution
returns `none` (module top level) or the empty name. -/
theorem c1_caller_keys (ast : StmtList) (d : Str) (k : Str)
    (h : k ∈ (analyzeAst ast d).callGraph.map Prod.fst) :
    k ≠ [] ∧ ∃ p ∈ callSites ast, p.1 = some k := by
  rcases mem_keys_foldl
      (definedFunctionsOf (extractPass ast (importPass ast).usageMap).functions
        (extractPass ast (importPass ast).usageMap).classes)
      ((importPass ast).localToModule.map (fun kv => kv.1))
      (callSites ast) []
      (by rw [callSites, ← walk3Stmts_sites]; exact h) with h1 | h1
  · exact absurd h1 (by simp)
  · obtain ⟨p, hp, hp1, hk⟩ := h1
    exact ⟨hk, p, hp, hp1⟩

/-- Witness for C1 at the nested-arrow program: `g` is a caller key and
indeed names the enclosing callable of a recorded call site. -/
theorem c1_caller_keys_witness :
    "g".toList ∈ (analyzeAst c1prog []).callGraph.map Prod.fst ∧
    ("g".toList ≠ [] ∧ ∃ p ∈ callSites c1prog, p.1 = some "g".toList) :=
  ⟨by decide, c1_caller_keys c1prog [] "g".toList (by decide)⟩

/-! ## C10 — defined-symbol set and bare method-call edges -/

theorem foldl_setAdd_mono {y : Str} : ∀ (l : List Str) (s : List Str),
    y ∈ s → y ∈ l.foldl setAdd s
  | [], s, h => h
  | x :: xs, s, h => foldl_setAdd_mono xs _ (setAdd_mem_mono x h)

theorem methods_fold_mono (cname : Str) {y : Str} : ∀ (ms : List MethodInfo)
    (s : List Str), y ∈ s →
    y ∈ ms.foldl (fun s m => setAdd (setAdd s m.name) (cname ++ '.' :: m.name)) s
  | [], s, h => h
  | m :: rest, s, h =>
    methods_fold_mono cname rest _ (setAdd_mem_mono _ (setAdd_mem_mono _ h))

theorem methods_fold_mem (cname : Str) {mm : MethodInfo} : ∀ (ms : List MethodInfo)
    (s : List Str), mm ∈ ms →
    mm.name ∈ ms.foldl (fun s m => setAdd (setAdd s m.name) (cname ++ '.' :: m.name)) s ∧
    (cname ++ '.' :: mm.name) ∈
      ms.foldl (fun s m => setAdd (setAdd s m.name) (cname ++ '.' :: m.name)) s
  | [], s, h => absurd h (by simp)
  | m :: rest, s, h => by
    rw [List.foldl_cons]
    rcases List.mem_cons.mp h with heq | ht
    · subst heq
      constructor
      · exact methods_fold_mono cname rest _
          (setAdd_mem_mono _ (setAdd_mem_self s mm.name))
      · exact methods_fold_mono cname rest _ (setAdd_mem_self _ _)
    · exact methods_fold_mem cname rest _ ht

theorem classes_fold_mono {y : Str} : ∀ (cls : List ClassInfo) (s : List Str),
    y ∈ s → y ∈ cls.foldl
      (fun s c => c.methods.foldl
        (fun s m => setAdd (setAdd s m.name) (c.name ++ '.' :: m.name)) s) s
  | [], s, h => h
  | c :: rest, s, h => classes_fold_mono rest _ (methods_fold_mono c.name c.methods s h)

theorem classes_fold_mem {c : ClassInfo} {mm : MethodInfo} (hm : mm ∈ c.methods) :
    ∀ (cls : List ClassInfo) (s : List Str), c ∈ cls →
    mm.name ∈ cls.foldl
      (fun s c => c.methods.foldl
        (fun s m => setAdd (setAdd s m.name) (c.name ++ '.' :: m.name)) s) s ∧
    (c.name ++ '.' :: mm.name) ∈ cls.foldl
      (fun s c => c.methods.foldl
        (fun s m => setAdd (setAdd s m.name) (c.name ++ '.' :: m.name)) s) s
  | [], s, h => absurd h (by simp)
  | c0 :: rest, s, h => by
    rw [List.foldl_cons]
    rcases List.mem_cons.mp h with heq | ht
    · subst heq
      obtain ⟨h1, h2⟩ := methods_fold_mem c.name c.methods s hm
      exact ⟨classes_fold_mono rest _ h1, classes_fold_mono rest _ h2⟩
    · exact classes_fold_mem hm rest _ ht

theorem definedFunctionsOf_mem {fns : List FunctionInfo} {cls : List ClassInfo}
    {c : ClassInfo} {mm : MethodInfo} (hc : c ∈ cls) (hm : mm ∈ c.methods) :
    mm.name ∈ definedFunctionsOf fns cls ∧
    (c.name ++ '.' :: mm.name) ∈ definedFunctionsOf fns cls :=
  classes_fold_mem hm cls _ hc

/-- **C10 counterexample** — the "consequently" part of the claim fails: in
`class C { m() {} }  function m() { x.m(); }` the call `x.m()` has a
non-import receiver, a class declares method `m`, and the enclosing callable
is the function `m`; yet no edge at all is recorded, because the builder also
suppresses self-edges (`caller === calleeName`) which the claim does not
allow for. -/
theorem c10_counterexample :
    (analyzeAst c10prog []).callGraph = [] ∧
    callSites c10prog =
      [(some "m".toList, Expr.member (.ident "x".toList) (.ident "m".toList))] ∧
    (importPass c10prog).localToModule = [] ∧
    ((analyzeAst c10prog []).classes.map fun c => c.methods.map fun mm => mm.name) =
      [["m".toList]] := by
  refine ⟨by decide, rfl, by decide, by decide⟩

/-- **C10 (amended)** — first conjunct: the defined-symbol set contains, for
every method of every extracted class, both the bare method name and the
qualified `Class.method` name. Second conjunct: for every call site
`receiver.m(...)` whose receiver is not a known import alias, if `m` is in
the defined-symbol set and the enclosing callable name is non-empty and
different from `m` (the builder suppresses falsy callers and self-calls), an
edge to the bare name `m` is recorded from the enclosing callable. -/
theorem c10_method_calls (ast : StmtList) (d : Str) :
    (∀ c ∈ (analyzeAst ast d).classes, ∀ mm ∈ c.methods,
      mm.name ∈ definedFunctionsOf (analyzeAst ast d).functions
        (analyzeAst ast d).classes ∧
      (c.name ++ '.' :: mm.name) ∈ definedFunctionsOf (analyzeAst ast d).functions
        (analyzeAst ast d).classes) ∧
    (∀ (caller r mn : Str),
      (some caller, Expr.member (.ident r) (.ident mn)) ∈ callSites ast →
      ¬(r ≠ [] ∧ r ∈ (importPass ast).localToModule.map (fun kv => kv.1)) →
      mn ∈ definedFunctionsOf (analyzeAst ast d).functions (analyzeAst ast d).classes →
      caller ≠ [] → caller ≠ mn →
      mn ∈ (alGet (analyzeAst ast d).callGraph caller).getD []) := by
  constructor
  · intro c hc mm hm
    exact definedFunctionsOf_mem hc hm
  · intro caller r mn hsite hr hdfs hc1 hc2
    have hcn : callCalleeName ((importPass ast).localToModule.map (fun kv => kv.1))
        (.member (.ident r) (.ident mn)) = some mn := by
      show (if r ≠ [] ∧ r ∈ (importPass ast).localToModule.map (fun kv => kv.1)
            then some (r ++ '.' :: mn) else some mn) = some mn
      rw [if_neg hr]
    show mn ∈ (alGet (walk3Stmts
        (definedFunctionsOf (extractPass ast (importPass ast).usageMap).functions
          (extractPass ast (importPass ast).usageMap).classes)
        ((importPass ast).localToModule.map (fun kv => kv.1)) [] none ast)
      caller).getD []
    rw [walk3Stmts_sites]
    exact mem_edge_foldl _ _ caller mn _ hcn (Or.inl hdfs) hc1 hc2 _ [] hsite

/-- Witness for C10: both names of `C.m` are in the defined-symbol set, and
`x.m()` inside `function f` records the edge `f → m`. -/
theorem c10_method_calls_witness :
    (w10cls ∈ (analyzeAst w10prog []).classes ∧ w10m ∈ w10cls.methods ∧
      "m".toList ∈ definedFunctionsOf (analyzeAst w10prog []).functions
        (analyzeAst w10prog []).classes ∧
      ("C".toList ++ '.' :: "m".toList) ∈ definedFunctionsOf
        (analyzeAst w10prog []).functions (analyzeAst w10prog []).classes) ∧
    ((some "f".toList, Expr.member (.ident "x".toList) (.ident "m".toList)) ∈
        callSites w10prog ∧
      "m".toList ∈ (alGet (analyzeAst w10prog []).callGraph "f".toList).getD []) :=
  ⟨⟨by decide, by decide,
     ((c10_method_calls w10prog []).1 w10cls (by decide) w10m (by decide)).1,
     ((c10_method_calls w10prog []).1 w10cls (by decide) w10m (by decide)).2⟩,
   ⟨List.mem_cons_self _ _,
     (c10_method_calls w10prog []).2 "f".toList "x".toList "m".toList
       (List.mem_cons_self _ _) (by decide) (by decide) (by decide) (by decide)⟩⟩

end Fnmap
